import Mathlib

/-!
Verification development for the plainkv key/value store.

The definitions below are a shallow embedding of the Go sources:
on-disk state (hash slots, B+ tree nodes, overflow regions) is modelled
by explicit functional data, 64-bit machine arithmetic by `Nat`
arithmetic reduced modulo `2 ^ 64` where the Go code can overflow, and
byte strings by `List Nat`.  Each definition is annotated with the Go
function it embeds.
-/

namespace PlainKV

/-- Byte strings (`[]byte` in the source). -/
abbrev Bytes := List Nat

/-- `2 ^ 64`, the modulus of Go `uint64` arithmetic. -/
def u64Mod : Nat := 2 ^ 64

/-- FNV-1a/64 offset basis (Go `hash/fnv`). -/
def fnvOffsetBasis : Nat := 14695981039346656037

/-- FNV-1a/64 prime (Go `hash/fnv`). -/
def fnvPrime : Nat := 1099511628211

/-- Embeds `sumKey` (hashmap.go): the FNV-1a/64 checksum of a key.
For each byte the state is xored with the byte and multiplied by the
prime, in wrapping 64-bit arithmetic. -/
def sumKey (key : Bytes) : Nat :=
  key.foldl (fun h b => ((h ^^^ b) * fnvPrime) % u64Mod) fnvOffsetBasis

/-- `maxShortKeySize` (hashmap.go). -/
def maxShortKeySize : Nat := 24

/-- Embeds `hashItem` (hashmap.go). -/
structure HashItem where
  keySum : Nat
  key : Bytes
  value : Bytes
  deriving DecidableEq, Inhabited

/-- Embeds `matchItem` (hashmap.go): a key-sum mismatch rules a long key
out before the byte comparison. -/
def matchItem (item : HashItem) (key : Bytes) (keySum : Nat) : Bool :=
  if maxShortKeySize < item.key.length ∧ item.keySum ≠ keySum then false
  else item.key == key

/-- The key sum an item carries in memory: `appendItem` (hashmap.go)
forces the stored sum of a short key to 0. -/
def storedSum (key : Bytes) : Nat :=
  if key.length ≤ maxShortKeySize then 0 else sumKey key

/-- The key sum `splitItems` (hashmap.go) works with: recomputed for a
short key (whose stored sum is 0), the stored field otherwise. -/
def splitItemKeySum (item : HashItem) : Nat :=
  if item.key.length ≤ maxShortKeySize then sumKey item.key else item.keySum

/-- Embeds `splitItems` (hashmap.go).  The source compacts the kept
items in place (preserving order) and appends each moved item to a
fresh slice, which is exactly a partition by the key-sum bit into two
order-preserving sublists. -/
def splitItems (items : List HashItem) (distinctKeySumBit : Nat) :
    List HashItem × List HashItem :=
  (items.filter fun it => splitItemKeySum it &&& distinctKeySumBit == 0,
   items.filter fun it => !(splitItemKeySum it &&& distinctKeySumBit == 0))

/-- Embeds the pairing loop of `mergeItems` (hashmap.go).  Iteration `i`
of the source multiplies the running `uint64` accumulator by the sum of
the two key lengths and writes `items1[i]` to output position
`2*i + (x & 1)` and `items2[i]` to its sibling position `2*i + (x&1 ^ 1)`,
which in list form is emitting the pair in that order; the leftover tail
of the longer input (at most one is nonempty) is appended at position
`2*min`, matching the two final `copy` calls. -/
def mergePairs (x : Nat) : List HashItem → List HashItem → List HashItem
  | item1 :: rest1, item2 :: rest2 =>
    if (x * (item1.key.length + item2.key.length)) % u64Mod % 2 = 1 then
      item2 :: item1 ::
        mergePairs ((x * (item1.key.length + item2.key.length)) % u64Mod) rest1 rest2
    else
      item1 :: item2 ::
        mergePairs ((x * (item1.key.length + item2.key.length)) % u64Mod) rest1 rest2
  | [], rest2 => rest2
  | item1 :: rest1, [] => item1 :: rest1

/-- Embeds `mergeItems` (hashmap.go); the accumulator starts at 1. -/
def mergeItems (items1 items2 : List HashItem) : List HashItem :=
  mergePairs 1 items1 items2

/-- The parity bit the specification describes, relative to a starting
accumulator `x`: the low bit of the running 64-bit product of
`|A[j].key| + |B[j].key|` over `j ≤ i`. -/
def mergeParityGo (x : Nat) (items1 items2 : List HashItem) (i : Nat) : Nat :=
  ((List.range (i + 1)).foldl
    (fun y j =>
      (y * ((items1.getD j default).key.length + (items2.getD j default).key.length)) % u64Mod)
    x) % 2

/-- The parity bit of the specification's merge policy (accumulator
initialized to 1 as in `mergeItems`). -/
def mergeParity (items1 items2 : List HashItem) (i : Nat) : Nat :=
  mergeParityGo 1 items1 items2 i

/-- Embeds `protocol.HashItemInfo` (hashmap.proto). -/
structure HashItemInfo where
  keySum : Nat
  keySize : Nat
  valueSize : Nat
  deriving DecidableEq, Inhabited

/-- Embeds `protocol.HashSlot` (hashmap.proto). -/
structure HashSlot where
  itemInfos : List HashItemInfo
  bin : Bytes
  deriving DecidableEq, Inhabited

/-- The final fix-up of `packSlot` (hashmap.go): the last item's
serialized value size is forced to 0. -/
def zeroLastValueSize : List HashItemInfo → List HashItemInfo
  | [] => []
  | [info] => [⟨info.keySum, info.keySize, 0⟩]
  | info :: info2 :: rest => info :: zeroLastValueSize (info2 :: rest)

/-- Embeds `packSlot` (hashmap.go): headers carry each item's key sum
and sizes (last value size zeroed), the blob is the concatenation of
all keys and values in item order. -/
def packSlot (items : List HashItem) : HashSlot :=
  if items.isEmpty then ⟨[], []⟩
  else
    { itemInfos :=
        zeroLastValueSize (items.map fun it => ⟨it.keySum, it.key.length, it.value.length⟩),
      bin := (items.map fun it => it.key ++ it.value).flatten }

/-- The decoding loop of `unpackSlot` (hashmap.go), fused with its
final fix-up: every item slices its key and value out of the blob by
the header sizes, except that the last item's value is the whole
remainder of the blob after its key and its (stored) value size were
consumed — the source reads the sized value first and then overwrites
it with `Bin[i:]`. -/
def unpackGo : List HashItemInfo → Bytes → List HashItem
  | [], _ => []
  | [info], bin =>
    [⟨info.keySum, bin.take info.keySize, (bin.drop info.keySize).drop info.valueSize⟩]
  | info :: info2 :: rest, bin =>
    ⟨info.keySum, bin.take info.keySize, (bin.drop info.keySize).take info.valueSize⟩
      :: unpackGo (info2 :: rest) ((bin.drop info.keySize).drop info.valueSize)

/-- Embeds `unpackSlot` (hashmap.go). -/
def unpackSlot (slot : HashSlot) : List HashItem :=
  unpackGo slot.itemInfos slot.bin

/-- Embeds the persistent hash-map state (hashmap.go).  Slot records on
disk are represented by the item lists they decode to (`unpackSlot` and
`packSlot` are mutually inverse, proved below), and the slot-directory
indirection — which only affects where a slot record is addressed, not
its content — is flattened into the list of slots.  `slotCount` is the
length of `slots`. -/
structure HashMap where
  slots : List (List HashItem)
  minSlotCountShift : Nat
  itemCount : Nat
  payloadSize : Int
  deriving DecidableEq, Inhabited

namespace HashMap

/-- `hm.slotCount` (hashmap.go). -/
def slotCount (hm : HashMap) : Nat := hm.slots.length

/-- Embeds `minSlotCount` (hashmap.go): `1 << minSlotCountShift`. -/
def minSlotCount (hm : HashMap) : Nat := 2 ^ hm.minSlotCountShift

/-- Embeds `maxSlotCountPlusOne` (hashmap.go): `1 << (shift+1)`. -/
def maxSlotCountPlusOne (hm : HashMap) : Nat := 2 ^ (hm.minSlotCountShift + 1)

/-- Embeds `calculateLowSlotIndex` (hashmap.go).  The Go expression
`highSlotIndex &^ hm.minSlotCount()` clears the single bit of the mask
`2 ^ shift`, i.e. subtracts the masked part. -/
def calculateLowSlotIndex (hm : HashMap) (highSlotIndex : Nat) : Nat :=
  highSlotIndex - (highSlotIndex &&& hm.minSlotCount)

/-- Embeds `calculateSlotIndex` (hashmap.go). -/
def calculateSlotIndex (hm : HashMap) (keySum : Nat) : Nat :=
  let slotIndex := keySum &&& (hm.maxSlotCountPlusOne - 1)
  if hm.slotCount ≤ slotIndex then hm.calculateLowSlotIndex slotIndex else slotIndex

/-- The slot index in arithmetic normal form: `h % 2^(s+1)`, remapped
to the low sibling when it falls beyond the live slots. -/
def slotIndexSpec (s sc h : Nat) : Nat :=
  if h % 2 ^ (s + 1) < sc then h % 2 ^ (s + 1) else h % 2 ^ (s + 1) - 2 ^ s

/-- Embeds `locateItem` (hashmap.go): the consulted slot index, that
slot's decoded items, and the position of the first matching item. -/
def locateItem (hm : HashMap) (key : Bytes) (keySum : Nat) :
    Nat × List HashItem × Option Nat :=
  let slotIndex := hm.calculateSlotIndex keySum
  let items := hm.slots.getD slotIndex []
  (slotIndex, items, items.findIdx? fun it => matchItem it key keySum)

/-- Numerator of `maxLoadFactor` (hashmap.go): the digits of the
source's decimal literal. -/
def maxLoadNum : Nat :=
  161803398874989484820458683436563811772030917980576286213544862270526046281890244970720720418939113748475

/-- Denominator of `maxLoadFactor`: the literal has 104 fractional
digits. -/
def maxLoadDen : Nat := 10 ^ 104

/-- `maxLoadFactor` (hashmap.go), as the exact value of the source's
decimal literal. -/
def maxLoadFactor : ℚ := (maxLoadNum : ℚ) / (maxLoadDen : ℚ)

/-- `minLoadFactor` (hashmap.go). -/
def minLoadFactor : ℚ := maxLoadFactor / 2

/-- Embeds `loadFactor` (hashmap.go); the `float64` division is
modelled by exact rational division. -/
def loadFactor (hm : HashMap) : ℚ := (hm.itemCount : ℚ) / (hm.slotCount : ℚ)

/-- The Go guard `hm.loadFactor() > maxLoadFactor`, cross-multiplied
into machine-checkable integer arithmetic (`overLoaded_iff` proves the
two forms agree whenever the map has a slot). -/
def overLoaded (hm : HashMap) : Prop :=
  maxLoadNum * hm.slotCount < hm.itemCount * maxLoadDen

instance (hm : HashMap) : Decidable (overLoaded hm) :=
  Nat.decLt _ _

/-- The Go guard `hm.loadFactor() < minLoadFactor`, cross-multiplied
(`underLoaded_iff` proves the two forms agree whenever the map has a
slot). -/
def underLoaded (hm : HashMap) : Prop :=
  hm.itemCount * (2 * maxLoadDen) < maxLoadNum * hm.slotCount

instance (hm : HashMap) : Decidable (underLoaded hm) :=
  Nat.decLt _ _

/-- One iteration of the `maybeExpand` loop (hashmap.go): split the low
sibling of the next slot by the key-sum bit `minSlotCount`, write the
kept items back, append the moved items as a brand-new slot (`addSlot`),
and bump the shift when the new slot count (`hm.slots.length + 1`)
reaches `maxSlotCountPlusOne`. -/
def expandStep (hm : HashMap) : HashMap :=
  { hm with
    slots :=
      hm.slots.set (hm.calculateLowSlotIndex hm.slotCount)
        (splitItems (hm.slots.getD (hm.calculateLowSlotIndex hm.slotCount) [])
          hm.minSlotCount).1
      ++ [(splitItems (hm.slots.getD (hm.calculateLowSlotIndex hm.slotCount) [])
          hm.minSlotCount).2],
    minSlotCountShift :=
      if hm.slots.length + 1 = hm.maxSlotCountPlusOne then hm.minSlotCountShift + 1
      else hm.minSlotCountShift }

/-- The `maybeExpand` loop (hashmap.go), with an explicit iteration
budget so that it evaluates structurally.  `maybeExpand` below supplies
a budget large enough that the loop always exits through its guard
(`expandLoop_post`), so the budget never changes the result. -/
def expandLoop : Nat → HashMap → HashMap
  | 0, hm => hm
  | fuel + 1, hm =>
    if overLoaded hm then expandLoop fuel hm.expandStep else hm

/-- Embeds `maybeExpand` (hashmap.go). -/
def maybeExpand (hm : HashMap) : HashMap :=
  expandLoop (hm.itemCount + 1) hm

/-- Embeds `removeSlot` (hashmap.go): detach the last slot, and
decrement the shift when the count falls below `minSlotCount`. -/
def removeSlotStep (hm : HashMap) : HashMap :=
  { hm with
    slots := hm.slots.dropLast,
    minSlotCountShift :=
      if hm.slots.dropLast.length < hm.minSlotCount then hm.minSlotCountShift - 1
      else hm.minSlotCountShift }

/-- One iteration of the `maybeShrink` loop (hashmap.go): `removeSlot`
detaches the last slot, then its items are merged into the low sibling
of the new slot count. -/
def shrinkStep (hm : HashMap) : HashMap :=
  { removeSlotStep hm with
    slots :=
      (removeSlotStep hm).slots.set
        ((removeSlotStep hm).calculateLowSlotIndex (removeSlotStep hm).slotCount)
        (mergeItems (hm.slots.getLastD [])
          ((removeSlotStep hm).slots.getD
            ((removeSlotStep hm).calculateLowSlotIndex (removeSlotStep hm).slotCount) [])) }

/-- The `maybeShrink` loop (hashmap.go), with an explicit iteration
budget; `maybeShrink` below supplies a budget large enough that the
loop always exits through its guard (`shrinkLoop_post`). -/
def shrinkLoop : Nat → HashMap → HashMap
  | 0, hm => hm
  | fuel + 1, hm =>
    if 2 ≤ hm.slotCount ∧ underLoaded hm then
      shrinkLoop fuel hm.shrinkStep
    else hm

/-- Embeds `maybeShrink` (hashmap.go). -/
def maybeShrink (hm : HashMap) : HashMap :=
  shrinkLoop hm.slots.length hm

/-- Embeds `appendItem` plus `postAddItem` (hashmap.go): zero the short
key's sum, append the item to its slot, bump the counters, expand if
overloaded. -/
def appendItem (hm : HashMap) (slotIndex : Nat) (items : List HashItem)
    (item : HashItem) : HashMap :=
  let item2 :=
    if item.key.length ≤ maxShortKeySize then { item with keySum := 0 } else item
  let hm1 : HashMap :=
    { hm with
      payloadSize := hm.payloadSize + item.key.length + item.value.length,
      slots := hm.slots.set slotIndex (items ++ [item2]),
      itemCount := hm.itemCount + 1 }
  maybeExpand hm1

/-- Embeds `removeItem` plus `postDeleteItem` (hashmap.go). -/
def removeItem (hm : HashMap) (slotIndex : Nat) (items : List HashItem)
    (i : Nat) (returnRemovedValue : Bool) : Option Bytes × HashMap :=
  let item := items.getD i default
  let hm1 : HashMap :=
    { hm with
      payloadSize := hm.payloadSize - item.key.length - item.value.length,
      slots := hm.slots.set slotIndex (items.eraseIdx i),
      itemCount := hm.itemCount - 1 }
  (if returnRemovedValue then some item.value else none, maybeShrink hm1)

/-- Embeds `replaceValue` (hashmap.go). -/
def replaceValue (hm : HashMap) (slotIndex : Nat) (items : List HashItem)
    (i : Nat) (value : Bytes) (returnReplacedValue : Bool) : Option Bytes × HashMap :=
  let item := items.getD i default
  let hm1 : HashMap :=
    { hm with
      payloadSize := hm.payloadSize + value.length - item.value.length,
      slots := hm.slots.set slotIndex (items.set i { item with value := value }) }
  (if returnReplacedValue then some item.value else none, hm1)

/-- Embeds `getValue` (hashmap.go). -/
def getValue (items : List HashItem) (i : Nat) (do1 : Bool) : Option Bytes :=
  if do1 then some (items.getD i default).value else none

/-- Embeds `AddItem` (hashmap.go).  Result: the new map, the optional
present value, and whether the item was inserted. -/
def addItem (hm : HashMap) (key value : Bytes) (returnPresentValue : Bool) :
    HashMap × Option Bytes × Bool :=
  let keySum := sumKey key
  match hm.locateItem key keySum with
  | (_, items, some i) => (hm, getValue items i returnPresentValue, false)
  | (slotIndex, items, none) =>
    (hm.appendItem slotIndex items ⟨keySum, key, value⟩, none, true)

/-- Embeds `UpdateItem` (hashmap.go). -/
def updateItem (hm : HashMap) (key value : Bytes) (returnReplacedValue : Bool) :
    HashMap × Option Bytes × Bool :=
  let keySum := sumKey key
  match hm.locateItem key keySum with
  | (_, _, none) => (hm, none, false)
  | (slotIndex, items, some i) =>
    let r := hm.replaceValue slotIndex items i value returnReplacedValue
    (r.2, r.1, true)

/-- Embeds `AddOrUpdateItem` (hashmap.go). -/
def addOrUpdateItem (hm : HashMap) (key value : Bytes) (returnReplacedValue : Bool) :
    HashMap × Option Bytes × Bool :=
  let keySum := sumKey key
  match hm.locateItem key keySum with
  | (slotIndex, items, some i) =>
    let r := hm.replaceValue slotIndex items i value returnReplacedValue
    (r.2, r.1, false)
  | (slotIndex, items, none) =>
    (hm.appendItem slotIndex items ⟨keySum, key, value⟩, none, true)

/-- Embeds `DeleteItem` (hashmap.go). -/
def deleteItem (hm : HashMap) (key : Bytes) (returnRemovedValue : Bool) :
    HashMap × Option Bytes × Bool :=
  let keySum := sumKey key
  match hm.locateItem key keySum with
  | (_, _, none) => (hm, none, false)
  | (slotIndex, items, some i) =>
    let r := hm.removeItem slotIndex items i returnRemovedValue
    (r.2, r.1, true)

/-- Embeds `HasItem` (hashmap.go); it does not mutate the map. -/
def hasItem (hm : HashMap) (key : Bytes) (returnPresentValue : Bool) :
    Option Bytes × Bool :=
  let keySum := sumKey key
  match hm.locateItem key keySum with
  | (_, _, none) => (none, false)
  | (_, items, some i) => (getValue items i returnPresentValue, true)

/-- The structural part of the hash-map invariant: slot count between
`2^shift` and `2^(shift+1)`, every item addressed to the slot that
holds it, in-memory key sums following the short-key convention, keys
globally unique, and the item counter accurate. -/
structure Core (hm : HashMap) : Prop where
  slot_lb : 2 ^ hm.minSlotCountShift ≤ hm.slots.length
  slot_ub : hm.slots.length < 2 ^ (hm.minSlotCountShift + 1)
  placed : ∀ j : Nat, ∀ it : HashItem, it ∈ hm.slots.getD j [] →
    slotIndexSpec hm.minSlotCountShift hm.slots.length (sumKey it.key) = j
  sums : ∀ j : Nat, ∀ it : HashItem, it ∈ hm.slots.getD j [] →
    it.keySum = storedSum it.key
  nodup : (hm.slots.flatten.map HashItem.key).Nodup
  count : hm.itemCount = hm.slots.flatten.length

/-- The load-factor part of the invariant (claim C2). -/
def LoadInv (hm : HashMap) : Prop :=
  ¬ overLoaded hm ∧ (2 ≤ hm.slots.length → ¬ underLoaded hm)

/-- The full reachable-state invariant. -/
def WF (hm : HashMap) : Prop := Core hm ∧ LoadInv hm

/-- Embeds `Create` (hashmap.go): one empty slot (its stored address is
−1, i.e. the empty slot record), shift 0. -/
def create : HashMap :=
  { slots := [[]], minSlotCountShift := 0, itemCount := 0, payloadSize := 0 }

/-- The hash-map states reachable from `Create` through the public
mutating operations. -/
inductive Reachable : HashMap → Prop where
  | create : Reachable create
  | add (hm : HashMap) (key value : Bytes) (flag : Bool) :
      Reachable hm → Reachable (hm.addItem key value flag).1
  | update (hm : HashMap) (key value : Bytes) (flag : Bool) :
      Reachable hm → Reachable (hm.updateItem key value flag).1
  | addOrUpdate (hm : HashMap) (key value : Bytes) (flag : Bool) :
      Reachable hm → Reachable (hm.addOrUpdateItem key value flag).1
  | delete (hm : HashMap) (key : Bytes) (flag : Bool) :
      Reachable hm → Reachable (hm.deleteItem key flag).1

/-- The state produced by the miss branch of the insertion operations:
the new item appended to its slot (`appendItem` before `maybeExpand`). -/
def appendState (hm : HashMap) (k v : Bytes) : HashMap :=
  { hm with
    payloadSize := hm.payloadSize + k.length + v.length,
    slots := hm.slots.set (hm.calculateSlotIndex (sumKey k))
      (hm.slots.getD (hm.calculateSlotIndex (sumKey k)) [] ++ [⟨storedSum k, k, v⟩]),
    itemCount := hm.itemCount + 1 }

/-- The slot-index formula exactly as the specification words it: probe
`i = FNV1a64(k) & ((1 << (s+1)) - 1)`; if `i` is at least the slot
count, clear bit `s` with a 64-bit AND-NOT (`i & ^(1 << s)`). -/
def specSlotIndex (hm : HashMap) (key : Bytes) : Nat :=
  if hm.slotCount ≤ sumKey key &&& ((1 <<< (hm.minSlotCountShift + 1)) - 1) then
    (sumKey key &&& ((1 <<< (hm.minSlotCountShift + 1)) - 1)) &&&
      ((u64Mod - 1) ^^^ (1 <<< hm.minSlotCountShift))
  else sumKey key &&& ((1 <<< (hm.minSlotCountShift + 1)) - 1)

end HashMap

/-! ### B+ tree (bptree): byte comparison, varint and big-endian codecs,
file storage, key and value factories -/

/-- Embeds `bytes.Compare`: lexicographic comparison returning -1, 0
or 1. -/
def bytesCompare : Bytes → Bytes → Int
  | [], [] => 0
  | [], _ :: _ => -1
  | _ :: _, [] => 1
  | a :: as, b :: bs =>
    if a < b then -1 else if b < a then 1 else bytesCompare as bs

/-- The emission loop of `binary.PutUvarint`, with an explicit bound on
the number of emitted groups (the caller passes one more than the value,
which always suffices since the value shrinks by a factor of 128 per
step). -/
def putUvarintLoop : Nat → Nat → Bytes
  | 0, _ => []
  | fuel + 1, x =>
    if x < 128 then [x] else (x % 128 + 128) :: putUvarintLoop fuel (x / 128)

/-- Embeds `binary.PutUvarint`: little-endian base-128 groups, high bit
marking continuation. -/
def putUvarint (x : Nat) : Bytes := putUvarintLoop (x + 1) x

/-- Embeds `binary.Uvarint`: the decoded value and the number of bytes
consumed, or `none` on truncated input (the source reports an error
count). -/
def uvarint : Bytes → Option (Nat × Nat)
  | [] => none
  | b :: rest =>
    if b < 128 then some (b, 1)
    else
      match uvarint rest with
      | none => none
      | some (v, k) => some (b - 128 + v * 128, k + 1)

/-- Embeds `binary.BigEndian.PutUint64`: eight big-endian bytes. -/
def be64 (x : Nat) : Bytes :=
  [x / 2 ^ 56 % 256, x / 2 ^ 48 % 256, x / 2 ^ 40 % 256, x / 2 ^ 32 % 256,
    x / 2 ^ 24 % 256, x / 2 ^ 16 % 256, x / 2 ^ 8 % 256, x % 256]

/-- Embeds `binary.BigEndian.Uint64` on the first eight bytes of a
buffer. -/
def readBe64 (b : Bytes) : Nat :=
  b.getD 0 0 * 2 ^ 56 + b.getD 1 0 * 2 ^ 48 + b.getD 2 0 * 2 ^ 40 +
    b.getD 3 0 * 2 ^ 32 + b.getD 4 0 * 2 ^ 24 + b.getD 5 0 * 2 ^ 16 +
    b.getD 6 0 * 2 ^ 8 + b.getD 7 0

/-- Embeds `fsm.FileStorage` as far as the B+ tree uses it for variable
sized spaces: a list of allocated regions addressed by allocation
order.  `FreeSpace` is not modelled (freed addresses are simply never
reused), which does not affect the contents read back at live
addresses. -/
structure FileStorage where
  regions : List Bytes
  deriving DecidableEq, Inhabited

/-- `AllocateSpace` fused with the writes the callers immediately
perform into the returned buffer: the new region holds `data`. -/
def FileStorage.allocateSpace (fs : FileStorage) (data : Bytes) :
    Nat × FileStorage :=
  (fs.regions.length, ⟨fs.regions ++ [data]⟩)

/-- `AccessSpace`. -/
def FileStorage.accessSpace (fs : FileStorage) (addr : Nat) : Bytes :=
  fs.regions.getD addr []

/-- `maxKeySize` (key.go). -/
def maxKeySize : Nat := 257

/-- `keyPrefixSize = maxKeySize - 8` (key.go). -/
def keyPrefixSize : Nat := maxKeySize - 8

/-- `maxValueSize` (value.go). -/
def maxValueSize : Nat := 129

/-- Embeds `allocateKeyOverflow` / `allocateValueOverflow`: the
overflow region holds a varint length followed by the overflow
bytes. -/
def allocateOverflow (fs : FileStorage) (overflow : Bytes) :
    Nat × FileStorage :=
  fs.allocateSpace (putUvarint overflow.length ++ overflow)

/-- Embeds `keyFactory.CreateKey` (key.go): short raw keys are stored
inline; otherwise the stored key is the first `keyPrefixSize` raw
bytes followed by the big-endian address of an overflow region holding
the rest. -/
def createKey (fs : FileStorage) (rawKey : Bytes) : Bytes × FileStorage :=
  if rawKey.length < maxKeySize then (rawKey, fs)
  else
    ((rawKey.take keyPrefixSize ++
        be64 (allocateOverflow fs (rawKey.drop keyPrefixSize)).1),
      (allocateOverflow fs (rawKey.drop keyPrefixSize)).2)

/-- Embeds `getKeyOverflow` / `getValueOverflow` (without the address
decode): read the region, decode the varint size, slice the overflow
out.  `none` stands for the source's corruption panic. -/
def getOverflow (fs : FileStorage) (addr : Nat) : Option Bytes :=
  match uvarint (fs.accessSpace addr) with
  | none => none
  | some (n, i) => some (((fs.accessSpace addr).drop i).take n)

/-- Embeds `keyFactory.ReadKeyAll` (key.go). -/
def readKeyAll (fs : FileStorage) (key : Bytes) : Option Bytes :=
  if key.length < maxKeySize then some key
  else
    match getOverflow fs (readBe64 (key.drop keyPrefixSize)) with
    | none => none
    | some ov => some (key.take keyPrefixSize ++ ov)

/-- Embeds `valueFactory.CreateValue` (value.go): same scheme as
`createKey` with threshold `maxValueSize = 129` and a prefix of
`maxValueSize - 8 = 121` bytes. -/
def createValue (fs : FileStorage) (rawValue : Bytes) : Bytes × FileStorage :=
  if rawValue.length < maxValueSize then (rawValue, fs)
  else
    ((rawValue.take (maxValueSize - 8) ++
        be64 (allocateOverflow fs (rawValue.drop (maxValueSize - 8))).1),
      (allocateOverflow fs (rawValue.drop (maxValueSize - 8))).2)

/-- Embeds `valueFactory.ReadValue` (value.go). -/
def readValue (fs : FileStorage) (value : Bytes) : Option Bytes :=
  if value.length < maxValueSize then some value
  else
    match getOverflow fs (readBe64 (value.drop (maxValueSize - 8))) with
    | none => none
    | some ov => some (value.take (maxValueSize - 8) ++ ov)

/-- The exported sentinels `MinKey` and `MaxKey` (key.go) are
recognised by pointer identity (`isMinKey` / `isMaxKey`), never by
contents, so a raw key is one of the two sentinel objects or a plain
byte string. -/
inductive RawKey where
  | minSent : RawKey
  | maxSent : RawKey
  | bytes : Bytes → RawKey
  deriving DecidableEq, Inhabited

/-- The byte contents of a raw key; the sentinel objects hold the
literals `"MIN_KEY"` and `"MAX_KEY"`. -/
def RawKey.toBytes : RawKey → Bytes
  | .minSent => [77, 73, 78, 95, 75, 69, 89]
  | .maxSent => [77, 65, 88, 95, 75, 69, 89]
  | .bytes b => b

/-- Embeds `isMinKey` (key.go): identity with the `MinKey` object. -/
def isMinKey : RawKey → Bool
  | .minSent => true
  | _ => false

/-- Embeds `isMaxKey` (key.go): identity with the `MaxKey` object. -/
def isMaxKey : RawKey → Bool
  | .maxSent => true
  | _ => false

/-- Embeds `keyComparer.CompareKey` (key.go): a stored key against raw
bytes, chasing the overflow region when both sides extend past the
prefix. -/
def compareKey (fs : FileStorage) (key : Bytes) (rawKey : Bytes) : Int :=
  if key.length < maxKeySize ∨ rawKey.length ≤ keyPrefixSize then
    bytesCompare key rawKey
  else
    if bytesCompare (key.take keyPrefixSize) (rawKey.take keyPrefixSize) ≠ 0 then
      bytesCompare (key.take keyPrefixSize) (rawKey.take keyPrefixSize)
    else
      match getOverflow fs (readBe64 (key.drop keyPrefixSize)) with
      | none => 0
      | some ov => bytesCompare ov (rawKey.drop keyPrefixSize)

/-- `recordHeaderSize` (leaf.go). -/
def recordHeaderSize : Nat := 8

/-- `leafSize = 1 << 13` (leaf.go). -/
def leafSize : Nat := 8192

/-- `leafHeaderSize` (leaf.go). -/
def leafHeaderSize : Nat := 20

/-- `maxLeafFreeSpaceSize` (leaf.go). -/
def maxLeafFreeSpaceSize : Nat := leafSize - leafHeaderSize

/-- `maxRecordSize` (leaf.go). -/
def maxRecordSize : Nat := recordHeaderSize + maxKeySize + maxValueSize

/-- `leafOverloadThreshold` (leaf.go). -/
def leafOverloadThreshold : Nat := maxLeafFreeSpaceSize - maxRecordSize

/-- `leafUnderloadThreshold` (leaf.go). -/
def leafUnderloadThreshold : Nat :=
  (leafOverloadThreshold - maxRecordSize) / 2 + 1

/-- `nonLeafSize = 1 << 13` (nonleaf.go). -/
def nonLeafSize : Nat := 8192

/-- `nonLeafHeaderSize` (nonleaf.go). -/
def nonLeafHeaderSize : Nat := 4

/-- `maxNonLeafFreeSpaceSize` (nonleaf.go). -/
def maxNonLeafFreeSpaceSize : Nat := nonLeafSize - nonLeafHeaderSize

/-- `nonLeafChildHeaderSize` (nonleaf.go). -/
def nonLeafChildHeaderSize : Nat := 12

/-- `maxNonLeafChildSize` (nonleaf.go). -/
def maxNonLeafChildSize : Nat := nonLeafChildHeaderSize + maxKeySize

/-- `nonLeafOverloadThreshold` (nonleaf.go). -/
def nonLeafOverloadThreshold : Nat :=
  maxNonLeafFreeSpaceSize - maxNonLeafChildSize

/-- `nonLeafUnderloadThreshold` (nonleaf.go). -/
def nonLeafUnderloadThreshold : Nat :=
  (nonLeafOverloadThreshold - maxNonLeafChildSize) / 2 + 1

/-- A leaf page (leaf.go), modelled by the record list its byte layout
encodes plus the leaf-list link fields of its header.  A record is a
stored key paired with a stored value. -/
structure LeafNode where
  prevAddr : Int
  nextAddr : Int
  records : List (Bytes × Bytes)
  deriving DecidableEq, Inhabited

/-- A non-leaf page (nonleaf.go), modelled by the child list its byte
layout encodes: each child is a separator key (dummy for child 0)
paired with the child node address. -/
structure NonLeafNode where
  children : List (Bytes × Int)
  deriving DecidableEq, Inhabited

namespace LeafNode

/-- `NumberOfRecords` (leaf.go). -/
def numberOfRecords (lf : LeafNode) : Nat := lf.records.length

/-- `GetKey` (leaf.go). -/
def getKey (lf : LeafNode) (i : Nat) : Bytes := (lf.records.getD i default).1

/-- `GetValue` (leaf.go). -/
def getValue (lf : LeafNode) (i : Nat) : Bytes := (lf.records.getD i default).2

/-- `InsertRecords` (leaf.go): splice the records in at the index. -/
def insertRecords (lf : LeafNode) (i : Nat) (rs : List (Bytes × Bytes)) :
    LeafNode :=
  { lf with records := lf.records.take i ++ rs ++ lf.records.drop i }

/-- `RemoveRecords` (leaf.go): the removed records and the shrunken
leaf. -/
def removeRecords (lf : LeafNode) (i n : Nat) :
    List (Bytes × Bytes) × LeafNode :=
  ((lf.records.drop i).take n,
    { lf with records := lf.records.take i ++ lf.records.drop (i + n) })

/-- `SetValue` (leaf.go). -/
def setValue (lf : LeafNode) (i : Nat) (v : Bytes) : LeafNode :=
  { lf with records := lf.records.set i ((lf.records.getD i default).1, v) }

/-- `GetLoadSize` (leaf.go): the page bytes in use, which the source
computes as total free-space capacity minus the gap between the record
header area and the key/value area; per record that is one header plus
the key and value bytes. -/
def loadSize (lf : LeafNode) : Nat :=
  (lf.records.map fun r =>
    recordHeaderSize + r.1.length + r.2.length).sum

end LeafNode

namespace NonLeafNode

/-- `NumberOfChildren` (nonleaf.go). -/
def numberOfChildren (nl : NonLeafNode) : Nat := nl.children.length

/-- `GetKey` (nonleaf.go). -/
def getKey (nl : NonLeafNode) (i : Nat) : Bytes := (nl.children.getD i default).1

/-- `GetChildAddr` (nonleaf.go). -/
def getChildAddr (nl : NonLeafNode) (i : Nat) : Int :=
  (nl.children.getD i default).2

/-- `InsertChildren` (nonleaf.go). -/
def insertChildren (nl : NonLeafNode) (i : Nat) (cs : List (Bytes × Int)) :
    NonLeafNode :=
  { nl with children := nl.children.take i ++ cs ++ nl.children.drop i }

/-- `RemoveChildren` (nonleaf.go). -/
def removeChildren (nl : NonLeafNode) (i n : Nat) :
    List (Bytes × Int) × NonLeafNode :=
  ((nl.children.drop i).take n,
    { nl with children := nl.children.take i ++ nl.children.drop (i + n) })

/-- `SetKey` (nonleaf.go). -/
def setKey (nl : NonLeafNode) (i : Nat) (k : Bytes) : NonLeafNode :=
  { nl with children := nl.children.set i (k, (nl.children.getD i default).2) }

/-- `GetLoadSize` (nonleaf.go): one child header plus the separator key
bytes per child. -/
def loadSize (nl : NonLeafNode) : Nat :=
  (nl.children.map fun c => nonLeafChildHeaderSize + c.1.length).sum

end NonLeafNode

/-- The binary-search loop shared by `leafController.LocateRecord` and
`nonLeafController.LocateChild`: narrow `[i, j]` to the first position
whose key is not below the probe.  The iteration budget only needs to
exceed the initial width (`j - i` shrinks every pass). -/
def locateLoop (fs : FileStorage) (getK : Nat → Bytes) (rawKey : Bytes) :
    Nat → Nat → Nat → Nat
  | 0, i, _ => i
  | fuel + 1, i, j =>
    if i < j then
      if compareKey fs (getK ((i + j) / 2)) rawKey < 0 then
        locateLoop fs getK rawKey fuel ((i + j) / 2 + 1) j
      else locateLoop fs getK rawKey fuel i ((i + j) / 2)
    else i

/-- Embeds `leafController.LocateRecord` (leaf.go): sentinel keys
short-circuit to the first or last record; otherwise binary search,
with the not-found position pushed past the end when every record is
smaller. -/
def LeafNode.locateRecord (fs : FileStorage) (lf : LeafNode) (key : RawKey) :
    Nat × Bool :=
  if isMinKey key then (0, true)
  else
    if isMaxKey key then (lf.numberOfRecords - 1, true)
    else
      let i := locateLoop fs lf.getKey key.toBytes lf.numberOfRecords 0
        (lf.numberOfRecords - 1)
      let d := compareKey fs (lf.getKey i) key.toBytes
      if d = 0 then (i, true)
      else if d < 0 ∧ i = lf.numberOfRecords - 1 then (lf.numberOfRecords, false)
      else (i, false)

/-- Embeds `nonLeafController.LocateChild` (nonleaf.go): like
`LocateRecord` but the binary search starts at child 1, whose
predecessor carries the dummy key. -/
def NonLeafNode.locateChild (fs : FileStorage) (nl : NonLeafNode)
    (key : RawKey) : Nat × Bool :=
  if isMinKey key then (0, true)
  else
    if isMaxKey key then (nl.numberOfChildren - 1, true)
    else
      let i := locateLoop fs nl.getKey key.toBytes nl.numberOfChildren 1
        (nl.numberOfChildren - 1)
      let d := compareKey fs (nl.getKey i) key.toBytes
      if d = 0 then (i, true)
      else if d < 0 ∧ i = nl.numberOfChildren - 1 then
        (nl.numberOfChildren, false)
      else (i, false)

/-- An address-keyed page store, as an association list in allocation
order. -/
def assocGet {α : Type} [Inhabited α] (l : List (Int × α)) (a : Int) : α :=
  match l.lookup a with
  | some x => x
  | none => default

def assocSet {α : Type} (l : List (Int × α)) (a : Int) (x : α) :
    List (Int × α) :=
  l.map fun p => if p.1 = a then (a, x) else p

def assocRemove {α : Type} (l : List (Int × α)) (a : Int) : List (Int × α) :=
  l.filter fun p => p.1 ≠ a

/-- Embeds `BPTree` (bptree.go).  Pages live in address-keyed stores;
`nextNodeAddr` stands for the aligned-space allocator, handing out
fresh addresses in order.  `leafHeadAddr`/`leafTailAddr` are the
`leafList` ends; the per-leaf links live in the leaf headers. -/
structure BPTree where
  fileStorage : FileStorage
  leafs : List (Int × LeafNode)
  nonLeafs : List (Int × NonLeafNode)
  nextNodeAddr : Int
  rootAddr : Int
  height : Nat
  leafHeadAddr : Int
  leafTailAddr : Int
  leafCount : Nat
  nonLeafCount : Nat
  recordCount : Nat
  payloadSize : Int
  deriving DecidableEq, Inhabited

namespace BPTree

/-- `getLeafController` (bptree.go). -/
def getLeaf (bpt : BPTree) (addr : Int) : LeafNode := assocGet bpt.leafs addr

/-- Writing a leaf page back through its controller. -/
def setLeaf (bpt : BPTree) (addr : Int) (lf : LeafNode) : BPTree :=
  { bpt with leafs := assocSet bpt.leafs addr lf }

/-- `getNonLeafController` (bptree.go). -/
def getNonLeaf (bpt : BPTree) (addr : Int) : NonLeafNode :=
  assocGet bpt.nonLeafs addr

/-- Writing a non-leaf page back through its controller. -/
def setNonLeaf (bpt : BPTree) (addr : Int) (nl : NonLeafNode) : BPTree :=
  { bpt with nonLeafs := assocSet bpt.nonLeafs addr nl }

/-- `createLeaf` (bptree.go): allocate a zeroed leaf page. -/
def createLeaf (bpt : BPTree) : Int × BPTree :=
  (bpt.nextNodeAddr,
    { bpt with
      leafs := bpt.leafs ++ [(bpt.nextNodeAddr, ⟨0, 0, []⟩)],
      nextNodeAddr := bpt.nextNodeAddr + 1,
      leafCount := bpt.leafCount + 1 })

/-- `destroyLeaf` (bptree.go). -/
def destroyLeaf (bpt : BPTree) (addr : Int) : BPTree :=
  { bpt with
    leafs := assocRemove bpt.leafs addr,
    leafCount := bpt.leafCount - 1 }

/-- `createNonLeaf` (bptree.go). -/
def createNonLeaf (bpt : BPTree) : Int × BPTree :=
  (bpt.nextNodeAddr,
    { bpt with
      nonLeafs := bpt.nonLeafs ++ [(bpt.nextNodeAddr, ⟨[]⟩)],
      nextNodeAddr := bpt.nextNodeAddr + 1,
      nonLeafCount := bpt.nonLeafCount + 1 })

/-- `destroyNonLeaf` (bptree.go). -/
def destroyNonLeaf (bpt : BPTree) (addr : Int) : BPTree :=
  { bpt with
    nonLeafs := assocRemove bpt.nonLeafs addr,
    nonLeafCount := bpt.nonLeafCount - 1 }

/-- Embeds `Init` followed by `Create` (bptree.go): allocate the root
leaf and make it the whole leaf list (the list is circular: the single
leaf links to itself). -/
def createTree : BPTree :=
  { fileStorage := ⟨[]⟩,
    leafs := [(0, ⟨0, 0, []⟩)],
    nonLeafs := [],
    nextNodeAddr := 1,
    rootAddr := 0,
    height := 1,
    leafHeadAddr := 0,
    leafTailAddr := 0,
    leafCount := 1,
    nonLeafCount := 0,
    recordCount := 0,
    payloadSize := 0 }

/-- Embeds `leafList.InsertLeafAfter` (leaflist.go), with the header
writes threaded one page at a time exactly as the source performs
them. -/
def leafListInsertAfter (bpt : BPTree) (leafAddr leafPrevAddr : Int) :
    BPTree :=
  let leafNextAddr := (bpt.getLeaf leafPrevAddr).nextAddr
  let b1 := bpt.setLeaf leafAddr
    { (bpt.getLeaf leafAddr) with prevAddr := leafPrevAddr }
  let b2 := b1.setLeaf leafPrevAddr
    { (b1.getLeaf leafPrevAddr) with nextAddr := leafAddr }
  let b3 := b2.setLeaf leafAddr
    { (b2.getLeaf leafAddr) with nextAddr := leafNextAddr }
  let b4 := b3.setLeaf leafNextAddr
    { (b3.getLeaf leafNextAddr) with prevAddr := leafAddr }
  if leafPrevAddr = bpt.leafTailAddr then
    { b4 with leafTailAddr := leafAddr }
  else b4

/-- Embeds `leafList.RemoveLeaf` (leaflist.go). -/
def leafListRemove (bpt : BPTree) (leafAddr : Int) : BPTree :=
  let leafPrevAddr := (bpt.getLeaf leafAddr).prevAddr
  let leafNextAddr := (bpt.getLeaf leafAddr).nextAddr
  let b1 := bpt.setLeaf leafPrevAddr
    { (bpt.getLeaf leafPrevAddr) with nextAddr := leafNextAddr }
  let b2 := b1.setLeaf leafNextAddr
    { (b1.getLeaf leafNextAddr) with prevAddr := leafPrevAddr }
  if leafAddr = bpt.leafHeadAddr then
    { b2 with leafHeadAddr := leafNextAddr }
  else if leafAddr = bpt.leafTailAddr then
    { b2 with leafTailAddr := leafPrevAddr }
  else b2

/-- One record-path component (bptree.go): a node address and the
record (leaf) or child (non-leaf) index taken there. -/
abbrev RecordPath := List (Int × Nat)

/-- The descent loop of `findRecord` (bptree.go), with a fuel bound the
caller sets to the tree height (one level per pass). -/
def findRecordLoop (bpt : BPTree) (key : RawKey) :
    Nat → Int → RecordPath → RecordPath × Bool
  | 0, _, path => (path, false)
  | fuel + 1, nodeAddr, path =>
    if path.length + 1 = bpt.height then
      ((path ++ [(nodeAddr,
          (LeafNode.locateRecord bpt.fileStorage (bpt.getLeaf nodeAddr) key).1)]),
        (LeafNode.locateRecord bpt.fileStorage (bpt.getLeaf nodeAddr) key).2)
    else
      findRecordLoop bpt key fuel
        ((bpt.getNonLeaf nodeAddr).getChildAddr
          (if (NonLeafNode.locateChild bpt.fileStorage (bpt.getNonLeaf nodeAddr) key).2 then
            (NonLeafNode.locateChild bpt.fileStorage (bpt.getNonLeaf nodeAddr) key).1
          else
            (NonLeafNode.locateChild bpt.fileStorage (bpt.getNonLeaf nodeAddr) key).1 - 1))
        (path ++ [(nodeAddr,
          if (NonLeafNode.locateChild bpt.fileStorage (bpt.getNonLeaf nodeAddr) key).2 then
            (NonLeafNode.locateChild bpt.fileStorage (bpt.getNonLeaf nodeAddr) key).1
          else
            (NonLeafNode.locateChild bpt.fileStorage (bpt.getNonLeaf nodeAddr) key).1 - 1)])

/-- Embeds `findRecord` (bptree.go). -/
def findRecord (bpt : BPTree) (key : RawKey) : RecordPath × Bool :=
  if bpt.recordCount = 0 then ([(bpt.rootAddr, 0)], false)
  else findRecordLoop bpt key bpt.height bpt.rootAddr []

/-- Embeds `locateRecord` (bptree.go): the leaf address and record
index at the end of a record path. -/
def locateRecordPath (bpt : BPTree) (path : RecordPath) : Int × Nat :=
  path.getLastD (0, 0)

/-- The tail of `search` (bptree.go) from the point the maximum key is
resolved: locate it, step back on a miss, and run the final
range-emptiness comparison unless the maximum end is pinned by a
sentinel or an exact hit. -/
def searchTail (bpt : BPTree) (minKeyBytes : Bytes) (minLeafAddr : Int)
    (minRecordIndex : Nat) (ok2 : Bool) (maxKey : RawKey) :
    Int × Nat × Int × Nat × Bool :=
  let fr := bpt.findRecord maxKey
  let comp := bpt.locateRecordPath fr.1
  let maxLeafAddr := comp.1
  let maxRecordIndex := if fr.2 then comp.2 else comp.2 - 1
  if ¬(!ok2 && fr.2) then
    if bytesCompare minKeyBytes
        ((readKeyAll bpt.fileStorage
          ((bpt.getLeaf maxLeafAddr).getKey maxRecordIndex)).getD []) > 0 then
      (0, 0, 0, 0, false)
    else (minLeafAddr, minRecordIndex, maxLeafAddr, maxRecordIndex, true)
  else (minLeafAddr, minRecordIndex, maxLeafAddr, maxRecordIndex, true)

/-- Embeds `search` (bptree.go): resolve the interval ends to leaf
positions, or report an empty range.  The sentinel analysis mirrors
the source: `f1`/`f2` flag a `MinKey` end, `f3`/`f4` a `MaxKey` end,
`ok1`/`ok2` any sentinel; `d` is the direction the interval is known
to have, with `none` standing for the source's early empty returns. -/
def search (bpt : BPTree) (minKey maxKey : RawKey) :
    Int × Nat × Int × Nat × Bool :=
  if bpt.recordCount = 0 then (0, 0, 0, 0, false)
  else
    let f1 := isMinKey minKey
    let f2 := isMinKey maxKey
    let f3 := isMaxKey minKey
    let f4 := isMaxKey maxKey
    let ok1 := f1 || f3
    let ok2 := f2 || f4
    match
      (if ok1 || ok2 then
        if ok1 && ok2 then
          if bpt.recordCount = 1 then some 0
          else if f1 = f2 then some 0
          else if !f1 then none
          else some (-1)
        else some (-1)
      else
        if bytesCompare minKey.toBytes maxKey.toBytes > 0 then none
        else some (bytesCompare minKey.toBytes maxKey.toBytes) : Option Int)
    with
    | none => (0, 0, 0, 0, false)
    | some d =>
      let fr := bpt.findRecord minKey
      let ok3 := fr.2
      let comp := bpt.locateRecordPath fr.1
      match
        (if !ok3 &&
            (comp.2 = (bpt.getLeaf comp.1).numberOfRecords : Bool) then
          if comp.1 = bpt.leafTailAddr then none
          else some ((bpt.getLeaf comp.1).nextAddr, 0)
        else some (comp.1, comp.2) : Option (Int × Nat))
      with
      | none => (0, 0, 0, 0, false)
      | some pos =>
        if d = 0 then (pos.1, pos.2, pos.1, pos.2, true)
        else
          let minKeyBytes :=
            if ¬(!ok1 && ok3) then
              (readKeyAll bpt.fileStorage
                ((bpt.getLeaf pos.1).getKey pos.2)).getD []
            else minKey.toBytes
          if (¬(!ok1 && ok3) ∧ ok2 = false) then
            if bytesCompare minKeyBytes maxKey.toBytes > 0 then
              (0, 0, 0, 0, false)
            else if bytesCompare minKeyBytes maxKey.toBytes = 0 then
              (pos.1, pos.2, pos.1, pos.2, true)
            else bpt.searchTail minKeyBytes pos.1 pos.2 ok2 maxKey
          else bpt.searchTail minKeyBytes pos.1 pos.2 ok2 maxKey

/-- An iterator (iterator.go), after `init`: current and last
positions plus the at-end flag. -/
structure IteratorState where
  currentLeafAddr : Int
  currentRecordIndex : Nat
  lastLeafAddr : Int
  lastRecordIndex : Nat
  isAtEnd : Bool
  deriving DecidableEq, Inhabited

/-- Embeds `SearchForward` (bptree.go): a forward iterator over the
search result, at end exactly when the range came back empty. -/
def searchForward (bpt : BPTree) (minKey maxKey : RawKey) : IteratorState :=
  ⟨(bpt.search minKey maxKey).1,
    (bpt.search minKey maxKey).2.1,
    (bpt.search minKey maxKey).2.2.1,
    (bpt.search minKey maxKey).2.2.2.1,
    !(bpt.search minKey maxKey).2.2.2.2⟩

/-- `Iterator.ReadRecord` (iterator.go), key part: `none` once the
iteration is at end. -/
def IteratorState.readRecord (bpt : BPTree) (it : IteratorState) :
    Option (Bytes × Bytes) :=
  if it.isAtEnd then none
  else
    some
      ((readKeyAll bpt.fileStorage
          ((bpt.getLeaf it.currentLeafAddr).getKey it.currentRecordIndex)).getD [],
        (readValue bpt.fileStorage
          ((bpt.getLeaf it.currentLeafAddr).getValue it.currentRecordIndex)).getD [])

/-- The per-record on-page cost used by every leaf balancing loop. -/
def leafRecordSize (lf : LeafNode) (i : Nat) : Int :=
  (recordHeaderSize : Int) + (lf.getKey i).length + (lf.getValue i).length

/-- The loop of `leafController.CountRecordsForSpliting` (leaf.go):
peel records (the caller walks from the top), stopping before the
donor drops under the underload threshold or once the donated load
catches up. -/
def leafSplitCountLoop (lf : LeafNode) :
    Nat → Nat → Int → Int → Nat → Nat
  | 0, _, _, _, cnt => cnt
  | fuel + 1, i, l1, l2, cnt =>
    if l1 - leafRecordSize lf i < (leafUnderloadThreshold : Int) then cnt
    else if l1 - leafRecordSize lf i ≤ l2 + leafRecordSize lf i then cnt + 1
    else
      leafSplitCountLoop lf fuel (i - 1) (l1 - leafRecordSize lf i)
        (l2 + leafRecordSize lf i) (cnt + 1)

/-- `CountRecordsForSpliting` (leaf.go). -/
def countRecordsForSpliting (lf : LeafNode) : Nat :=
  leafSplitCountLoop lf (lf.numberOfRecords + 1) (lf.numberOfRecords - 1)
    (lf.loadSize : Int) 0 0

/-- The loop of `CountRecordsForShiftingToLeft` / `...ToRight`
(leaf.go), over the iteration's record sizes; returns the final loads
with the count so the caller can apply the source's viability check. -/
def leafShiftCountLoop (sz : Nat → Int) :
    Nat → Nat → Int → Int → Nat → Int × Int × Nat
  | 0, _, l1, l2, cnt => (l1, l2, cnt)
  | fuel + 1, k, l1, l2, cnt =>
    if l1 - sz k < (leafUnderloadThreshold : Int) ∨
        (leafOverloadThreshold : Int) < l2 + sz k then
      (l1 - sz k, l2 + sz k, cnt)
    else if l1 - sz k ≤ l2 + sz k then (l1 - sz k, l2 + sz k, cnt + 1)
    else leafShiftCountLoop sz fuel (k + 1) (l1 - sz k) (l2 + sz k) (cnt + 1)

/-- `CountRecordsForShiftingToLeft` (leaf.go): records are taken from
the low end. -/
def countRecordsForShiftingToLeft (lf leftSibling : LeafNode) : Nat :=
  let r := leafShiftCountLoop (fun k => leafRecordSize lf k)
    (lf.numberOfRecords + 1) 0 (lf.loadSize : Int) (leftSibling.loadSize : Int) 0
  if (leafOverloadThreshold : Int) < r.1 ∨
      r.2.1 < (leafUnderloadThreshold : Int) then 0
  else r.2.2

/-- `CountRecordsForShiftingToRight` (leaf.go): records are taken from
the high end. -/
def countRecordsForShiftingToRight (lf rightSibling : LeafNode) : Nat :=
  let r := leafShiftCountLoop (fun k => leafRecordSize lf (lf.numberOfRecords - 1 - k))
    (lf.numberOfRecords + 1) 0 (lf.loadSize : Int) (rightSibling.loadSize : Int) 0
  if (leafOverloadThreshold : Int) < r.1 ∨
      r.2.1 < (leafUnderloadThreshold : Int) then 0
  else r.2.2

/-- The per-child on-page cost used by the non-leaf balancing loops. -/
def nonLeafChildSize (nl : NonLeafNode) (i : Nat) : Int :=
  (nonLeafChildHeaderSize : Int) + (nl.getKey i).length

/-- The loop of `nonLeafController.CountChildrenForSpliting`
(nonleaf.go); the moved child sheds its key onto the parent, so the
receiving load grows by the previously visited child's size. -/
def nonLeafSplitCountLoop (nl : NonLeafNode) :
    Nat → Nat → Int → Int → Int → Nat → Nat
  | 0, _, _, _, _, cnt => cnt
  | fuel + 1, i, lastChildSize, l1, l2, cnt =>
    if l1 < (nonLeafUnderloadThreshold : Int) then cnt
    else if l1 ≤ l2 then cnt + 1
    else
      nonLeafSplitCountLoop nl fuel (i - 1) (nonLeafChildSize nl i)
        (l1 - nonLeafChildSize nl i) (l2 + lastChildSize) (cnt + 1)

/-- `CountChildrenForSpliting` (nonleaf.go). -/
def countChildrenForSpliting (nl : NonLeafNode) : Nat :=
  nonLeafSplitCountLoop nl (nl.numberOfChildren + 1) (nl.numberOfChildren - 2)
    (nonLeafChildSize nl (nl.numberOfChildren - 1))
    ((nl.loadSize : Int) - nonLeafChildSize nl (nl.numberOfChildren - 1))
    (nonLeafChildHeaderSize : Int) 0

/-- The loop of `CountChildrenForShiftingToLeft` (nonleaf.go). -/
def nonLeafShiftLeftCountLoop (nl : NonLeafNode) :
    Nat → Nat → Int → Int → Nat → Int × Int × Nat
  | 0, _, l1, l2, cnt => (l1, l2, cnt)
  | fuel + 1, i, l1, l2, cnt =>
    if l1 < (nonLeafUnderloadThreshold : Int) ∨
        (nonLeafOverloadThreshold : Int) < l2 then (l1, l2, cnt)
    else if l1 ≤ l2 then (l1, l2, cnt + 1)
    else
      nonLeafShiftLeftCountLoop nl fuel (i + 1) (l1 - nonLeafChildSize nl i)
        (l2 + nonLeafChildSize nl i) (cnt + 1)

/-- `CountChildrenForShiftingToLeft` (nonleaf.go). -/
def countChildrenForShiftingToLeft (nl leftSibling : NonLeafNode) : Nat :=
  let r := nonLeafShiftLeftCountLoop nl (nl.numberOfChildren + 1) 1
    ((nl.loadSize : Int) - nonLeafChildSize nl 0)
    ((leftSibling.loadSize : Int) + nonLeafChildHeaderSize) 0
  if (nonLeafOverloadThreshold : Int) < r.1 ∨
      r.2.1 < (nonLeafUnderloadThreshold : Int) then 0
  else r.2.2

/-- The loop of `CountChildrenForShiftingToRight` (nonleaf.go). -/
def nonLeafShiftRightCountLoop (nl : NonLeafNode) :
    Nat → Nat → Int → Int → Int → Nat → Int × Int × Nat
  | 0, _, _, l1, l2, cnt => (l1, l2, cnt)
  | fuel + 1, i, lastChildSize, l1, l2, cnt =>
    if l1 < (nonLeafUnderloadThreshold : Int) ∨
        (nonLeafOverloadThreshold : Int) < l2 then (l1, l2, cnt)
    else if l1 ≤ l2 then (l1, l2, cnt + 1)
    else
      nonLeafShiftRightCountLoop nl fuel (i - 1) (nonLeafChildSize nl i)
        (l1 - nonLeafChildSize nl i) (l2 + lastChildSize) (cnt + 1)

/-- `CountChildrenForShiftingToRight` (nonleaf.go). -/
def countChildrenForShiftingToRight (nl rightSibling : NonLeafNode) : Nat :=
  let r := nonLeafShiftRightCountLoop nl (nl.numberOfChildren + 1)
    (nl.numberOfChildren - 2)
    (nonLeafChildSize nl (nl.numberOfChildren - 1))
    ((nl.loadSize : Int) - nonLeafChildSize nl (nl.numberOfChildren - 1))
    ((rightSibling.loadSize : Int) + nonLeafChildHeaderSize) 0
  if (nonLeafOverloadThreshold : Int) < r.1 ∨
      r.2.1 < (nonLeafUnderloadThreshold : Int) then 0
  else r.2.2

/-- `leafController.ShiftToLeft` (leaf.go), over the page store. -/
def shiftLeafToLeft (bpt : BPTree) (leafAddr : Int) (n : Nat)
    (parentAddr : Int) (index : Nat) (leftAddr : Int) : BPTree :=
  let rm := (bpt.getLeaf leafAddr).removeRecords 0 n
  let b1 := bpt.setLeaf leafAddr rm.2
  let b2 := b1.setNonLeaf parentAddr
    ((b1.getNonLeaf parentAddr).setKey index (rm.2.getKey 0))
  b2.setLeaf leftAddr
    ((b2.getLeaf leftAddr).insertRecords
      (b2.getLeaf leftAddr).numberOfRecords rm.1)

/-- `leafController.ShiftToRight` (leaf.go). -/
def shiftLeafToRight (bpt : BPTree) (leafAddr : Int) (n : Nat)
    (parentAddr : Int) (index : Nat) (rightAddr : Int) : BPTree :=
  let rm := (bpt.getLeaf leafAddr).removeRecords
    ((bpt.getLeaf leafAddr).numberOfRecords - n) n
  let b1 := bpt.setLeaf leafAddr rm.2
  let b2 := b1.setNonLeaf parentAddr
    ((b1.getNonLeaf parentAddr).setKey (index + 1) (rm.1.getD 0 default).1)
  b2.setLeaf rightAddr ((b2.getLeaf rightAddr).insertRecords 0 rm.1)

/-- `leafController.Split` (leaf.go): move the top records into the
fresh sibling and register it with the parent under the first moved
key. -/
def splitLeaf (bpt : BPTree) (leafAddr : Int) (n : Nat) (parentAddr : Int)
    (index : Nat) (newSiblingAddr : Int) : BPTree :=
  let rm := (bpt.getLeaf leafAddr).removeRecords
    ((bpt.getLeaf leafAddr).numberOfRecords - n) n
  let b1 := bpt.setLeaf leafAddr rm.2
  let b2 := b1.setLeaf newSiblingAddr
    ((b1.getLeaf newSiblingAddr).insertRecords 0 rm.1)
  b2.setNonLeaf parentAddr
    ((b2.getNonLeaf parentAddr).insertChildren (index + 1)
      [((rm.1.getD 0 default).1, newSiblingAddr)])

/-- `leafController.MergeFromRight` (leaf.go). -/
def mergeLeafFromRight (bpt : BPTree) (leafAddr : Int) (parentAddr : Int)
    (index : Nat) (rightAddr : Int) : BPTree :=
  let b1 := bpt.setNonLeaf parentAddr
    ((bpt.getNonLeaf parentAddr).removeChildren (index + 1) 1).2
  let rm := (b1.getLeaf rightAddr).removeRecords 0
    (b1.getLeaf rightAddr).numberOfRecords
  let b2 := b1.setLeaf rightAddr rm.2
  b2.setLeaf leafAddr
    ((b2.getLeaf leafAddr).insertRecords
      (b2.getLeaf leafAddr).numberOfRecords rm.1)

/-- Overwrite the key of the first child of a removed-children slice
(`children[0].Key = ...` in nonleaf.go). -/
def setHeadKey (cs : List (Bytes × Int)) (k : Bytes) : List (Bytes × Int) :=
  match cs with
  | [] => []
  | c :: rest => (k, c.2) :: rest

/-- `nonLeafController.ShiftToLeft` (nonleaf.go): the shifted block's
first child adopts the parent separator, the parent separator becomes
the donor's new first key, whose slot in the donor turns dummy. -/
def shiftNonLeafToLeft (bpt : BPTree) (nlAddr : Int) (n : Nat)
    (parentAddr : Int) (index : Nat) (leftAddr : Int) : BPTree :=
  let rm := (bpt.getNonLeaf nlAddr).removeChildren 0 n
  let b1 := bpt.setNonLeaf nlAddr rm.2
  let moved := setHeadKey rm.1 ((b1.getNonLeaf parentAddr).getKey index)
  let b2 := b1.setNonLeaf parentAddr
    ((b1.getNonLeaf parentAddr).setKey index ((b1.getNonLeaf nlAddr).getKey 0))
  let b3 := b2.setNonLeaf nlAddr ((b2.getNonLeaf nlAddr).setKey 0 [])
  b3.setNonLeaf leftAddr
    ((b3.getNonLeaf leftAddr).insertChildren
      (b3.getNonLeaf leftAddr).numberOfChildren moved)

/-- `nonLeafController.ShiftToRight` (nonleaf.go). -/
def shiftNonLeafToRight (bpt : BPTree) (nlAddr : Int) (n : Nat)
    (parentAddr : Int) (index : Nat) (rightAddr : Int) : BPTree :=
  let rm := (bpt.getNonLeaf nlAddr).removeChildren
    ((bpt.getNonLeaf nlAddr).numberOfChildren - n) n
  let b1 := bpt.setNonLeaf nlAddr rm.2
  let b2 := b1.setNonLeaf rightAddr
    ((b1.getNonLeaf rightAddr).setKey 0 ((b1.getNonLeaf parentAddr).getKey (index + 1)))
  let b3 := b2.setNonLeaf parentAddr
    ((b2.getNonLeaf parentAddr).setKey (index + 1) (rm.1.getD 0 default).1)
  b3.setNonLeaf rightAddr
    ((b3.getNonLeaf rightAddr).insertChildren 0 (setHeadKey rm.1 []))

/-- `nonLeafController.Split` (nonleaf.go). -/
def splitNonLeaf (bpt : BPTree) (nlAddr : Int) (n : Nat) (parentAddr : Int)
    (index : Nat) (newSiblingAddr : Int) : BPTree :=
  let rm := (bpt.getNonLeaf nlAddr).removeChildren
    ((bpt.getNonLeaf nlAddr).numberOfChildren - n) n
  let b1 := bpt.setNonLeaf nlAddr rm.2
  let b2 := b1.setNonLeaf newSiblingAddr
    ((b1.getNonLeaf newSiblingAddr).insertChildren 0 (setHeadKey rm.1 []))
  b2.setNonLeaf parentAddr
    ((b2.getNonLeaf parentAddr).insertChildren (index + 1)
      [((rm.1.getD 0 default).1, newSiblingAddr)])

/-- `nonLeafController.MergeFromRight` (nonleaf.go): the parent
separator drops down onto the absorbed block's first child. -/
def mergeNonLeafFromRight (bpt : BPTree) (nlAddr : Int) (parentAddr : Int)
    (index : Nat) (rightAddr : Int) : BPTree :=
  let rmP := (bpt.getNonLeaf parentAddr).removeChildren (index + 1) 1
  let b1 := bpt.setNonLeaf parentAddr rmP.2
  let rm := (b1.getNonLeaf rightAddr).removeChildren 0
    (b1.getNonLeaf rightAddr).numberOfChildren
  let b2 := b1.setNonLeaf rightAddr rm.2
  b2.setNonLeaf nlAddr
    ((b2.getNonLeaf nlAddr).insertChildren
      (b2.getNonLeaf nlAddr).numberOfChildren
      (setHeadKey rm.1 (rmP.1.getD 0 default).1))

/-- `increaseHeight` (bptree.go): a fresh root non-leaf whose sole
child (with the dummy key) is the old root. -/
def increaseHeight (bpt : BPTree) : BPTree :=
  let r := bpt.createNonLeaf
  let b1 := r.2.setNonLeaf r.1
    ((r.2.getNonLeaf r.1).insertChildren 0 [([], bpt.rootAddr)])
  { b1 with rootAddr := r.1, height := b1.height + 1 }

/-- `decreaseHeight` (bptree.go). -/
def decreaseHeight (bpt : BPTree) : BPTree :=
  let newRoot := (bpt.getNonLeaf bpt.rootAddr).getChildAddr 0
  let b1 := bpt.destroyNonLeaf bpt.rootAddr
  { b1 with rootAddr := newRoot, height := b1.height - 1 }

/-- `ensureNotOverloadNonLeaf` and `ensureNotUnderloadNonLeaf`
(bptree.go), fused into one fuel-indexed function (the two recurse
into each other walking the path towards the root; the callers hand in
more fuel than the path is long).  `true` selects the overload check,
`false` the underload check, at path position `i`. -/
def nonLeafRebalance : Nat → Bool → BPTree → RecordPath → Nat →
    BPTree × RecordPath
  | 0, _, bpt, path, _ => (bpt, path)
  | fuel + 1, true, bpt, path, i0 =>
    let addr := (path.getD i0 (0, 0)).1
    if (bpt.getNonLeaf addr).loadSize ≤ nonLeafOverloadThreshold then
      (bpt, path)
    else
      let childIndex := (path.getD i0 (0, 0)).2
      let bpt1 := if i0 = 0 then bpt.increaseHeight else bpt
      let path1 := if i0 = 0 then (bpt1.rootAddr, 0) :: path else path
      let i := if i0 = 0 then 1 else i0
      let nl := bpt1.getNonLeaf addr
      let parentAddr := (path1.getD (i - 1) (0, 0)).1
      let parent := bpt1.getNonLeaf parentAddr
      let index := (path1.getD (i - 1) (0, 0)).2
      let rAddr := parent.getChildAddr (index + 1)
      let cntR := countChildrenForShiftingToRight nl (bpt1.getNonLeaf rAddr)
      if index + 1 < parent.numberOfChildren ∧ 1 ≤ cntR then
        let m := nl.numberOfChildren - cntR
        let bpt2 := shiftNonLeafToRight bpt1 addr cntR parentAddr index rAddr
        let path2 :=
          if m ≤ childIndex then
            (path1.set i (rAddr, childIndex - m)).set (i - 1)
              (parentAddr, index + 1)
          else path1
        let r := nonLeafRebalance fuel false bpt2 path2 (i - 1)
        nonLeafRebalance fuel true r.1 r.2 (i - 1)
      else
        let lAddr := parent.getChildAddr (index - 1)
        let cntL := countChildrenForShiftingToLeft nl (bpt1.getNonLeaf lAddr)
        if 1 ≤ index ∧ 1 ≤ cntL then
          let m := (bpt1.getNonLeaf lAddr).numberOfChildren
          let bpt2 := shiftNonLeafToLeft bpt1 addr cntL parentAddr index lAddr
          let path2 :=
            if childIndex < cntL then
              (path1.set i (lAddr, m + childIndex)).set (i - 1)
                (parentAddr, index - 1)
            else path1.set i (addr, childIndex - cntL)
          let r := nonLeafRebalance fuel false bpt2 path2 (i - 1)
          nonLeafRebalance fuel true r.1 r.2 (i - 1)
        else
          let cnt := countChildrenForSpliting nl
          let m := nl.numberOfChildren - cnt
          let cr := bpt1.createNonLeaf
          let bpt2 := splitNonLeaf cr.2 addr cnt parentAddr index cr.1
          let path2 :=
            if m ≤ childIndex then
              (path1.set i (cr.1, childIndex - m)).set (i - 1)
                (parentAddr, index + 1)
            else path1
          nonLeafRebalance fuel true bpt2 path2 (i - 1)
  | fuel + 1, false, bpt, path, i =>
    let addr := (path.getD i (0, 0)).1
    if i = 0 then
      if (bpt.getNonLeaf addr).numberOfChildren = 1 then
        (bpt.decreaseHeight, path.drop 1)
      else (bpt, path)
    else if (nonLeafUnderloadThreshold : Nat) ≤
        (bpt.getNonLeaf addr).loadSize then (bpt, path)
    else
      let nl := bpt.getNonLeaf addr
      let childIndex := (path.getD i (0, 0)).2
      let parentAddr := (path.getD (i - 1) (0, 0)).1
      let parent := bpt.getNonLeaf parentAddr
      let index := (path.getD (i - 1) (0, 0)).2
      let rAddr := parent.getChildAddr (index + 1)
      let cntR := countChildrenForShiftingToLeft (bpt.getNonLeaf rAddr) nl
      if index + 1 < parent.numberOfChildren ∧ 1 ≤ cntR then
        let bpt2 := shiftNonLeafToLeft bpt rAddr cntR parentAddr (index + 1) addr
        let r := nonLeafRebalance fuel false bpt2 path (i - 1)
        nonLeafRebalance fuel true r.1 r.2 (i - 1)
      else
        let lAddr := parent.getChildAddr (index - 1)
        let cntL := countChildrenForShiftingToRight (bpt.getNonLeaf lAddr) nl
        if 1 ≤ index ∧ 1 ≤ cntL then
          let bpt2 := shiftNonLeafToRight bpt lAddr cntL parentAddr (index - 1) addr
          let path2 := path.set i (addr, cntL + childIndex)
          let r := nonLeafRebalance fuel false bpt2 path2 (i - 1)
          nonLeafRebalance fuel true r.1 r.2 (i - 1)
        else
          if index + 1 < parent.numberOfChildren then
            let bpt2 :=
              (mergeNonLeafFromRight bpt addr parentAddr index rAddr).destroyNonLeaf
                rAddr
            nonLeafRebalance fuel false bpt2 path (i - 1)
          else
            let m := (bpt.getNonLeaf lAddr).numberOfChildren
            let bpt2 :=
              (mergeNonLeafFromRight bpt lAddr parentAddr (index - 1)
                addr).destroyNonLeaf addr
            let path2 :=
              (path.set i (lAddr, m + childIndex)).set (i - 1)
                (parentAddr, index - 1)
            nonLeafRebalance fuel false bpt2 path2 (i - 1)

/-- Embeds `ensureNotOverloadLeaf` (bptree.go). -/
def ensureNotOverloadLeaf (fuel : Nat) (bpt : BPTree) (path : RecordPath) :
    BPTree × RecordPath :=
  let i0 := path.length - 1
  let leafAddr := (path.getD i0 (0, 0)).1
  if (bpt.getLeaf leafAddr).loadSize ≤ leafOverloadThreshold then (bpt, path)
  else
    let recordIndex := (path.getD i0 (0, 0)).2
    let bpt1 := if i0 = 0 then bpt.increaseHeight else bpt
    let path1 := if i0 = 0 then (bpt1.rootAddr, 0) :: path else path
    let i := if i0 = 0 then 1 else i0
    let lf := bpt1.getLeaf leafAddr
    let parentAddr := (path1.getD (i - 1) (0, 0)).1
    let parent := bpt1.getNonLeaf parentAddr
    let leafIndex := (path1.getD (i - 1) (0, 0)).2
    let rAddr := parent.getChildAddr (leafIndex + 1)
    let cntR := countRecordsForShiftingToRight lf (bpt1.getLeaf rAddr)
    if leafIndex + 1 < parent.numberOfChildren ∧ 1 ≤ cntR then
      let m := lf.numberOfRecords - cntR
      let bpt2 := shiftLeafToRight bpt1 leafAddr cntR parentAddr leafIndex rAddr
      let path2 :=
        if m ≤ recordIndex then
          (path1.set i (rAddr, recordIndex - m)).set (i - 1)
            (parentAddr, leafIndex + 1)
        else path1
      let r := nonLeafRebalance fuel false bpt2 path2 (i - 1)
      nonLeafRebalance fuel true r.1 r.2 (i - 1)
    else
      let lAddr := parent.getChildAddr (leafIndex - 1)
      let cntL := countRecordsForShiftingToLeft lf (bpt1.getLeaf lAddr)
      if 1 ≤ leafIndex ∧ 1 ≤ cntL then
        let m := (bpt1.getLeaf lAddr).numberOfRecords
        let bpt2 := shiftLeafToLeft bpt1 leafAddr cntL parentAddr leafIndex lAddr
        let path2 :=
          if recordIndex < cntL then
            (path1.set i (lAddr, m + recordIndex)).set (i - 1)
              (parentAddr, leafIndex - 1)
          else path1.set i (leafAddr, recordIndex - cntL)
        let r := nonLeafRebalance fuel false bpt2 path2 (i - 1)
        nonLeafRebalance fuel true r.1 r.2 (i - 1)
      else
        let cnt := countRecordsForSpliting lf
        let m := lf.numberOfRecords - cnt
        let cr := bpt1.createLeaf
        let bpt2 := splitLeaf cr.2 leafAddr cnt parentAddr leafIndex cr.1
        let bpt3 := bpt2.leafListInsertAfter cr.1 leafAddr
        let path2 :=
          if m ≤ recordIndex then
            (path1.set i (cr.1, recordIndex - m)).set (i - 1)
              (parentAddr, leafIndex + 1)
          else path1
        nonLeafRebalance fuel true bpt3 path2 (i - 1)

/-- Embeds `ensureNotUnderloadLeaf` (bptree.go). -/
def ensureNotUnderloadLeaf (fuel : Nat) (bpt : BPTree) (path : RecordPath) :
    BPTree × RecordPath :=
  let i := path.length - 1
  if i = 0 then (bpt, path)
  else
    let leafAddr := (path.getD i (0, 0)).1
    if (leafUnderloadThreshold : Nat) ≤ (bpt.getLeaf leafAddr).loadSize then
      (bpt, path)
    else
      let lf := bpt.getLeaf leafAddr
      let recordIndex := (path.getD i (0, 0)).2
      let parentAddr := (path.getD (i - 1) (0, 0)).1
      let parent := bpt.getNonLeaf parentAddr
      let leafIndex := (path.getD (i - 1) (0, 0)).2
      let rAddr := parent.getChildAddr (leafIndex + 1)
      let cntR := countRecordsForShiftingToLeft (bpt.getLeaf rAddr) lf
      if leafIndex + 1 < parent.numberOfChildren ∧ 1 ≤ cntR then
        let bpt2 := shiftLeafToLeft bpt rAddr cntR parentAddr (leafIndex + 1)
          leafAddr
        let r := nonLeafRebalance fuel false bpt2 path (i - 1)
        nonLeafRebalance fuel true r.1 r.2 (i - 1)
      else
        let lAddr := parent.getChildAddr (leafIndex - 1)
        let cntL := countRecordsForShiftingToRight (bpt.getLeaf lAddr) lf
        if 1 ≤ leafIndex ∧ 1 ≤ cntL then
          let bpt2 := shiftLeafToRight bpt lAddr cntL parentAddr (leafIndex - 1)
            leafAddr
          let path2 := path.set i (leafAddr, cntL + recordIndex)
          let r := nonLeafRebalance fuel false bpt2 path2 (i - 1)
          nonLeafRebalance fuel true r.1 r.2 (i - 1)
        else
          if leafIndex + 1 < parent.numberOfChildren then
            let bpt2 := bpt.leafListRemove rAddr
            let bpt3 :=
              (mergeLeafFromRight bpt2 leafAddr parentAddr leafIndex
                rAddr).destroyLeaf rAddr
            nonLeafRebalance fuel false bpt3 path (i - 1)
          else
            let m := (bpt.getLeaf lAddr).numberOfRecords
            let bpt2 := bpt.leafListRemove leafAddr
            let bpt3 :=
              (mergeLeafFromRight bpt2 lAddr parentAddr (leafIndex - 1)
                leafAddr).destroyLeaf leafAddr
            let path2 :=
              (path.set i (lAddr, m + recordIndex)).set (i - 1)
                (parentAddr, leafIndex - 1)
            nonLeafRebalance fuel false bpt3 path2 (i - 1)

/-- The upward walk of `syncKey` (bptree.go): the counter is one past
the path position under examination. -/
def syncKeyLoop (lfAddr : Int) : Nat → BPTree → RecordPath →
    BPTree × RecordPath
  | 0, bpt, path => (bpt, path)
  | i + 1, bpt, path =>
    if 1 ≤ (path.getD i (0, 0)).2 then
      let addr := (path.getD i (0, 0)).1
      let bpt1 := bpt.setNonLeaf addr
        ((bpt.getNonLeaf addr).setKey (path.getD i (0, 0)).2
          ((bpt.getLeaf lfAddr).getKey 0))
      let r := nonLeafRebalance (bpt1.height + 4) false bpt1 path i
      nonLeafRebalance (bpt1.height + 4) true r.1 r.2 i
    else syncKeyLoop lfAddr i bpt path

/-- Embeds `syncKey` (bptree.go): after a change at record index 0 of
the path's leaf, push the leaf's new first key up to the nearest
ancestor that carries a separator for this subtree. -/
def syncKey (bpt : BPTree) (path : RecordPath) : BPTree × RecordPath :=
  if path.length < 2 then (bpt, path)
  else if 1 ≤ (path.getD (path.length - 1) (0, 0)).2 then (bpt, path)
  else
    syncKeyLoop (path.getD (path.length - 1) (0, 0)).1 (path.length - 1) bpt
      path

/-- Embeds `insertRecord` (bptree.go). -/
def insertRecord (bpt : BPTree) (path : RecordPath) (rec : Bytes × Bytes) :
    BPTree :=
  let la := bpt.locateRecordPath path
  let bpt1 := bpt.setLeaf la.1 ((bpt.getLeaf la.1).insertRecords la.2 [rec])
  let r2 := bpt1.syncKey path
  let r3 := ensureNotOverloadLeaf (r2.1.height + 4) r2.1 r2.2
  { r3.1 with recordCount := r3.1.recordCount + 1 }

/-- Embeds `removeRecord` (bptree.go): the removed record and the new
state. -/
def removeRecord (bpt : BPTree) (path : RecordPath) :
    (Bytes × Bytes) × BPTree :=
  let la := bpt.locateRecordPath path
  let rm := (bpt.getLeaf la.1).removeRecords la.2 1
  let bpt1 := bpt.setLeaf la.1 rm.2
  let r2 := bpt1.syncKey path
  let r3 := ensureNotUnderloadLeaf (r2.1.height + 4) r2.1 r2.2
  (rm.1.getD 0 default,
    { r3.1 with recordCount := r3.1.recordCount - 1 })

/-- Embeds `getValue` (bptree.go): read the record's value through the
value factory. -/
def getValueAtPath (bpt : BPTree) (path : RecordPath) (do1 : Bool) :
    Option Bytes :=
  if do1 then
    some ((readValue bpt.fileStorage
      ((bpt.getLeaf (bpt.locateRecordPath path).1).getValue
        (bpt.locateRecordPath path).2)).getD [])
  else none

/-- The raw size a stored key stands for (`GetRawKeySize`, key.go). -/
def rawKeySize (fs : FileStorage) (k : Bytes) : Nat :=
  if k.length < maxKeySize then k.length
  else keyPrefixSize +
    ((getOverflow fs (readBe64 (k.drop keyPrefixSize))).getD []).length

/-- The raw size a stored value stands for (`GetValueSize`, value.go). -/
def rawValueSize (fs : FileStorage) (v : Bytes) : Nat :=
  if v.length < maxValueSize then v.length
  else (maxValueSize - 8) +
    ((getOverflow fs (readBe64 (v.drop (maxValueSize - 8)))).getD []).length

/-- Embeds `createRecord` (bptree.go). -/
def createRecord (bpt : BPTree) (key value : Bytes) :
    (Bytes × Bytes) × BPTree :=
  let rk := createKey bpt.fileStorage key
  let rv := createValue rk.2 value
  ((rk.1, rv.1),
    { bpt with
      fileStorage := rv.2,
      payloadSize := bpt.payloadSize + key.length + value.length })

/-- Embeds `destroyRecord` (bptree.go); freeing is not modelled, the
payload bookkeeping is. -/
def destroyRecord (bpt : BPTree) (rec : Bytes × Bytes) (returnValue : Bool) :
    Option Bytes × BPTree :=
  ((if returnValue then some ((readValue bpt.fileStorage rec.2).getD [])
    else none),
    { bpt with
      payloadSize := bpt.payloadSize -
        (rawKeySize bpt.fileStorage rec.1 : Int) -
        (rawValueSize bpt.fileStorage rec.2 : Int) })

/-- Embeds `replaceValue` (bptree.go). -/
def replaceValueAtPath (bpt : BPTree) (path : RecordPath) (newValue : Bytes)
    (returnOldValue : Bool) : Option Bytes × BPTree :=
  let la := bpt.locateRecordPath path
  let v := (bpt.getLeaf la.1).getValue la.2
  let oldValue :=
    if returnOldValue then some ((readValue bpt.fileStorage v).getD [])
    else none
  let oldValueSize :=
    if returnOldValue then ((readValue bpt.fileStorage v).getD []).length
    else rawValueSize bpt.fileStorage v
  let rv := createValue bpt.fileStorage newValue
  let bpt1 := { bpt with fileStorage := rv.2 }
  let bpt2 := bpt1.setLeaf la.1 ((bpt1.getLeaf la.1).setValue la.2 rv.1)
  let r3 := ensureNotUnderloadLeaf (bpt2.height + 4) bpt2 path
  let r4 := ensureNotOverloadLeaf (r3.1.height + 4) r3.1 r3.2
  (oldValue,
    { r4.1 with
      payloadSize := r4.1.payloadSize + (newValue.length : Int) -
        (oldValueSize : Int) })

/-- Embeds `AddRecord` (bptree.go): result `(present value, inserted)`
and the new state. -/
def addRecord (bpt : BPTree) (key value : Bytes) (returnPresentValue : Bool) :
    (Option Bytes × Bool) × BPTree :=
  let fr := bpt.findRecord (.bytes key)
  if fr.2 then ((bpt.getValueAtPath fr.1 returnPresentValue, false), bpt)
  else
    let cr := bpt.createRecord key value
    ((none, true), cr.2.insertRecord fr.1 cr.1)

/-- Embeds `UpdateRecord` (bptree.go). -/
def updateRecord (bpt : BPTree) (key value : Bytes)
    (returnReplacedValue : Bool) : (Option Bytes × Bool) × BPTree :=
  let fr := bpt.findRecord (.bytes key)
  if fr.2 then
    let r := bpt.replaceValueAtPath fr.1 value returnReplacedValue
    ((r.1, true), r.2)
  else ((none, false), bpt)

/-- Embeds `AddOrUpdateRecord` (bptree.go). -/
def addOrUpdateRecord (bpt : BPTree) (key value : Bytes)
    (returnReplacedValue : Bool) : (Option Bytes × Bool) × BPTree :=
  let fr := bpt.findRecord (.bytes key)
  if fr.2 then
    let r := bpt.replaceValueAtPath fr.1 value returnReplacedValue
    ((r.1, false), r.2)
  else
    let cr := bpt.createRecord key value
    ((none, true), cr.2.insertRecord fr.1 cr.1)

/-- Embeds `DeleteRecord` (bptree.go); the key may be a sentinel. -/
def deleteRecord (bpt : BPTree) (key : RawKey) (returnRemovedValue : Bool) :
    (Option Bytes × Bool) × BPTree :=
  let fr := bpt.findRecord key
  if fr.2 then
    let r := bpt.removeRecord fr.1
    let d := r.2.destroyRecord r.1 returnRemovedValue
    ((d.1, true), d.2)
  else ((none, false), bpt)

/-- Embeds `HasRecord` (bptree.go); the key may be a sentinel. -/
def hasRecord (bpt : BPTree) (key : RawKey) (returnPresentValue : Bool) :
    Option Bytes × Bool :=
  let fr := bpt.findRecord key
  if fr.2 then (bpt.getValueAtPath fr.1 returnPresentValue, true)
  else (none, false)

end BPTree

/-- The one ancestor write `syncKey` performs (bptree.go): overwrite
the separator at the ancestor's child position with the leaf's first
key. -/
def BPTree.syncKeySetKey (bpt : BPTree) (lfAddr : Int)
    (path : BPTree.RecordPath) (j : Nat) : BPTree :=
  bpt.setNonLeaf (path.getD j (0, 0)).1
    ((bpt.getNonLeaf (path.getD j (0, 0)).1).setKey (path.getD j (0, 0)).2
      ((bpt.getLeaf lfAddr).getKey 0))

/-- A node of the stored B+ tree together with the in-leaf-order list
of records its subtree holds: a height-1 node is a leaf page, a
height-`h+1` node is a non-leaf page whose children each represent a
non-empty subtree. -/
inductive NodeRep (bpt : BPTree) : Nat → Int → List (Bytes × Bytes) → Prop where
  | leaf (addr : Int) (lf : LeafNode) :
      bpt.leafs.lookup addr = some lf →
      NodeRep bpt 1 addr lf.records
  | node (h : Nat) (addr : Int) (nl : NonLeafNode)
      (recss : List (List (Bytes × Bytes))) :
      bpt.nonLeafs.lookup addr = some nl →
      nl.children ≠ [] →
      recss.length = nl.children.length →
      (∀ i, i < nl.children.length →
        NodeRep bpt h ((nl.children.getD i default).2) (recss.getD i [])) →
      (∀ rs ∈ recss, rs ≠ []) →
      NodeRep bpt (h + 1) addr recss.flatten

end PlainKV

namespace PlainKV

theorem mergeParityGo_zero (x : Nat) (a b : HashItem) (as bs : List HashItem) :
    mergeParityGo x (a :: as) (b :: bs) 0 =
      (x * (a.key.length + b.key.length)) % u64Mod % 2 := rfl

theorem mergeParityGo_succ (x : Nat) (a b : HashItem) (as bs : List HashItem) (i : Nat) :
    mergeParityGo x (a :: as) (b :: bs) (i + 1) =
      mergeParityGo ((x * (a.key.length + b.key.length)) % u64Mod) as bs i := by
  rw [mergeParityGo, mergeParityGo, List.range_succ_eq_map, List.foldl_cons,
    List.foldl_map]
  simp only [List.getD_cons_zero, List.getD_cons_succ]

theorem mergeParityGo_lt_two (x : Nat) (A B : List HashItem) (i : Nat) :
    mergeParityGo x A B i < 2 :=
  Nat.mod_lt _ (by omega)

theorem mergePairs_perm (x : Nat) (A B : List HashItem) :
    (mergePairs x A B).Perm (A ++ B) := by
  induction A generalizing x B with
  | nil => cases B <;> simp [mergePairs]
  | cons a as ih =>
    cases B with
    | nil => simp [mergePairs]
    | cons b bs =>
      rw [mergePairs]
      have hr := ih ((x * (a.key.length + b.key.length)) % u64Mod) bs
      have habab :
          (a :: b :: mergePairs ((x * (a.key.length + b.key.length)) % u64Mod) as bs).Perm
            ((a :: as) ++ (b :: bs)) := by
        refine List.Perm.cons a ?_
        exact ((hr.cons b).trans List.perm_middle.symm)
      by_cases hbit : (x * (a.key.length + b.key.length)) % u64Mod % 2 = 1
      · rw [if_pos hbit]
        exact (List.Perm.swap a b _).trans habab
      · rw [if_neg hbit]
        exact habab

theorem mergePairs_getD (d : HashItem) (i : Nat) :
    ∀ (x : Nat) (A B : List HashItem), i < A.length → i < B.length →
      (mergePairs x A B).getD (2 * i + mergeParityGo x A B i) d = A.getD i d ∧
      (mergePairs x A B).getD (2 * i + (1 - mergeParityGo x A B i)) d = B.getD i d := by
  induction i with
  | zero =>
    intro x A B hA hB
    match A, B with
    | a :: as, b :: bs =>
      rw [mergePairs, mergeParityGo_zero]
      by_cases hbit : (x * (a.key.length + b.key.length)) % u64Mod % 2 = 1
      · rw [if_pos hbit, hbit]
        simp
      · have h0 : (x * (a.key.length + b.key.length)) % u64Mod % 2 = 0 := by omega
        rw [if_neg hbit, h0]
        simp
  | succ i ih =>
    intro x A B hA hB
    match A, B with
    | a :: as, b :: bs =>
      have hA2 : i < as.length := by simpa using Nat.lt_of_succ_lt_succ hA
      have hB2 : i < bs.length := by simpa using Nat.lt_of_succ_lt_succ hB
      rw [mergePairs, mergeParityGo_succ]
      have hi1 : 2 * (i + 1) + mergeParityGo ((x * (a.key.length + b.key.length)) % u64Mod) as bs i =
          (2 * i + mergeParityGo ((x * (a.key.length + b.key.length)) % u64Mod) as bs i) + 2 := by
        omega
      have hi2 : 2 * (i + 1) + (1 - mergeParityGo ((x * (a.key.length + b.key.length)) % u64Mod) as bs i) =
          (2 * i + (1 - mergeParityGo ((x * (a.key.length + b.key.length)) % u64Mod) as bs i)) + 2 := by
        omega
      have hrec := ih ((x * (a.key.length + b.key.length)) % u64Mod) as bs hA2 hB2
      by_cases hbit : (x * (a.key.length + b.key.length)) % u64Mod % 2 = 1
      · rw [if_pos hbit, hi1, hi2]
        simpa using hrec
      · rw [if_neg hbit, hi1, hi2]
        simpa using hrec

theorem mergePairs_drop (x : Nat) (A B : List HashItem) :
    (mergePairs x A B).drop (2 * min A.length B.length) =
      A.drop (min A.length B.length) ++ B.drop (min A.length B.length) := by
  induction A generalizing x B with
  | nil => cases B <;> simp [mergePairs]
  | cons a as ih =>
    cases B with
    | nil => simp [mergePairs]
    | cons b bs =>
      have hmin : min (a :: as).length (b :: bs).length = min as.length bs.length + 1 := by
        simp [Nat.succ_min_succ]
      rw [mergePairs, hmin]
      have h2 : 2 * (min as.length bs.length + 1) = 2 * min as.length bs.length + 1 + 1 := by
        omega
      by_cases hbit : (x * (a.key.length + b.key.length)) % u64Mod % 2 = 1
      · rw [if_pos hbit, h2]
        simpa using ih ((x * (a.key.length + b.key.length)) % u64Mod) bs
      · rw [if_neg hbit, h2]
        simpa using ih ((x * (a.key.length + b.key.length)) % u64Mod) bs

theorem zeroLastValueSize_ne_nil (infos : List HashItemInfo) (h : infos ≠ []) :
    zeroLastValueSize infos ≠ [] := by
  cases infos with
  | nil => exact absurd rfl h
  | cons info rest => cases rest <;> simp [zeroLastValueSize]

theorem zeroLastValueSize_getLast (infos : List HashItemInfo) (h : infos ≠ []) :
    ((zeroLastValueSize infos).getLast?).map HashItemInfo.valueSize = some 0 := by
  induction infos with
  | nil => exact absurd rfl h
  | cons info rest ih =>
    cases rest with
    | nil => simp [zeroLastValueSize]
    | cons info2 rest2 =>
      rw [zeroLastValueSize,
        show (info :: zeroLastValueSize (info2 :: rest2)).getLast? =
            (zeroLastValueSize (info2 :: rest2)).getLast? by
          cases h2 : zeroLastValueSize (info2 :: rest2) with
          | nil => exact absurd h2 (zeroLastValueSize_ne_nil _ (List.cons_ne_nil _ _))
          | cons a l => rfl]
      exact ih (List.cons_ne_nil _ _)

theorem unpackGo_cons_of_ne_nil (info : HashItemInfo) (rest : List HashItemInfo)
    (hr : rest ≠ []) (bin : Bytes) :
    unpackGo (info :: rest) bin =
      ⟨info.keySum, bin.take info.keySize, (bin.drop info.keySize).take info.valueSize⟩
        :: unpackGo rest ((bin.drop info.keySize).drop info.valueSize) := by
  cases rest with
  | nil => exact absurd rfl hr
  | cons a l => rfl

theorem unpackGo_pack (items : List HashItem) (h : items ≠ []) :
    unpackGo
      (zeroLastValueSize (items.map fun it => ⟨it.keySum, it.key.length, it.value.length⟩))
      ((items.map fun it => it.key ++ it.value).flatten) = items := by
  induction items with
  | nil => exact absurd rfl h
  | cons it rest ih =>
    cases rest with
    | nil =>
      simp only [List.map_cons, List.map_nil, zeroLastValueSize, List.flatten_cons,
        List.flatten_nil, List.append_nil, unpackGo]
      rw [List.take_left, List.drop_left]
      simp
    | cons it2 rest2 =>
      simp only [List.map_cons, zeroLastValueSize, List.flatten_cons]
      rw [unpackGo_cons_of_ne_nil _ _ (zeroLastValueSize_ne_nil _ (List.cons_ne_nil _ _))]
      simp only
      rw [List.append_assoc, List.take_left, List.drop_left, List.take_left,
        List.drop_left]
      simp only [List.cons.injEq]
      refine ⟨trivial, ?_⟩
      have := ih (List.cons_ne_nil _ _)
      simpa [zeroLastValueSize] using this

/-- Decoding a packed slot recovers the exact item list
(`unpackSlot (packSlot items) = items` for nonempty `items`). -/
theorem unpackSlot_packSlot (items : List HashItem) (h : items ≠ []) :
    unpackSlot (packSlot items) = items := by
  rw [packSlot, if_neg (by simpa using h), unpackSlot]
  exact unpackGo_pack items h

namespace HashMap

theorem and_two_pow_eq_of_le_lt {i s : Nat} (h1 : 2 ^ s ≤ i) (h2 : i < 2 ^ (s + 1)) :
    i &&& 2 ^ s = 2 ^ s := by
  rw [Nat.and_two_pow]
  have hbit : i.testBit s = true := by
    rw [Nat.testBit_to_div_mod]
    have hdiv : i / 2 ^ s = 1 := by
      refine Nat.div_eq_of_lt_le (by simpa using h1) ?_
      have : 2 ^ (s + 1) = 2 * 2 ^ s := by rw [Nat.pow_succ]; ring
      omega
    simp [hdiv]
  simp [hbit]

theorem calculateLowSlotIndex_eq (hm : HashMap) (i : Nat)
    (h1 : 2 ^ hm.minSlotCountShift ≤ i) (h2 : i < 2 ^ (hm.minSlotCountShift + 1)) :
    hm.calculateLowSlotIndex i = i - 2 ^ hm.minSlotCountShift := by
  rw [calculateLowSlotIndex, minSlotCount, and_two_pow_eq_of_le_lt h1 h2]

theorem calculateSlotIndex_eq (hm : HashMap)
    (hle : 2 ^ hm.minSlotCountShift ≤ hm.slots.length) (keySum : Nat) :
    hm.calculateSlotIndex keySum =
      slotIndexSpec hm.minSlotCountShift hm.slots.length keySum := by
  rw [calculateSlotIndex, slotIndexSpec]
  have hmask : keySum &&& (hm.maxSlotCountPlusOne - 1) =
      keySum % 2 ^ (hm.minSlotCountShift + 1) := by
    rw [maxSlotCountPlusOne]
    exact Nat.and_pow_two_sub_one_eq_mod keySum _
  rw [hmask, slotCount]
  by_cases hc : keySum % 2 ^ (hm.minSlotCountShift + 1) < hm.slots.length
  · rw [if_neg (by omega), if_pos hc]
  · rw [if_pos (by omega), if_neg hc]
    exact calculateLowSlotIndex_eq hm _ (by omega)
      (Nat.mod_lt _ (Nat.pos_pow_of_pos _ (by omega)))

theorem slotIndexSpec_lt (s sc h : Nat) (h1 : 2 ^ s ≤ sc) :
    slotIndexSpec s sc h < sc := by
  rw [slotIndexSpec]
  have hm2 : h % 2 ^ (s + 1) < 2 ^ (s + 1) :=
    Nat.mod_lt _ (Nat.pos_pow_of_pos _ (by omega))
  have hp : 2 ^ (s + 1) = 2 * 2 ^ s := by rw [Nat.pow_succ]; ring
  have hP : 0 < 2 ^ s := Nat.pos_pow_of_pos _ (by omega)
  split <;> omega

/-- Placement after one expansion step, untouched slots: an item whose
hash addressed a slot other than the split one keeps its slot index
when the slot count grows by one. -/
theorem slotIndexSpec_expand_untouched (s sc h : Nat) (h1 : 2 ^ s ≤ sc)
    (h2 : sc < 2 ^ (s + 1)) (hne : slotIndexSpec s sc h ≠ sc - 2 ^ s) :
    slotIndexSpec (if sc + 1 = 2 ^ (s + 1) then s + 1 else s) (sc + 1) h =
      slotIndexSpec s sc h := by
  have hP : 0 < 2 ^ s := Nat.pos_pow_of_pos _ (by omega)
  have e1 : 2 ^ (s + 1) = 2 * 2 ^ s := by rw [Nat.pow_succ]; ring
  have e2 : 2 ^ (s + 1 + 1) = 4 * 2 ^ s := by rw [Nat.pow_succ, Nat.pow_succ]; ring
  have d1 := @Nat.mod_pow_succ h 2 s
  have d2 := @Nat.mod_pow_succ h 2 (s + 1)
  have m1 : h % 2 ^ s < 2 ^ s := Nat.mod_lt _ hP
  have hb1 : h / 2 ^ s % 2 = 0 ∨ h / 2 ^ s % 2 = 1 := by omega
  have hb2 : h / 2 ^ (s + 1) % 2 = 0 ∨ h / 2 ^ (s + 1) % 2 = 1 := by omega
  by_cases hgrow : sc + 1 = 2 ^ (s + 1)
  · rw [if_pos hgrow]
    simp only [slotIndexSpec] at *
    rcases hb1 with hb | hb <;> rcases hb2 with hb' | hb' <;>
      rw [hb] at d1 <;> rw [hb'] at d2 <;> simp at d1 d2 <;>
      split at hne <;> split <;> omega
  · rw [if_neg hgrow]
    simp only [slotIndexSpec] at *
    rcases hb1 with hb | hb <;>
      rw [hb] at d1 <;> simp at d1 <;>
      split at hne <;> split <;> omega

/-- Placement after one expansion step, split slot, bit clear: the item
stays at the split slot. -/
theorem slotIndexSpec_expand_stay (s sc h : Nat) (h1 : 2 ^ s ≤ sc)
    (h2 : sc < 2 ^ (s + 1)) (heq : slotIndexSpec s sc h = sc - 2 ^ s)
    (hbit : h / 2 ^ s % 2 = 0) :
    slotIndexSpec (if sc + 1 = 2 ^ (s + 1) then s + 1 else s) (sc + 1) h =
      sc - 2 ^ s := by
  have hP : 0 < 2 ^ s := Nat.pos_pow_of_pos _ (by omega)
  have e1 : 2 ^ (s + 1) = 2 * 2 ^ s := by rw [Nat.pow_succ]; ring
  have e2 : 2 ^ (s + 1 + 1) = 4 * 2 ^ s := by rw [Nat.pow_succ, Nat.pow_succ]; ring
  have d1 := @Nat.mod_pow_succ h 2 s
  have d2 := @Nat.mod_pow_succ h 2 (s + 1)
  have m1 : h % 2 ^ s < 2 ^ s := Nat.mod_lt _ hP
  have hb2 : h / 2 ^ (s + 1) % 2 = 0 ∨ h / 2 ^ (s + 1) % 2 = 1 := by omega
  rw [hbit] at d1
  simp at d1
  by_cases hgrow : sc + 1 = 2 ^ (s + 1)
  · rw [if_pos hgrow]
    simp only [slotIndexSpec] at *
    rcases hb2 with hb' | hb' <;> rw [hb'] at d2 <;> simp at d2 <;>
      split at heq <;> split <;> omega
  · rw [if_neg hgrow]
    simp only [slotIndexSpec] at *
    split at heq <;> split <;> omega

/-- Placement after one expansion step, split slot, bit set: the item
moves to the brand-new slot (index `sc`). -/
theorem slotIndexSpec_expand_move (s sc h : Nat) (h1 : 2 ^ s ≤ sc)
    (h2 : sc < 2 ^ (s + 1)) (heq : slotIndexSpec s sc h = sc - 2 ^ s)
    (hbit : h / 2 ^ s % 2 = 1) :
    slotIndexSpec (if sc + 1 = 2 ^ (s + 1) then s + 1 else s) (sc + 1) h = sc := by
  have hP : 0 < 2 ^ s := Nat.pos_pow_of_pos _ (by omega)
  have e1 : 2 ^ (s + 1) = 2 * 2 ^ s := by rw [Nat.pow_succ]; ring
  have e2 : 2 ^ (s + 1 + 1) = 4 * 2 ^ s := by rw [Nat.pow_succ, Nat.pow_succ]; ring
  have d1 := @Nat.mod_pow_succ h 2 s
  have d2 := @Nat.mod_pow_succ h 2 (s + 1)
  have m1 : h % 2 ^ s < 2 ^ s := Nat.mod_lt _ hP
  have hb2 : h / 2 ^ (s + 1) % 2 = 0 ∨ h / 2 ^ (s + 1) % 2 = 1 := by omega
  rw [hbit] at d1
  simp at d1
  by_cases hgrow : sc + 1 = 2 ^ (s + 1)
  · rw [if_pos hgrow]
    simp only [slotIndexSpec] at *
    rcases hb2 with hb' | hb' <;> rw [hb'] at d2 <;> simp at d2 <;>
      split at heq <;> split <;> omega
  · rw [if_neg hgrow]
    simp only [slotIndexSpec] at *
    split at heq <;> split <;> omega

/-- Placement after one contraction step, removed slot: an item of the
dropped last slot is re-addressed to the merge target
`sc' − (sc' &&& 2^s')`. -/
theorem slotIndexSpec_shrink_removed (s sc h : Nat) (h1 : 2 ^ s ≤ sc)
    (h2 : sc < 2 ^ (s + 1)) (h3 : 2 ≤ sc)
    (heq : slotIndexSpec s sc h = sc - 1) :
    slotIndexSpec (if sc - 1 < 2 ^ s then s - 1 else s) (sc - 1) h =
      (if sc - 1 < 2 ^ s then 2 ^ (s - 1) - 1 else sc - 1 - 2 ^ s) := by
  have hP : 0 < 2 ^ s := Nat.pos_pow_of_pos _ (by omega)
  have e1 : 2 ^ (s + 1) = 2 * 2 ^ s := by rw [Nat.pow_succ]; ring
  have d1 := @Nat.mod_pow_succ h 2 s
  have m1 : h % 2 ^ s < 2 ^ s := Nat.mod_lt _ hP
  have hb1 : h / 2 ^ s % 2 = 0 ∨ h / 2 ^ s % 2 = 1 := by omega
  by_cases hdrop : sc - 1 < 2 ^ s
  · -- the shift decreases: sc = 2^s and s ≥ 1
    have hsc : sc = 2 ^ s := by omega
    have hs1 : 1 ≤ s := by
      by_contra hcon
      have : s = 0 := by omega
      rw [this] at hsc
      simp at hsc
      omega
    have es : 2 ^ s = 2 ^ (s - 1) * 2 := by
      have h4 := Nat.pow_succ 2 (s - 1)
      have h5 : (s - 1).succ = s := by omega
      rw [h5] at h4
      exact h4
    have d0 := @Nat.mod_pow_succ h 2 (s - 1)
    rw [show s - 1 + 1 = s by omega] at d0
    have m0 : h % 2 ^ (s - 1) < 2 ^ (s - 1) :=
      Nat.mod_lt _ (Nat.pos_pow_of_pos _ (by omega))
    have hb0 : h / 2 ^ (s - 1) % 2 = 0 ∨ h / 2 ^ (s - 1) % 2 = 1 := by omega
    rw [if_pos hdrop, if_pos hdrop]
    simp only [slotIndexSpec] at *
    rw [show s - 1 + 1 = s by omega]
    rcases hb1 with hb | hb <;> rw [hb] at d1 <;> simp at d1 <;>
      rcases hb0 with hb' | hb' <;> rw [hb'] at d0 <;> simp at d0 <;>
      split at heq <;> split <;> omega
  · rw [if_neg hdrop, if_neg hdrop]
    simp only [slotIndexSpec] at *
    rcases hb1 with hb | hb <;> rw [hb] at d1 <;> simp at d1 <;>
      split at heq <;> split <;> omega

/-- Placement after one contraction step, other slots: an item outside
the dropped slot keeps its index. -/
theorem slotIndexSpec_shrink_other (s sc h : Nat) (h1 : 2 ^ s ≤ sc)
    (h2 : sc < 2 ^ (s + 1)) (h3 : 2 ≤ sc)
    (hne : slotIndexSpec s sc h ≠ sc - 1) :
    slotIndexSpec (if sc - 1 < 2 ^ s then s - 1 else s) (sc - 1) h =
      slotIndexSpec s sc h := by
  have hP : 0 < 2 ^ s := Nat.pos_pow_of_pos _ (by omega)
  have e1 : 2 ^ (s + 1) = 2 * 2 ^ s := by rw [Nat.pow_succ]; ring
  have d1 := @Nat.mod_pow_succ h 2 s
  have m1 : h % 2 ^ s < 2 ^ s := Nat.mod_lt _ hP
  have hb1 : h / 2 ^ s % 2 = 0 ∨ h / 2 ^ s % 2 = 1 := by omega
  by_cases hdrop : sc - 1 < 2 ^ s
  · have hsc : sc = 2 ^ s := by omega
    have hs1 : 1 ≤ s := by
      by_contra hcon
      have : s = 0 := by omega
      rw [this] at hsc
      simp at hsc
      omega
    have es : 2 ^ s = 2 ^ (s - 1) * 2 := by
      have h4 := Nat.pow_succ 2 (s - 1)
      have h5 : (s - 1).succ = s := by omega
      rw [h5] at h4
      exact h4
    have d0 := @Nat.mod_pow_succ h 2 (s - 1)
    rw [show s - 1 + 1 = s by omega] at d0
    have m0 : h % 2 ^ (s - 1) < 2 ^ (s - 1) :=
      Nat.mod_lt _ (Nat.pos_pow_of_pos _ (by omega))
    have hb0 : h / 2 ^ (s - 1) % 2 = 0 ∨ h / 2 ^ (s - 1) % 2 = 1 := by omega
    rw [if_pos hdrop]
    simp only [slotIndexSpec] at *
    rw [show s - 1 + 1 = s by omega]
    rcases hb1 with hb | hb <;> rw [hb] at d1 <;> simp at d1 <;>
      rcases hb0 with hb' | hb' <;> rw [hb'] at d0 <;> simp at d0 <;>
      split at hne <;> split <;> omega
  · rw [if_neg hdrop]
    simp only [slotIndexSpec] at *
    rcases hb1 with hb | hb <;> rw [hb] at d1 <;> simp at d1 <;>
      split at hne <;> split <;> omega

theorem maxLoadDen_pos : (0 : ℚ) < (maxLoadDen : ℚ) := by
  norm_num [maxLoadDen]

theorem overLoaded_iff (hm : HashMap) (h : 0 < hm.slotCount) :
    overLoaded hm ↔ maxLoadFactor < hm.loadFactor := by
  have hsc : (0 : ℚ) < (hm.slotCount : ℚ) := by exact_mod_cast h
  rw [overLoaded, maxLoadFactor, loadFactor, div_lt_div_iff₀ maxLoadDen_pos hsc]
  rw [show ((maxLoadNum : ℚ) * hm.slotCount = ((maxLoadNum * hm.slotCount : Nat) : ℚ))
        by push_cast; ring,
      show ((hm.itemCount : ℚ) * maxLoadDen = ((hm.itemCount * maxLoadDen : Nat) : ℚ))
        by push_cast; ring]
  exact ⟨fun hx => by exact_mod_cast hx, fun hx => by exact_mod_cast hx⟩

theorem underLoaded_iff (hm : HashMap) (h : 0 < hm.slotCount) :
    underLoaded hm ↔ hm.loadFactor < minLoadFactor := by
  have hsc : (0 : ℚ) < (hm.slotCount : ℚ) := by exact_mod_cast h
  have h2 : (0 : ℚ) < (maxLoadDen : ℚ) * 2 := by
    have := maxLoadDen_pos
    nlinarith
  rw [underLoaded, minLoadFactor, maxLoadFactor, loadFactor, div_div,
    div_lt_div_iff₀ hsc h2]
  rw [show ((hm.itemCount : ℚ) * ((maxLoadDen : ℚ) * 2) =
        ((hm.itemCount * (2 * maxLoadDen) : Nat) : ℚ)) by push_cast; ring,
      show ((maxLoadNum : ℚ) * hm.slotCount =
        ((maxLoadNum * hm.slotCount : Nat) : ℚ)) by push_cast; ring]
  exact ⟨fun hx => by exact_mod_cast hx, fun hx => by exact_mod_cast hx⟩

theorem expandStep_slots_length (hm : HashMap) :
    hm.expandStep.slots.length = hm.slots.length + 1 := by
  simp [expandStep]

theorem expandStep_itemCount (hm : HashMap) :
    hm.expandStep.itemCount = hm.itemCount := by
  simp [expandStep]

theorem maxLoadDen_lt_maxLoadNum : maxLoadDen < maxLoadNum := by
  norm_num [maxLoadDen, maxLoadNum]

theorem slotCount_lt_of_overLoaded (hm : HashMap) (h : overLoaded hm) :
    hm.slots.length < hm.itemCount := by
  rw [overLoaded, slotCount] at h
  by_contra hcon
  have hle : hm.itemCount ≤ hm.slots.length := Nat.le_of_not_lt hcon
  have h1 : hm.itemCount * maxLoadDen ≤ hm.slots.length * maxLoadDen :=
    Nat.mul_le_mul_right _ hle
  have h2 : hm.slots.length * maxLoadDen ≤ maxLoadNum * hm.slots.length := by
    rw [Nat.mul_comm maxLoadNum]
    exact Nat.mul_le_mul_left _ (Nat.le_of_lt maxLoadDen_lt_maxLoadNum)
  omega

/-- The expansion loop always exits through its guard: with a budget
exceeding `itemCount - slotCount` the final state is not overloaded. -/
theorem expandLoop_post (fuel : Nat) (hm : HashMap)
    (hfuel : hm.itemCount < hm.slots.length + fuel) :
    ¬ overLoaded (expandLoop fuel hm) := by
  induction fuel generalizing hm with
  | zero =>
    intro h
    have := slotCount_lt_of_overLoaded _ h
    rw [expandLoop] at this
    omega
  | succ fuel ih =>
    rw [expandLoop]
    by_cases hg : overLoaded hm
    · rw [if_pos hg]
      exact ih hm.expandStep
        (by rw [expandStep_slots_length, expandStep_itemCount]; omega)
    · rw [if_neg hg]
      exact hg

theorem maybeExpand_post (hm : HashMap) : ¬ overLoaded (maybeExpand hm) :=
  expandLoop_post (hm.itemCount + 1) hm (by omega)

theorem shrinkStep_slots_length (hm : HashMap) :
    hm.shrinkStep.slots.length = hm.slots.length - 1 := by
  simp [shrinkStep, removeSlotStep]

/-- The contraction loop always exits through its guard. -/
theorem shrinkLoop_post (fuel : Nat) (hm : HashMap)
    (hfuel : hm.slots.length ≤ fuel) :
    ¬ (2 ≤ (shrinkLoop fuel hm).slotCount ∧
        underLoaded (shrinkLoop fuel hm)) := by
  induction fuel generalizing hm with
  | zero =>
    intro hcon
    have h0 : hm.slots.length = 0 := Nat.le_zero.mp hfuel
    have := hcon.1
    rw [shrinkLoop, slotCount] at this
    omega
  | succ fuel ih =>
    rw [shrinkLoop]
    by_cases hg : 2 ≤ hm.slotCount ∧ underLoaded hm
    · rw [if_pos hg]
      refine ih hm.shrinkStep ?_
      rw [shrinkStep_slots_length]
      have := hg.1
      rw [slotCount] at this
      omega
    · rw [if_neg hg]
      exact hg

theorem maybeShrink_post (hm : HashMap) :
    ¬ (2 ≤ (maybeShrink hm).slotCount ∧ underLoaded (maybeShrink hm)) :=
  shrinkLoop_post hm.slots.length hm (Nat.le_refl _)

theorem getD_set_self {α : Type} (l : List α) (i : Nat) (a d : α) (h : i < l.length) :
    (l.set i a).getD i d = a := by
  simp [List.getD_eq_getElem?_getD, List.getElem?_set_self h]

theorem getD_set_ne {α : Type} (l : List α) (i j : Nat) (a d : α) (h : i ≠ j) :
    (l.set i a).getD j d = l.getD j d := by
  simp [List.getD_eq_getElem?_getD, List.getElem?_set_ne h]

theorem getD_eq_getElem {α : Type} (l : List α) (i : Nat) (d : α) (h : i < l.length) :
    l.getD i d = l[i] := by
  simp [List.getD_eq_getElem?_getD, List.getElem?_eq_getElem h]

theorem mem_flatten_iff_getD {α : Type} (l : List (List α)) (x : α) :
    x ∈ l.flatten ↔ ∃ j, j < l.length ∧ x ∈ l.getD j [] := by
  rw [List.mem_flatten]
  constructor
  · rintro ⟨s, hs, hx⟩
    obtain ⟨j, hj, hget⟩ := List.mem_iff_getElem.mp hs
    exact ⟨j, hj, by rw [getD_eq_getElem _ _ _ hj, hget]; exact hx⟩
  · rintro ⟨j, hj, hx⟩
    exact ⟨l[j], List.getElem_mem hj, by rwa [getD_eq_getElem _ _ _ hj] at hx⟩

theorem flatten_decomp {α : Type} (l : List (List α)) (q : Nat) (hq : q < l.length) :
    l.flatten = (l.take q).flatten ++ l.getD q [] ++ (l.drop (q + 1)).flatten := by
  conv_lhs => rw [← List.take_append_drop q l]
  rw [List.drop_eq_getElem_cons hq, List.flatten_append, List.flatten_cons,
    getD_eq_getElem _ _ _ hq, List.append_assoc]

theorem flatten_set {α : Type} (l : List (List α)) (q : Nat) (hq : q < l.length)
    (a : List α) :
    (l.set q a).flatten = (l.take q).flatten ++ a ++ (l.drop (q + 1)).flatten := by
  rw [List.set_eq_take_cons_drop a hq, List.flatten_append, List.flatten_cons,
    List.append_assoc]

theorem splitItemKeySum_eq (it : HashItem) (h : it.keySum = storedSum it.key) :
    splitItemKeySum it = sumKey it.key := by
  rw [splitItemKeySum, storedSum] at *
  by_cases hlen : it.key.length ≤ maxShortKeySize
  · rw [if_pos hlen]
  · rw [if_neg hlen] at h ⊢
    exact h

theorem and_two_pow_zero_iff (n s : Nat) :
    n &&& 2 ^ s = 0 ↔ n / 2 ^ s % 2 = 0 := by
  rw [Nat.and_two_pow, Nat.testBit_to_div_mod]
  have hP : 0 < 2 ^ s := Nat.pos_pow_of_pos _ (by omega)
  have h2 : n / 2 ^ s % 2 = 0 ∨ n / 2 ^ s % 2 = 1 := by omega
  rcases h2 with h | h <;> rw [h] <;> simp [Nat.pos_iff_ne_zero.mp hP]

theorem perm_reassemble {α : Type} [DecidableEq α] (T D kept moved old : List α)
    (hkm : (kept ++ moved).Perm old) :
    ((T ++ kept ++ D) ++ moved).Perm (T ++ old ++ D) := by
  rw [List.perm_iff_count]
  intro a
  have h := hkm.count_eq a
  simp only [List.count_append] at h ⊢
  omega

theorem expandStep_core (hm : HashMap) (hc : Core hm) :
    Core hm.expandStep ∧ hm.expandStep.slots.flatten.Perm hm.slots.flatten := by
  have hP : 0 < 2 ^ hm.minSlotCountShift := Nat.pos_pow_of_pos _ (by omega)
  have hsc_pos : 0 < hm.slots.length := Nat.lt_of_lt_of_le hP hc.slot_lb
  have hq_lt : hm.slots.length - 2 ^ hm.minSlotCountShift < hm.slots.length := by omega
  have hlow : hm.calculateLowSlotIndex hm.slotCount =
      hm.slots.length - 2 ^ hm.minSlotCountShift := by
    have := calculateLowSlotIndex_eq hm hm.slotCount
      (by rw [slotCount]; exact hc.slot_lb) (by rw [slotCount]; exact hc.slot_ub)
    rw [this, slotCount]
  have hslots : hm.expandStep.slots =
      hm.slots.set (hm.slots.length - 2 ^ hm.minSlotCountShift)
        ((hm.slots.getD (hm.slots.length - 2 ^ hm.minSlotCountShift) []).filter
          (fun it => splitItemKeySum it &&& 2 ^ hm.minSlotCountShift == 0))
      ++ [(hm.slots.getD (hm.slots.length - 2 ^ hm.minSlotCountShift) []).filter
          (fun it => !(splitItemKeySum it &&& 2 ^ hm.minSlotCountShift == 0))] := by
    rw [show hm.expandStep.slots =
        hm.slots.set (hm.calculateLowSlotIndex hm.slotCount)
          ((splitItems (hm.slots.getD (hm.calculateLowSlotIndex hm.slotCount) [])
            hm.minSlotCount).1)
        ++ [(splitItems (hm.slots.getD (hm.calculateLowSlotIndex hm.slotCount) [])
            hm.minSlotCount).2] from rfl, hlow]
    rfl
  have hshift : hm.expandStep.minSlotCountShift =
      if hm.slots.length + 1 = 2 ^ (hm.minSlotCountShift + 1) then
        hm.minSlotCountShift + 1
      else hm.minSlotCountShift := rfl
  have hic : hm.expandStep.itemCount = hm.itemCount := rfl
  have hlen : hm.expandStep.slots.length = hm.slots.length + 1 := by
    rw [hslots]
    simp
  -- decompose getD of the new slot list
  have hset_len : (hm.slots.set (hm.slots.length - 2 ^ hm.minSlotCountShift)
      ((hm.slots.getD (hm.slots.length - 2 ^ hm.minSlotCountShift) []).filter
        (fun it => splitItemKeySum it &&& 2 ^ hm.minSlotCountShift == 0))).length =
      hm.slots.length := by simp
  have hgetD : ∀ j : Nat, hm.expandStep.slots.getD j [] =
      if j = hm.slots.length - 2 ^ hm.minSlotCountShift then
        (hm.slots.getD (hm.slots.length - 2 ^ hm.minSlotCountShift) []).filter
          (fun it => splitItemKeySum it &&& 2 ^ hm.minSlotCountShift == 0)
      else if j = hm.slots.length then
        (hm.slots.getD (hm.slots.length - 2 ^ hm.minSlotCountShift) []).filter
          (fun it => !(splitItemKeySum it &&& 2 ^ hm.minSlotCountShift == 0))
      else hm.slots.getD j [] := by
    intro j
    rw [hslots]
    by_cases hjq : j = hm.slots.length - 2 ^ hm.minSlotCountShift
    · rw [if_pos hjq, hjq, List.getD_append _ _ _ _ (by omega)]
      exact getD_set_self _ _ _ _ hq_lt
    · rw [if_neg hjq]
      by_cases hjsc : j = hm.slots.length
      · rw [if_pos hjsc, hjsc, List.getD_append_right _ _ _ _ (by omega)]
        simp
      · rw [if_neg hjsc]
        by_cases hjlt : j < hm.slots.length
        · rw [List.getD_append _ _ _ _ (by omega)]
          exact getD_set_ne _ _ _ _ _ (fun hx => hjq hx.symm)
        · rw [List.getD_append_right _ _ _ _ (by omega)]
          rw [List.getD_eq_default _ _ (by simp; omega),
            List.getD_eq_default _ _ (by omega)]
  -- the items of the split slot carry their true hash in splitItemKeySum
  have hsum_split : ∀ it : HashItem,
      it ∈ hm.slots.getD (hm.slots.length - 2 ^ hm.minSlotCountShift) [] →
      splitItemKeySum it = sumKey it.key := by
    intro it hit
    exact splitItemKeySum_eq it (hc.sums _ it hit)
  -- permutation of the flattened contents
  have hperm : hm.expandStep.slots.flatten.Perm hm.slots.flatten := by
    rw [hslots, List.flatten_append, List.flatten_cons, List.flatten_nil,
      List.append_nil, flatten_set _ _ hq_lt, flatten_decomp hm.slots _ hq_lt]
    exact perm_reassemble _ _ _ _ _ (List.filter_append_perm _ _)
  refine ⟨⟨?_, ?_, ?_, ?_, ?_, ?_⟩, hperm⟩
  · -- slot_lb
    rw [hlen, hshift]
    split <;> rename_i hsp
    · rw [Nat.pow_succ]
      omega
    · have := hc.slot_lb
      omega
  · -- slot_ub
    rw [hlen, hshift]
    split <;> rename_i hsp
    · rw [Nat.pow_succ, Nat.pow_succ]
      have := hc.slot_ub
      rw [Nat.pow_succ] at this
      omega
    · have := hc.slot_ub
      omega
  · -- placed
    intro j it hit
    rw [hgetD j] at hit
    rw [hshift, hlen]
    by_cases hjq : j = hm.slots.length - 2 ^ hm.minSlotCountShift
    · rw [if_pos hjq] at hit
      rw [List.mem_filter] at hit
      have hplaced := hc.placed _ it hit.1
      have hbit0 : sumKey it.key / 2 ^ hm.minSlotCountShift % 2 = 0 := by
        rw [← and_two_pow_zero_iff, ← hsum_split it hit.1]
        simpa using hit.2
      rw [hjq]
      exact slotIndexSpec_expand_stay _ _ _ hc.slot_lb hc.slot_ub hplaced hbit0
    · rw [if_neg hjq] at hit
      by_cases hjsc : j = hm.slots.length
      · rw [if_pos hjsc] at hit
        rw [List.mem_filter] at hit
        have hplaced := hc.placed _ it hit.1
        have hbit1 : sumKey it.key / 2 ^ hm.minSlotCountShift % 2 = 1 := by
          have hne := hit.2
          simp only [Bool.not_eq_true'] at hne
          have : ¬ (splitItemKeySum it &&& 2 ^ hm.minSlotCountShift = 0) := by
            simpa using hne
          rw [hsum_split it hit.1, and_two_pow_zero_iff] at this
          omega
        rw [hjsc]
        exact slotIndexSpec_expand_move _ _ _ hc.slot_lb hc.slot_ub hplaced hbit1
      · rw [if_neg hjsc] at hit
        have hplaced := hc.placed _ it hit
        rw [← hplaced]
        refine slotIndexSpec_expand_untouched _ _ _ hc.slot_lb hc.slot_ub ?_
        rw [hplaced]
        exact hjq
  · -- sums
    intro j it hit
    rw [hgetD j] at hit
    by_cases hjq : j = hm.slots.length - 2 ^ hm.minSlotCountShift
    · rw [if_pos hjq] at hit
      exact hc.sums _ it (List.mem_filter.mp hit).1
    · rw [if_neg hjq] at hit
      by_cases hjsc : j = hm.slots.length
      · rw [if_pos hjsc] at hit
        exact hc.sums _ it (List.mem_filter.mp hit).1
      · rw [if_neg hjsc] at hit
        exact hc.sums _ it hit
  · -- nodup
    exact ((hperm.map HashItem.key).nodup_iff).mpr hc.nodup
  · -- count
    rw [hic, hperm.length_eq]
    exact hc.count

theorem getLastD_eq_getD {α : Type} (l : List α) (d : α) (h : l ≠ []) :
    l.getLastD d = l.getD (l.length - 1) d := by
  have hlen : 0 < l.length := List.length_pos.mpr h
  rw [List.getLastD_eq_getLast?, List.getLast?_eq_getLast l h,
    getD_eq_getElem _ _ _ (by omega)]
  simp [List.getLast_eq_getElem]

theorem getD_dropLast {α : Type} (l : List α) (j : Nat) (d : α)
    (h : j < l.length - 1) :
    l.dropLast.getD j d = l.getD j d := by
  simp only [List.getD_eq_getElem?_getD, List.getElem?_dropLast]
  rw [if_pos h]

theorem dropLast_append_getLastD {α : Type} (l : List α) (d : α) (h : l ≠ []) :
    l.dropLast ++ [l.getLastD d] = l := by
  have h2 := List.dropLast_append_getLast h
  rw [List.getLastD_eq_getLast?, List.getLast?_eq_getLast l h]
  simpa using h2

theorem perm_reassemble2 {α : Type} [DecidableEq α]
    (T D lastS parent merge : List α) (hm : merge.Perm (lastS ++ parent)) :
    (T ++ merge ++ D).Perm ((T ++ parent ++ D) ++ lastS) := by
  rw [List.perm_iff_count]
  intro a
  have h := hm.count_eq a
  simp only [List.count_append] at h ⊢
  omega

theorem shrinkStep_core (hm : HashMap) (hc : Core hm) (h2 : 2 ≤ hm.slots.length) :
    Core hm.shrinkStep ∧ hm.shrinkStep.slots.flatten.Perm hm.slots.flatten := by
  have hP : 0 < 2 ^ hm.minSlotCountShift := Nat.pos_pow_of_pos _ (by omega)
  have hne : hm.slots ≠ [] := by
    intro h0
    rw [h0] at h2
    simp at h2
  have hslotsR : (removeSlotStep hm).slots = hm.slots.dropLast := rfl
  have hlenR : (removeSlotStep hm).slots.length = hm.slots.length - 1 := by
    rw [hslotsR, List.length_dropLast]
  have hshiftR : (removeSlotStep hm).minSlotCountShift =
      if hm.slots.length - 1 < 2 ^ hm.minSlotCountShift then hm.minSlotCountShift - 1
      else hm.minSlotCountShift := by
    show (if hm.slots.dropLast.length < hm.minSlotCount then _ else _) = _
    rw [List.length_dropLast, minSlotCount]
  -- the target index of the merge
  have hs_case : (hm.slots.length - 1 < 2 ^ hm.minSlotCountShift →
      hm.slots.length = 2 ^ hm.minSlotCountShift ∧ 1 ≤ hm.minSlotCountShift) := by
    intro hcase
    have hsc : hm.slots.length = 2 ^ hm.minSlotCountShift := by
      have := hc.slot_lb
      omega
    refine ⟨hsc, ?_⟩
    by_contra hcon
    have hs0 : hm.minSlotCountShift = 0 := by omega
    rw [hs0] at hsc
    simp at hsc
    omega
  have htarget : (removeSlotStep hm).calculateLowSlotIndex (removeSlotStep hm).slotCount =
      (if hm.slots.length - 1 < 2 ^ hm.minSlotCountShift then
        2 ^ (hm.minSlotCountShift - 1) - 1
      else hm.slots.length - 1 - 2 ^ hm.minSlotCountShift) := by
    by_cases hcase : hm.slots.length - 1 < 2 ^ hm.minSlotCountShift
    · obtain ⟨hsc, hs1⟩ := hs_case hcase
      have es : 2 ^ hm.minSlotCountShift = 2 ^ (hm.minSlotCountShift - 1) * 2 := by
        have h4 := Nat.pow_succ 2 (hm.minSlotCountShift - 1)
        have h5 : (hm.minSlotCountShift - 1).succ = hm.minSlotCountShift := by omega
        rw [h5] at h4
        exact h4
      have hPm : 0 < 2 ^ (hm.minSlotCountShift - 1) := Nat.pos_pow_of_pos _ (by omega)
      have hlow := calculateLowSlotIndex_eq (removeSlotStep hm)
        (removeSlotStep hm).slotCount ?_ ?_
      · rw [hlow, if_pos hcase]
        rw [slotCount, hlenR, hshiftR, if_pos hcase]
        omega
      · rw [slotCount, hlenR, hshiftR, if_pos hcase]
        omega
      · rw [slotCount, hlenR, hshiftR, if_pos hcase]
        have h6 : (hm.minSlotCountShift - 1) + 1 = hm.minSlotCountShift := by omega
        rw [h6]
        omega
    · have hlow := calculateLowSlotIndex_eq (removeSlotStep hm)
        (removeSlotStep hm).slotCount ?_ ?_
      · rw [hlow, if_neg hcase]
        rw [slotCount, hlenR, hshiftR, if_neg hcase]
      · rw [slotCount, hlenR, hshiftR, if_neg hcase]
        omega
      · rw [slotCount, hlenR, hshiftR, if_neg hcase]
        have := hc.slot_ub
        omega
  have htarget_lt :
      (if hm.slots.length - 1 < 2 ^ hm.minSlotCountShift then
        2 ^ (hm.minSlotCountShift - 1) - 1
      else hm.slots.length - 1 - 2 ^ hm.minSlotCountShift) < hm.slots.length - 1 := by
    by_cases hcase : hm.slots.length - 1 < 2 ^ hm.minSlotCountShift
    · obtain ⟨hsc, hs1⟩ := hs_case hcase
      have es : 2 ^ hm.minSlotCountShift = 2 ^ (hm.minSlotCountShift - 1) * 2 := by
        have h4 := Nat.pow_succ 2 (hm.minSlotCountShift - 1)
        have h5 : (hm.minSlotCountShift - 1).succ = hm.minSlotCountShift := by omega
        rw [h5] at h4
        exact h4
      have hPm : 0 < 2 ^ (hm.minSlotCountShift - 1) := Nat.pos_pow_of_pos _ (by omega)
      rw [if_pos hcase]
      omega
    · rw [if_neg hcase]
      have := hc.slot_lb
      omega
  have hslots : hm.shrinkStep.slots =
      hm.slots.dropLast.set
        (if hm.slots.length - 1 < 2 ^ hm.minSlotCountShift then
          2 ^ (hm.minSlotCountShift - 1) - 1
        else hm.slots.length - 1 - 2 ^ hm.minSlotCountShift)
        (mergeItems (hm.slots.getLastD [])
          (hm.slots.dropLast.getD
            (if hm.slots.length - 1 < 2 ^ hm.minSlotCountShift then
              2 ^ (hm.minSlotCountShift - 1) - 1
            else hm.slots.length - 1 - 2 ^ hm.minSlotCountShift) [])) := by
    show (removeSlotStep hm).slots.set _ _ = _
    rw [htarget, hslotsR]
  have hshiftS : hm.shrinkStep.minSlotCountShift =
      if hm.slots.length - 1 < 2 ^ hm.minSlotCountShift then hm.minSlotCountShift - 1
      else hm.minSlotCountShift := hshiftR
  have hicS : hm.shrinkStep.itemCount = hm.itemCount := rfl
  have hlenS : hm.shrinkStep.slots.length = hm.slots.length - 1 := by
    rw [hslots]
    simp
  have hlt' :
      (if hm.slots.length - 1 < 2 ^ hm.minSlotCountShift then
        2 ^ (hm.minSlotCountShift - 1) - 1
      else hm.slots.length - 1 - 2 ^ hm.minSlotCountShift) < hm.slots.dropLast.length := by
    rw [List.length_dropLast]
    exact htarget_lt
  have hgetD : ∀ j : Nat, hm.shrinkStep.slots.getD j [] =
      if j = (if hm.slots.length - 1 < 2 ^ hm.minSlotCountShift then
          2 ^ (hm.minSlotCountShift - 1) - 1
        else hm.slots.length - 1 - 2 ^ hm.minSlotCountShift) then
        mergeItems (hm.slots.getLastD [])
          (hm.slots.dropLast.getD
            (if hm.slots.length - 1 < 2 ^ hm.minSlotCountShift then
              2 ^ (hm.minSlotCountShift - 1) - 1
            else hm.slots.length - 1 - 2 ^ hm.minSlotCountShift) [])
      else hm.slots.dropLast.getD j [] := by
    intro j
    rw [hslots]
    by_cases hj : j = (if hm.slots.length - 1 < 2 ^ hm.minSlotCountShift then
        2 ^ (hm.minSlotCountShift - 1) - 1
      else hm.slots.length - 1 - 2 ^ hm.minSlotCountShift)
    · rw [if_pos hj, hj]
      exact getD_set_self _ _ _ _ hlt'
    · rw [if_neg hj]
      exact getD_set_ne _ _ _ _ _ (fun hx => hj hx.symm)
  have hpermMerge : (mergeItems (hm.slots.getLastD [])
      (hm.slots.dropLast.getD
        (if hm.slots.length - 1 < 2 ^ hm.minSlotCountShift then
          2 ^ (hm.minSlotCountShift - 1) - 1
        else hm.slots.length - 1 - 2 ^ hm.minSlotCountShift) [])).Perm
      (hm.slots.getLastD [] ++
        hm.slots.dropLast.getD
          (if hm.slots.length - 1 < 2 ^ hm.minSlotCountShift then
            2 ^ (hm.minSlotCountShift - 1) - 1
          else hm.slots.length - 1 - 2 ^ hm.minSlotCountShift) []) :=
    mergePairs_perm 1 _ _
  have hperm : hm.shrinkStep.slots.flatten.Perm hm.slots.flatten := by
    rw [hslots, flatten_set _ _ hlt']
    conv_rhs => rw [← dropLast_append_getLastD hm.slots [] hne]
    rw [List.flatten_append, List.flatten_cons, List.flatten_nil, List.append_nil,
      flatten_decomp hm.slots.dropLast _ hlt']
    exact perm_reassemble2 _ _ _ _ _ hpermMerge
  have hmem_last : ∀ it : HashItem, it ∈ hm.slots.getLastD [] →
      it ∈ hm.slots.getD (hm.slots.length - 1) [] := by
    intro it hit
    rwa [getLastD_eq_getD _ _ hne] at hit
  have hmem_parent : ∀ it : HashItem,
      it ∈ hm.slots.dropLast.getD
        (if hm.slots.length - 1 < 2 ^ hm.minSlotCountShift then
          2 ^ (hm.minSlotCountShift - 1) - 1
        else hm.slots.length - 1 - 2 ^ hm.minSlotCountShift) [] →
      it ∈ hm.slots.getD
        (if hm.slots.length - 1 < 2 ^ hm.minSlotCountShift then
          2 ^ (hm.minSlotCountShift - 1) - 1
        else hm.slots.length - 1 - 2 ^ hm.minSlotCountShift) [] := by
    intro it hit
    rwa [getD_dropLast _ _ _ htarget_lt] at hit
  refine ⟨⟨?_, ?_, ?_, ?_, ?_, ?_⟩, hperm⟩
  · -- slot_lb
    rw [hlenS, hshiftS]
    by_cases hcase : hm.slots.length - 1 < 2 ^ hm.minSlotCountShift
    · obtain ⟨hsc, hs1⟩ := hs_case hcase
      have es : 2 ^ hm.minSlotCountShift = 2 ^ (hm.minSlotCountShift - 1) * 2 := by
        have h4 := Nat.pow_succ 2 (hm.minSlotCountShift - 1)
        have h5 : (hm.minSlotCountShift - 1).succ = hm.minSlotCountShift := by omega
        rw [h5] at h4
        exact h4
      have hPm : 0 < 2 ^ (hm.minSlotCountShift - 1) := Nat.pos_pow_of_pos _ (by omega)
      rw [if_pos hcase]
      omega
    · rw [if_neg hcase]
      omega
  · -- slot_ub
    rw [hlenS, hshiftS]
    by_cases hcase : hm.slots.length - 1 < 2 ^ hm.minSlotCountShift
    · rw [if_pos hcase]
      obtain ⟨hsc, hs1⟩ := hs_case hcase
      have h6 : hm.minSlotCountShift - 1 + 1 = hm.minSlotCountShift := by omega
      rw [h6]
      omega
    · rw [if_neg hcase]
      have := hc.slot_ub
      omega
  · -- placed
    intro j it hit
    rw [hgetD j] at hit
    rw [hshiftS, hlenS]
    by_cases hj : j = (if hm.slots.length - 1 < 2 ^ hm.minSlotCountShift then
        2 ^ (hm.minSlotCountShift - 1) - 1
      else hm.slots.length - 1 - 2 ^ hm.minSlotCountShift)
    · rw [if_pos hj] at hit
      have hit2 := hpermMerge.mem_iff.mp hit
      rw [List.mem_append] at hit2
      rcases hit2 with hlast | hparent
      · have hplaced := hc.placed _ it (hmem_last it hlast)
        rw [hj]
        exact slotIndexSpec_shrink_removed _ _ _ hc.slot_lb hc.slot_ub h2 hplaced
      · have hplaced := hc.placed _ it (hmem_parent it hparent)
        rw [hj, ← hplaced]
        refine slotIndexSpec_shrink_other _ _ _ hc.slot_lb hc.slot_ub h2 ?_
        rw [hplaced]
        omega
    · rw [if_neg hj] at hit
      by_cases hjlt : j < hm.slots.length - 1
      · rw [getD_dropLast _ _ _ hjlt] at hit
        have hplaced := hc.placed _ it hit
        rw [← hplaced]
        refine slotIndexSpec_shrink_other _ _ _ hc.slot_lb hc.slot_ub h2 ?_
        rw [hplaced]
        omega
      · rw [List.getD_eq_default _ _ (by rw [List.length_dropLast]; omega)] at hit
        simp at hit
  · -- sums
    intro j it hit
    rw [hgetD j] at hit
    by_cases hj : j = (if hm.slots.length - 1 < 2 ^ hm.minSlotCountShift then
        2 ^ (hm.minSlotCountShift - 1) - 1
      else hm.slots.length - 1 - 2 ^ hm.minSlotCountShift)
    · rw [if_pos hj] at hit
      have hit2 := hpermMerge.mem_iff.mp hit
      rw [List.mem_append] at hit2
      rcases hit2 with hlast | hparent
      · exact hc.sums _ it (hmem_last it hlast)
      · exact hc.sums _ it (hmem_parent it hparent)
    · rw [if_neg hj] at hit
      by_cases hjlt : j < hm.slots.length - 1
      · rw [getD_dropLast _ _ _ hjlt] at hit
        exact hc.sums _ it hit
      · rw [List.getD_eq_default _ _ (by rw [List.length_dropLast]; omega)] at hit
        simp at hit
  · -- nodup
    exact ((hperm.map HashItem.key).nodup_iff).mpr hc.nodup
  · -- count
    rw [hicS, hperm.length_eq]
    exact hc.count

theorem shrinkStep_itemCount (hm : HashMap) :
    hm.shrinkStep.itemCount = hm.itemCount := rfl

theorem expandLoop_core (fuel : Nat) (hm : HashMap) (hc : Core hm) :
    Core (expandLoop fuel hm) ∧
      (expandLoop fuel hm).slots.flatten.Perm hm.slots.flatten ∧
      (expandLoop fuel hm).itemCount = hm.itemCount := by
  induction fuel generalizing hm with
  | zero => exact ⟨hc, List.Perm.refl _, rfl⟩
  | succ fuel ih =>
    rw [expandLoop]
    by_cases hg : overLoaded hm
    · rw [if_pos hg]
      obtain ⟨hc1, hp1⟩ := expandStep_core hm hc
      obtain ⟨hc2, hp2, hi2⟩ := ih hm.expandStep hc1
      exact ⟨hc2, hp2.trans hp1, by rw [hi2, expandStep_itemCount]⟩
    · rw [if_neg hg]
      exact ⟨hc, List.Perm.refl _, rfl⟩

theorem shrinkLoop_core (fuel : Nat) (hm : HashMap) (hc : Core hm) :
    Core (shrinkLoop fuel hm) ∧
      (shrinkLoop fuel hm).slots.flatten.Perm hm.slots.flatten ∧
      (shrinkLoop fuel hm).itemCount = hm.itemCount := by
  induction fuel generalizing hm with
  | zero => exact ⟨hc, List.Perm.refl _, rfl⟩
  | succ fuel ih =>
    rw [shrinkLoop]
    by_cases hg : 2 ≤ hm.slotCount ∧ underLoaded hm
    · rw [if_pos hg]
      obtain ⟨hc1, hp1⟩ := shrinkStep_core hm hc (by have := hg.1; rwa [slotCount] at this)
      obtain ⟨hc2, hp2, hi2⟩ := ih hm.shrinkStep hc1
      exact ⟨hc2, hp2.trans hp1, by rw [hi2, shrinkStep_itemCount]⟩
    · rw [if_neg hg]
      exact ⟨hc, List.Perm.refl _, rfl⟩

theorem expandStep_not_under (hm : HashMap) (hover : overLoaded hm) :
    2 ≤ hm.expandStep.slots.length → ¬ underLoaded hm.expandStep := by
  intro hsc2 hunder
  rw [expandStep_slots_length] at hsc2
  rw [overLoaded, slotCount] at hover
  rw [underLoaded, slotCount, expandStep_slots_length, expandStep_itemCount] at hunder
  have e1 : hm.itemCount * (2 * maxLoadDen) = 2 * (hm.itemCount * maxLoadDen) := by ring
  have e2 : maxLoadNum * (hm.slots.length + 1) =
      maxLoadNum * hm.slots.length + maxLoadNum := by ring
  have e3 : 0 < maxLoadNum :=
    Nat.lt_of_le_of_lt (Nat.zero_le _) maxLoadDen_lt_maxLoadNum
  rw [e1, e2] at hunder
  have h4 : maxLoadNum * hm.slots.length < maxLoadNum * 1 := by omega
  have h5 := Nat.lt_of_mul_lt_mul_left h4
  -- the expansion loop only runs when item count exceeds slot count;
  -- a slot count below 1 is impossible here
  have h6 := slotCount_lt_of_overLoaded hm (by rwa [overLoaded, slotCount])
  omega

theorem shrinkStep_not_over (hm : HashMap) (h2 : 2 ≤ hm.slots.length)
    (hunder : underLoaded hm) : ¬ overLoaded hm.shrinkStep := by
  intro hover
  rw [underLoaded, slotCount] at hunder
  rw [overLoaded, slotCount, shrinkStep_slots_length, shrinkStep_itemCount] at hover
  obtain ⟨m, hm_eq⟩ : ∃ m, hm.slots.length = m + 2 := ⟨hm.slots.length - 2, by omega⟩
  rw [hm_eq] at hunder hover
  have e1 : hm.itemCount * (2 * maxLoadDen) = 2 * (hm.itemCount * maxLoadDen) := by ring
  have e2 : maxLoadNum * (m + 2) = maxLoadNum * m + 2 * maxLoadNum := by ring
  have e3 : maxLoadNum * (m + 2 - 1) = maxLoadNum * m + maxLoadNum := by
    rw [show m + 2 - 1 = m + 1 by omega]
    ring
  have e4 : 0 < maxLoadNum :=
    Nat.lt_of_le_of_lt (Nat.zero_le _) maxLoadDen_lt_maxLoadNum
  omega

theorem expandLoop_not_under (fuel : Nat) (hm : HashMap)
    (hstart : 2 ≤ hm.slots.length → ¬ underLoaded hm) :
    2 ≤ (expandLoop fuel hm).slots.length → ¬ underLoaded (expandLoop fuel hm) := by
  induction fuel generalizing hm with
  | zero => exact hstart
  | succ fuel ih =>
    rw [expandLoop]
    by_cases hg : overLoaded hm
    · rw [if_pos hg]
      exact ih hm.expandStep (expandStep_not_under hm hg)
    · rw [if_neg hg]
      exact hstart

theorem shrinkLoop_not_over (fuel : Nat) (hm : HashMap)
    (hstart : ¬ overLoaded hm) : ¬ overLoaded (shrinkLoop fuel hm) := by
  induction fuel generalizing hm with
  | zero => exact hstart
  | succ fuel ih =>
    rw [shrinkLoop]
    by_cases hg : 2 ≤ hm.slotCount ∧ underLoaded hm
    · rw [if_pos hg]
      refine ih hm.shrinkStep (shrinkStep_not_over hm ?_ hg.2)
      have := hg.1
      rwa [slotCount] at this
    · rw [if_neg hg]
      exact hstart

theorem matchItem_iff (it : HashItem) (key : Bytes)
    (hsum : it.keySum = storedSum it.key) :
    matchItem it key (sumKey key) = true ↔ it.key = key := by
  rw [matchItem]
  by_cases hcond : maxShortKeySize < it.key.length ∧ it.keySum ≠ sumKey key
  · rw [if_pos hcond]
    constructor
    · intro h
      exact absurd h (by simp)
    · intro hk
      exfalso
      refine hcond.2 ?_
      rw [hsum, storedSum, if_neg (by omega), hk]
  · rw [if_neg hcond]
    exact beq_iff_eq

/-- The keys within one slot are distinct (a chunk of the globally
nodup flattened key list). -/
theorem slot_keys_nodup (hm : HashMap) (hc : Core hm) (j : Nat) :
    ((hm.slots.getD j []).map HashItem.key).Nodup := by
  by_cases hj : j < hm.slots.length
  · have hsub : (hm.slots.getD j []).Sublist hm.slots.flatten := by
      rw [flatten_decomp hm.slots j hj]
      exact List.Sublist.trans (List.sublist_append_right _ _)
        (List.sublist_append_left _ _)
    exact (hsub.map HashItem.key).nodup hc.nodup
  · rw [List.getD_eq_default _ _ (by omega)]
    simp

/-- Lookup correctness: any item present anywhere in a well-formed map
is found by `HasItem` with its exact value. -/
theorem hasItem_eq_of_mem (hm : HashMap) (hc : Core hm) (it : HashItem) (j : Nat)
    (hj : it ∈ hm.slots.getD j []) :
    hm.hasItem it.key true = (some it.value, true) := by
  have hplaced := hc.placed j it hj
  have hidx : hm.calculateSlotIndex (sumKey it.key) = j := by
    rw [calculateSlotIndex_eq hm hc.slot_lb, hplaced]
  rw [hasItem, locateItem]
  simp only [hidx]
  have hp_it : matchItem it it.key (sumKey it.key) = true :=
    (matchItem_iff it it.key (hc.sums j it hj)).mpr rfl
  cases hfi : (hm.slots.getD j []).findIdx?
      (fun it2 => matchItem it2 it.key (sumKey it.key)) with
  | none =>
    have hnone := List.findIdx?_eq_none_iff.mp hfi it hj
    rw [hp_it] at hnone
    simp at hnone
  | some i =>
    simp only [hfi]
    obtain ⟨hlt, hpi, _⟩ := List.findIdx?_eq_some_iff_getElem.mp hfi
    have hkey_i : (hm.slots.getD j [])[i].key = it.key :=
      (matchItem_iff _ _ (hc.sums j _ (List.getElem_mem hlt))).mp hpi
    obtain ⟨k2, hk2, hk2eq⟩ := List.mem_iff_getElem.mp hj
    have hnd := slot_keys_nodup hm hc j
    have hik : i = k2 := by
      have h1 : ((hm.slots.getD j []).map HashItem.key).get ⟨i, by simpa using hlt⟩ =
          ((hm.slots.getD j []).map HashItem.key).get ⟨k2, by simpa using hk2⟩ := by
        simp only [List.get_eq_getElem, List.getElem_map]
        rw [hkey_i, hk2eq]
      exact hnd.getElem_inj_iff.mp h1
    have hgetD2 : (hm.slots.getD j []).getD i default = it := by
      rw [getD_eq_getElem _ _ _ hlt]
      rw [show (hm.slots.getD j [])[i] = (hm.slots.getD j [])[k2] by
        congr 1]
      exact hk2eq
    rw [getValue]
    rw [hgetD2]
    simp

/-- If `locateItem` reports no match, no item anywhere in a well-formed
map has the probed key. -/
theorem not_mem_of_findIdx_none (hm : HashMap) (hc : Core hm) (key : Bytes)
    (hnone : (hm.slots.getD (hm.calculateSlotIndex (sumKey key)) []).findIdx?
      (fun it => matchItem it key (sumKey key)) = none) :
    ∀ it : HashItem, it ∈ hm.slots.flatten → it.key ≠ key := by
  intro it hit hkey
  obtain ⟨j, hjlt, hjmem⟩ := (mem_flatten_iff_getD _ _).mp hit
  have hplaced := hc.placed j it hjmem
  have hidx : hm.calculateSlotIndex (sumKey key) = j := by
    rw [calculateSlotIndex_eq hm hc.slot_lb, ← hkey, hplaced]
  rw [hidx] at hnone
  have hfalse := List.findIdx?_eq_none_iff.mp hnone it hjmem
  have htrue := (matchItem_iff it key (hc.sums j it hjmem)).mpr hkey
  rw [htrue] at hfalse
  simp at hfalse

theorem perm_insert_middle {α : Type} [DecidableEq α] (T D items : List α) (a : α) :
    (T ++ (items ++ [a]) ++ D).Perm ((T ++ items ++ D) ++ [a]) := by
  rw [List.perm_iff_count]
  intro x
  simp only [List.count_append]
  omega

theorem nodup_append_singleton {α : Type} (l : List α) (a : α) (h1 : l.Nodup)
    (h2 : a ∉ l) : (l ++ [a]).Nodup := by
  rw [List.nodup_append]
  refine ⟨h1, List.nodup_singleton a, ?_⟩
  intro x hx hxa
  rw [List.mem_singleton] at hxa
  subst hxa
  exact h2 hx

theorem set_getElem_id {α : Type} (l : List α) (i : Nat) (a : α) (h : i < l.length)
    (ha : a = l[i]) : l.set i a = l := by
  subst ha
  refine List.ext_getElem (by simp) ?_
  intro n h1 h2
  by_cases hn : n = i
  · subst hn
    simp
  · rw [List.getElem_set_ne (fun hx => hn hx.symm)]

theorem appendItem_eq (hm : HashMap) (k v : Bytes) :
    hm.appendItem (hm.calculateSlotIndex (sumKey k))
      (hm.slots.getD (hm.calculateSlotIndex (sumKey k)) []) ⟨sumKey k, k, v⟩ =
    maybeExpand (appendState hm k v) := by
  rw [appendItem, appendState]
  by_cases hl : k.length ≤ maxShortKeySize
  · simp only [if_pos hl]
    rw [storedSum, if_pos hl]
  · simp only [if_neg hl]
    rw [storedSum, if_neg hl]

theorem appendState_core (hm : HashMap) (hcore : Core hm) (k v : Bytes)
    (hfind : (hm.slots.getD (hm.calculateSlotIndex (sumKey k)) []).findIdx?
      (fun it => matchItem it k (sumKey k)) = none) :
    Core (appendState hm k v) ∧
      (appendState hm k v).slots.flatten.Perm
        (hm.slots.flatten ++ [⟨storedSum k, k, v⟩]) := by
  have hspec : hm.calculateSlotIndex (sumKey k) =
      slotIndexSpec hm.minSlotCountShift hm.slots.length (sumKey k) :=
    calculateSlotIndex_eq hm hcore.slot_lb _
  have hidx_lt : hm.calculateSlotIndex (sumKey k) < hm.slots.length := by
    rw [hspec]
    exact slotIndexSpec_lt _ _ _ hcore.slot_lb
  have hk_not : ∀ it : HashItem, it ∈ hm.slots.flatten → it.key ≠ k :=
    not_mem_of_findIdx_none hm hcore k hfind
  have hslots : (appendState hm k v).slots =
      hm.slots.set (hm.calculateSlotIndex (sumKey k))
        (hm.slots.getD (hm.calculateSlotIndex (sumKey k)) [] ++ [⟨storedSum k, k, v⟩]) := rfl
  have hlen : (appendState hm k v).slots.length = hm.slots.length := by
    rw [hslots]
    simp
  have hperm : (appendState hm k v).slots.flatten.Perm
      (hm.slots.flatten ++ [⟨storedSum k, k, v⟩]) := by
    rw [hslots, flatten_set _ _ hidx_lt]
    conv_rhs => rw [flatten_decomp hm.slots _ hidx_lt]
    exact perm_insert_middle _ _ _ _
  have hgetD : ∀ j : Nat, (appendState hm k v).slots.getD j [] =
      if j = hm.calculateSlotIndex (sumKey k) then
        hm.slots.getD (hm.calculateSlotIndex (sumKey k)) [] ++ [⟨storedSum k, k, v⟩]
      else hm.slots.getD j [] := by
    intro j
    rw [hslots]
    by_cases hj : j = hm.calculateSlotIndex (sumKey k)
    · rw [if_pos hj, hj]
      exact getD_set_self _ _ _ _ hidx_lt
    · rw [if_neg hj]
      exact getD_set_ne _ _ _ _ _ (fun hx => hj hx.symm)
  refine ⟨⟨?_, ?_, ?_, ?_, ?_, ?_⟩, hperm⟩
  · rw [hlen]
    exact hcore.slot_lb
  · rw [hlen]
    exact hcore.slot_ub
  · intro j it hit
    rw [hgetD j] at hit
    rw [hlen]
    show slotIndexSpec hm.minSlotCountShift hm.slots.length (sumKey it.key) = j
    by_cases hj : j = hm.calculateSlotIndex (sumKey k)
    · rw [if_pos hj] at hit
      rw [List.mem_append] at hit
      rcases hit with hold | hnew
      · rw [hj]
        exact hcore.placed _ it hold
      · rw [List.mem_singleton] at hnew
        subst hnew
        rw [hj, hspec]
    · rw [if_neg hj] at hit
      exact hcore.placed _ it hit
  · intro j it hit
    rw [hgetD j] at hit
    by_cases hj : j = hm.calculateSlotIndex (sumKey k)
    · rw [if_pos hj] at hit
      rw [List.mem_append] at hit
      rcases hit with hold | hnew
      · exact hcore.sums _ it hold
      · rw [List.mem_singleton] at hnew
        subst hnew
        rfl
    · rw [if_neg hj] at hit
      exact hcore.sums _ it hit
  · have hmapped : ((appendState hm k v).slots.flatten.map HashItem.key).Perm
        (hm.slots.flatten.map HashItem.key ++ [k]) := by
      have := hperm.map HashItem.key
      simpa using this
    rw [hmapped.nodup_iff]
    refine nodup_append_singleton _ _ hcore.nodup ?_
    intro hmem
    obtain ⟨it, hit, hkey⟩ := List.mem_map.mp hmem
    exact hk_not it hit hkey
  · show hm.itemCount + 1 = _
    rw [hperm.length_eq]
    simp [hcore.count]

theorem appendItem_result (hm : HashMap) (hcore : Core hm) (hload : LoadInv hm)
    (k v : Bytes)
    (hfind : (hm.slots.getD (hm.calculateSlotIndex (sumKey k)) []).findIdx?
      (fun it => matchItem it k (sumKey k)) = none) :
    WF (hm.appendItem (hm.calculateSlotIndex (sumKey k))
        (hm.slots.getD (hm.calculateSlotIndex (sumKey k)) []) ⟨sumKey k, k, v⟩) ∧
      (hm.appendItem (hm.calculateSlotIndex (sumKey k))
        (hm.slots.getD (hm.calculateSlotIndex (sumKey k)) [])
        ⟨sumKey k, k, v⟩).hasItem k true = (some v, true) := by
  rw [appendItem_eq]
  obtain ⟨hcore1, hperm1⟩ := appendState_core hm hcore k v hfind
  have hstart : 2 ≤ (appendState hm k v).slots.length →
      ¬ underLoaded (appendState hm k v) := by
    intro h2 hunder
    have hload2 := hload.2 (by
      have : (appendState hm k v).slots.length = hm.slots.length := by
        show (hm.slots.set _ _).length = _
        simp
      omega)
    rw [underLoaded, slotCount] at hunder hload2
    have hic : (appendState hm k v).itemCount = hm.itemCount + 1 := rfl
    have hsl : (appendState hm k v).slots.length = hm.slots.length := by
      show (hm.slots.set _ _).length = _
      simp
    rw [hic, hsl] at hunder
    have e1 : (hm.itemCount + 1) * (2 * maxLoadDen) =
        hm.itemCount * (2 * maxLoadDen) + 2 * maxLoadDen := by ring
    omega
  have hpost := maybeExpand_post (appendState hm k v)
  obtain ⟨hcore2, hperm2, _⟩ :=
    expandLoop_core ((appendState hm k v).itemCount + 1) (appendState hm k v) hcore1
  have hunder2 := expandLoop_not_under ((appendState hm k v).itemCount + 1)
    (appendState hm k v) hstart
  rw [show expandLoop ((appendState hm k v).itemCount + 1) (appendState hm k v) =
      maybeExpand (appendState hm k v) from rfl] at hcore2 hperm2 hunder2
  refine ⟨⟨hcore2, hpost, hunder2⟩, ?_⟩
  have hmem1 : (⟨storedSum k, k, v⟩ : HashItem) ∈
      (maybeExpand (appendState hm k v)).slots.flatten := by
    rw [(hperm2.trans hperm1).mem_iff]
    simp
  obtain ⟨j, _, hjmem⟩ := (mem_flatten_iff_getD _ _).mp hmem1
  exact hasItem_eq_of_mem _ hcore2 ⟨storedSum k, k, v⟩ j hjmem

theorem setSlot_state_core (hm : HashMap) (hcore : Core hm) (idx : Nat)
    (hidx : idx < hm.slots.length) (newSlot : List HashItem) (pay : Int)
    (hplaced : ∀ it ∈ newSlot,
      slotIndexSpec hm.minSlotCountShift hm.slots.length (sumKey it.key) = idx)
    (hsums : ∀ it ∈ newSlot, it.keySum = storedSum it.key)
    (hmap : newSlot.map HashItem.key = (hm.slots.getD idx []).map HashItem.key) :
    Core { hm with payloadSize := pay, slots := hm.slots.set idx newSlot } := by
  have hlen : (hm.slots.set idx newSlot).length = hm.slots.length := by simp
  have hgetD : ∀ j : Nat, (hm.slots.set idx newSlot).getD j [] =
      if j = idx then newSlot else hm.slots.getD j [] := by
    intro j
    by_cases hj : j = idx
    · rw [if_pos hj, hj]
      exact getD_set_self _ _ _ _ hidx
    · rw [if_neg hj]
      exact getD_set_ne _ _ _ _ _ (fun hx => hj hx.symm)
  have hflat_map : ((hm.slots.set idx newSlot).flatten.map HashItem.key) =
      (hm.slots.flatten.map HashItem.key) := by
    rw [flatten_set _ _ hidx]
    conv_rhs => rw [flatten_decomp hm.slots _ hidx]
    simp only [List.map_append]
    rw [hmap]
  refine ⟨?_, ?_, ?_, ?_, ?_, ?_⟩
  · show 2 ^ hm.minSlotCountShift ≤ (hm.slots.set idx newSlot).length
    rw [hlen]
    exact hcore.slot_lb
  · show (hm.slots.set idx newSlot).length < 2 ^ (hm.minSlotCountShift + 1)
    rw [hlen]
    exact hcore.slot_ub
  · intro j it hit
    show slotIndexSpec hm.minSlotCountShift (hm.slots.set idx newSlot).length
      (sumKey it.key) = j
    rw [hlen]
    rw [hgetD j] at hit
    by_cases hj : j = idx
    · rw [if_pos hj] at hit
      rw [hj]
      exact hplaced it hit
    · rw [if_neg hj] at hit
      exact hcore.placed _ it hit
  · intro j it hit
    rw [hgetD j] at hit
    by_cases hj : j = idx
    · rw [if_pos hj] at hit
      exact hsums it hit
    · rw [if_neg hj] at hit
      exact hcore.sums _ it hit
  · show ((hm.slots.set idx newSlot).flatten.map HashItem.key).Nodup
    rw [hflat_map]
    exact hcore.nodup
  · show hm.itemCount = (hm.slots.set idx newSlot).flatten.length
    have h1 := congrArg List.length hflat_map
    rw [List.length_map, List.length_map] at h1
    rw [h1]
    exact hcore.count

theorem setSlot_state_load (hm : HashMap) (hload : LoadInv hm) (idx : Nat)
    (newSlot : List HashItem) (pay : Int) :
    LoadInv { hm with payloadSize := pay, slots := hm.slots.set idx newSlot } := by
  have hsc : ({ hm with payloadSize := pay, slots := hm.slots.set idx newSlot } :
      HashMap).slotCount = hm.slotCount := by
    show (hm.slots.set idx newSlot).length = hm.slots.length
    simp
  have hsl : ({ hm with payloadSize := pay, slots := hm.slots.set idx newSlot } :
      HashMap).slots.length = hm.slots.length := by
    show (hm.slots.set idx newSlot).length = hm.slots.length
    simp
  constructor
  · intro hov
    refine hload.1 ?_
    rw [overLoaded] at hov ⊢
    rw [hsc] at hov
    exact hov
  · intro h2 hun
    rw [hsl] at h2
    refine hload.2 h2 ?_
    rw [underLoaded] at hun ⊢
    rw [hsc] at hun
    exact hun

theorem replaceValue_result (hm : HashMap) (hcore : Core hm) (hload : LoadInv hm)
    (k v : Bytes) (flag : Bool) (i : Nat)
    (hfind : (hm.slots.getD (hm.calculateSlotIndex (sumKey k)) []).findIdx?
      (fun it => matchItem it k (sumKey k)) = some i) :
    WF (hm.replaceValue (hm.calculateSlotIndex (sumKey k))
        (hm.slots.getD (hm.calculateSlotIndex (sumKey k)) []) i v flag).2 ∧
      (hm.replaceValue (hm.calculateSlotIndex (sumKey k))
        (hm.slots.getD (hm.calculateSlotIndex (sumKey k)) []) i v flag).2.hasItem
        k true = (some v, true) := by
  have hspec : hm.calculateSlotIndex (sumKey k) =
      slotIndexSpec hm.minSlotCountShift hm.slots.length (sumKey k) :=
    calculateSlotIndex_eq hm hcore.slot_lb _
  have hidx_lt : hm.calculateSlotIndex (sumKey k) < hm.slots.length := by
    rw [hspec]
    exact slotIndexSpec_lt _ _ _ hcore.slot_lb
  obtain ⟨hlt, hpi, _⟩ := List.findIdx?_eq_some_iff_getElem.mp hfind
  have hmem_i : (hm.slots.getD (hm.calculateSlotIndex (sumKey k)) [])[i] ∈
      hm.slots.getD (hm.calculateSlotIndex (sumKey k)) [] := List.getElem_mem hlt
  have hkey_i : (hm.slots.getD (hm.calculateSlotIndex (sumKey k)) [])[i].key = k :=
    (matchItem_iff _ _ (hcore.sums _ _ hmem_i)).mp hpi
  have hgetDi : (hm.slots.getD (hm.calculateSlotIndex (sumKey k)) []).getD i default =
      (hm.slots.getD (hm.calculateSlotIndex (sumKey k)) [])[i] :=
    getD_eq_getElem _ _ _ hlt
  have hst : (hm.replaceValue (hm.calculateSlotIndex (sumKey k))
      (hm.slots.getD (hm.calculateSlotIndex (sumKey k)) []) i v flag).2 =
      { hm with
        payloadSize := hm.payloadSize + (v.length : Int) -
          (((hm.slots.getD (hm.calculateSlotIndex (sumKey k)) [])[i]).value.length :
            Int),
        slots := hm.slots.set (hm.calculateSlotIndex (sumKey k))
          ((hm.slots.getD (hm.calculateSlotIndex (sumKey k)) []).set i
            ⟨(hm.slots.getD (hm.calculateSlotIndex (sumKey k)) [])[i].keySum, k, v⟩) } := by
    rw [replaceValue]
    rw [hgetDi]
    rw [hkey_i]
  rw [hst]
  have hcore2 := setSlot_state_core hm hcore (hm.calculateSlotIndex (sumKey k)) hidx_lt
    ((hm.slots.getD (hm.calculateSlotIndex (sumKey k)) []).set i
      ⟨(hm.slots.getD (hm.calculateSlotIndex (sumKey k)) [])[i].keySum, k, v⟩)
    (hm.payloadSize + (v.length : Int) -
      (((hm.slots.getD (hm.calculateSlotIndex (sumKey k)) [])[i]).value.length : Int))
    (by
      intro it hit
      rcases List.mem_or_eq_of_mem_set hit with hold | hnew
      · exact hcore.placed _ it hold
      · subst hnew
        show slotIndexSpec hm.minSlotCountShift hm.slots.length (sumKey k) =
          hm.calculateSlotIndex (sumKey k)
        exact hspec.symm)
    (by
      intro it hit
      rcases List.mem_or_eq_of_mem_set hit with hold | hnew
      · exact hcore.sums _ it hold
      · subst hnew
        show (hm.slots.getD (hm.calculateSlotIndex (sumKey k)) [])[i].keySum =
          storedSum k
        have hs := hcore.sums _ _ hmem_i
        rw [hkey_i] at hs
        exact hs)
    (by
      rw [List.map_set]
      refine set_getElem_id _ _ _ (by simpa using hlt) ?_
      rw [List.getElem_map]
      exact hkey_i.symm)
  refine ⟨⟨hcore2, setSlot_state_load hm hload _ _ _⟩, ?_⟩
  have hilen : i < ((hm.slots.getD (hm.calculateSlotIndex (sumKey k)) []).set i
      ⟨(hm.slots.getD (hm.calculateSlotIndex (sumKey k)) [])[i].keySum, k, v⟩).length := by
    simpa using hlt
  have h3 := List.getElem_set_self hilen
  have h4 := List.getElem_mem hilen
  rw [h3] at h4
  have hjm : (⟨(hm.slots.getD (hm.calculateSlotIndex (sumKey k)) [])[i].keySum, k, v⟩ :
      HashItem) ∈
      ({ hm with
        payloadSize := hm.payloadSize + (v.length : Int) -
          (((hm.slots.getD (hm.calculateSlotIndex (sumKey k)) [])[i]).value.length :
            Int),
        slots := hm.slots.set (hm.calculateSlotIndex (sumKey k))
          ((hm.slots.getD (hm.calculateSlotIndex (sumKey k)) []).set i
            ⟨(hm.slots.getD (hm.calculateSlotIndex (sumKey k)) [])[i].keySum, k, v⟩) } :
        HashMap).slots.getD (hm.calculateSlotIndex (sumKey k)) [] := by
    show _ ∈ (hm.slots.set _ _).getD _ []
    rw [getD_set_self _ _ _ _ hidx_lt]
    exact h4
  exact hasItem_eq_of_mem _ hcore2 _ _ hjm

theorem nodup_getElem_not_mem_eraseIdx {α : Type} (l : List α) (i : Nat)
    (h : i < l.length) (hnd : l.Nodup) : l[i] ∉ l.eraseIdx i := by
  rw [List.eraseIdx_eq_take_drop_succ]
  have hdecomp : l = l.take i ++ l[i] :: l.drop (i + 1) := by
    conv_lhs => rw [← List.take_append_drop i l]
    rw [List.drop_eq_getElem_cons h]
  rw [hdecomp] at hnd
  rw [List.nodup_append] at hnd
  intro hmem
  rw [List.mem_append] at hmem
  rcases hmem with h1 | h2
  · exact hnd.2.2 h1 (List.mem_cons_self _ _)
  · exact (List.nodup_cons.mp hnd.2.1).1 h2

/-- If no item of a well-formed map has the probed key, `HasItem`
reports absence. -/
theorem hasItem_none_of_not_mem (hm : HashMap) (hc : Core hm) (key : Bytes)
    (h : ∀ it : HashItem, it ∈ hm.slots.flatten → it.key ≠ key) (b : Bool) :
    hm.hasItem key b = (none, false) := by
  rw [hasItem, locateItem]
  cases hfi : (hm.slots.getD (hm.calculateSlotIndex (sumKey key)) []).findIdx?
      (fun it => matchItem it key (sumKey key)) with
  | none => simp [hfi]
  | some i =>
    exfalso
    obtain ⟨hlt, hpi, _⟩ := List.findIdx?_eq_some_iff_getElem.mp hfi
    by_cases hidx : hm.calculateSlotIndex (sumKey key) < hm.slots.length
    · have hmem : (hm.slots.getD (hm.calculateSlotIndex (sumKey key)) [])[i] ∈
          hm.slots.getD (hm.calculateSlotIndex (sumKey key)) [] := List.getElem_mem hlt
      have hkey : (hm.slots.getD (hm.calculateSlotIndex (sumKey key)) [])[i].key = key :=
        (matchItem_iff _ _ (hc.sums _ _ hmem)).mp hpi
      refine h _ ?_ hkey
      exact (mem_flatten_iff_getD _ _).mpr
        ⟨hm.calculateSlotIndex (sumKey key), hidx, hmem⟩
    · rw [List.getD_eq_default _ _ (by omega)] at hlt
      simp at hlt

theorem removeState_core (hm : HashMap) (hcore : Core hm) (k : Bytes) (i : Nat)
    (hfind : (hm.slots.getD (hm.calculateSlotIndex (sumKey k)) []).findIdx?
      (fun it => matchItem it k (sumKey k)) = some i) (pay : Int) :
    Core { hm with
        payloadSize := pay,
        slots := hm.slots.set (hm.calculateSlotIndex (sumKey k))
          ((hm.slots.getD (hm.calculateSlotIndex (sumKey k)) []).eraseIdx i),
        itemCount := hm.itemCount - 1 } ∧
      ∀ it : HashItem,
        it ∈ ({ hm with
            payloadSize := pay,
            slots := hm.slots.set (hm.calculateSlotIndex (sumKey k))
              ((hm.slots.getD (hm.calculateSlotIndex (sumKey k)) []).eraseIdx i),
            itemCount := hm.itemCount - 1 } : HashMap).slots.flatten →
          it.key ≠ k := by
  have hspec : hm.calculateSlotIndex (sumKey k) =
      slotIndexSpec hm.minSlotCountShift hm.slots.length (sumKey k) :=
    calculateSlotIndex_eq hm hcore.slot_lb _
  have hidx_lt : hm.calculateSlotIndex (sumKey k) < hm.slots.length := by
    rw [hspec]
    exact slotIndexSpec_lt _ _ _ hcore.slot_lb
  obtain ⟨hlt, hpi, _⟩ := List.findIdx?_eq_some_iff_getElem.mp hfind
  have hmem_i : (hm.slots.getD (hm.calculateSlotIndex (sumKey k)) [])[i] ∈
      hm.slots.getD (hm.calculateSlotIndex (sumKey k)) [] := List.getElem_mem hlt
  have hkey_i : (hm.slots.getD (hm.calculateSlotIndex (sumKey k)) [])[i].key = k :=
    (matchItem_iff _ _ (hcore.sums _ _ hmem_i)).mp hpi
  have hslots : ({ hm with
      payloadSize := pay,
      slots := hm.slots.set (hm.calculateSlotIndex (sumKey k))
        ((hm.slots.getD (hm.calculateSlotIndex (sumKey k)) []).eraseIdx i),
      itemCount := hm.itemCount - 1 } : HashMap).slots =
      hm.slots.set (hm.calculateSlotIndex (sumKey k))
        ((hm.slots.getD (hm.calculateSlotIndex (sumKey k)) []).eraseIdx i) := rfl
  have hlen : (hm.slots.set (hm.calculateSlotIndex (sumKey k))
      ((hm.slots.getD (hm.calculateSlotIndex (sumKey k)) []).eraseIdx i)).length =
      hm.slots.length := by simp
  have hgetD : ∀ j : Nat, (hm.slots.set (hm.calculateSlotIndex (sumKey k))
      ((hm.slots.getD (hm.calculateSlotIndex (sumKey k)) []).eraseIdx i)).getD j [] =
      if j = hm.calculateSlotIndex (sumKey k) then
        (hm.slots.getD (hm.calculateSlotIndex (sumKey k)) []).eraseIdx i
      else hm.slots.getD j [] := by
    intro j
    by_cases hj : j = hm.calculateSlotIndex (sumKey k)
    · rw [if_pos hj, hj]
      exact getD_set_self _ _ _ _ hidx_lt
    · rw [if_neg hj]
      exact getD_set_ne _ _ _ _ _ (fun hx => hj hx.symm)
  have hsub : (hm.slots.set (hm.calculateSlotIndex (sumKey k))
      ((hm.slots.getD (hm.calculateSlotIndex (sumKey k)) []).eraseIdx i)).flatten.Sublist
      hm.slots.flatten := by
    rw [flatten_set _ _ hidx_lt]
    conv_rhs => rw [flatten_decomp hm.slots _ hidx_lt]
    exact (((List.eraseIdx_sublist _ i).append_left _).append_right _)
  have hcore2 : Core { hm with
      payloadSize := pay,
      slots := hm.slots.set (hm.calculateSlotIndex (sumKey k))
        ((hm.slots.getD (hm.calculateSlotIndex (sumKey k)) []).eraseIdx i),
      itemCount := hm.itemCount - 1 } := by
    refine ⟨?_, ?_, ?_, ?_, ?_, ?_⟩
    · show 2 ^ hm.minSlotCountShift ≤ _
      rw [hslots, hlen]
      exact hcore.slot_lb
    · show _ < 2 ^ (hm.minSlotCountShift + 1)
      rw [hslots, hlen]
      exact hcore.slot_ub
    · intro j it hit
      rw [hslots] at hit
      rw [hgetD j] at hit
      show slotIndexSpec hm.minSlotCountShift
        (hm.slots.set (hm.calculateSlotIndex (sumKey k))
          ((hm.slots.getD (hm.calculateSlotIndex (sumKey k)) []).eraseIdx i)).length
        (sumKey it.key) = j
      rw [hlen]
      by_cases hj : j = hm.calculateSlotIndex (sumKey k)
      · rw [if_pos hj] at hit
        rw [hj]
        exact hcore.placed _ it (List.mem_of_mem_eraseIdx hit)
      · rw [if_neg hj] at hit
        exact hcore.placed _ it hit
    · intro j it hit
      rw [hslots] at hit
      rw [hgetD j] at hit
      by_cases hj : j = hm.calculateSlotIndex (sumKey k)
      · rw [if_pos hj] at hit
        exact hcore.sums _ it (List.mem_of_mem_eraseIdx hit)
      · rw [if_neg hj] at hit
        exact hcore.sums _ it hit
    · show (((hm.slots.set (hm.calculateSlotIndex (sumKey k))
        ((hm.slots.getD (hm.calculateSlotIndex (sumKey k)) []).eraseIdx i)).flatten).map
          HashItem.key).Nodup
      exact (hsub.map HashItem.key).nodup hcore.nodup
    · show hm.itemCount - 1 = _
      rw [hslots, flatten_set _ _ hidx_lt]
      have hcount := hcore.count
      rw [flatten_decomp hm.slots _ hidx_lt] at hcount
      simp only [List.length_append] at hcount ⊢
      rw [List.length_eraseIdx]
      rw [if_pos hlt]
      omega
  refine ⟨hcore2, ?_⟩
  intro it hit hkey
  obtain ⟨j, hjlt, hjmem⟩ := (mem_flatten_iff_getD _ _).mp hit
  have hplaced := hcore2.placed j it hjmem
  rw [hslots, hlen] at hplaced
  have hj : j = hm.calculateSlotIndex (sumKey k) := by
    rw [← hplaced, hkey, ← hspec]
  rw [hslots] at hjmem
  rw [hgetD j, if_pos hj] at hjmem
  have hnd := slot_keys_nodup hm hcore (hm.calculateSlotIndex (sumKey k))
  have hnot := nodup_getElem_not_mem_eraseIdx
    ((hm.slots.getD (hm.calculateSlotIndex (sumKey k)) []).map HashItem.key) i
    (by simpa using hlt) hnd
  have hmaperase : ((hm.slots.getD (hm.calculateSlotIndex (sumKey k)) []).map
      HashItem.key).eraseIdx i =
      ((hm.slots.getD (hm.calculateSlotIndex (sumKey k)) []).eraseIdx i).map
        HashItem.key := by
    rw [List.eraseIdx_eq_take_drop_succ, List.eraseIdx_eq_take_drop_succ,
      List.map_append, List.map_take, List.map_drop]
  refine hnot ?_
  rw [hmaperase, List.getElem_map, hkey_i]
  have hm2 : it.key ∈ ((hm.slots.getD (hm.calculateSlotIndex (sumKey k))
      []).eraseIdx i).map HashItem.key := List.mem_map_of_mem _ hjmem
  rwa [hkey] at hm2

theorem maybeShrink_core (hm : HashMap) (hc : Core hm) :
    Core (maybeShrink hm) ∧ (maybeShrink hm).slots.flatten.Perm hm.slots.flatten ∧
      (maybeShrink hm).itemCount = hm.itemCount :=
  shrinkLoop_core hm.slots.length hm hc

theorem maybeShrink_not_over (hm : HashMap) (h : ¬ overLoaded hm) :
    ¬ overLoaded (maybeShrink hm) :=
  shrinkLoop_not_over hm.slots.length hm h

theorem removeItem_result (hm : HashMap) (hcore : Core hm) (hload : LoadInv hm)
    (k : Bytes) (flag : Bool) (i : Nat)
    (hfind : (hm.slots.getD (hm.calculateSlotIndex (sumKey k)) []).findIdx?
      (fun it => matchItem it k (sumKey k)) = some i) :
    WF (hm.removeItem (hm.calculateSlotIndex (sumKey k))
        (hm.slots.getD (hm.calculateSlotIndex (sumKey k)) []) i flag).2 ∧
      (hm.removeItem (hm.calculateSlotIndex (sumKey k))
        (hm.slots.getD (hm.calculateSlotIndex (sumKey k)) []) i flag).2.hasItem
        k true = (none, false) := by
  have hst : (hm.removeItem (hm.calculateSlotIndex (sumKey k))
      (hm.slots.getD (hm.calculateSlotIndex (sumKey k)) []) i flag).2 =
      maybeShrink { hm with
        payloadSize := hm.payloadSize -
          (((hm.slots.getD (hm.calculateSlotIndex (sumKey k)) []).getD i
            default).key.length : Int) -
          (((hm.slots.getD (hm.calculateSlotIndex (sumKey k)) []).getD i
            default).value.length : Int),
        slots := hm.slots.set (hm.calculateSlotIndex (sumKey k))
          ((hm.slots.getD (hm.calculateSlotIndex (sumKey k)) []).eraseIdx i),
        itemCount := hm.itemCount - 1 } := rfl
  rw [hst]
  obtain ⟨hcore1, hgone⟩ := removeState_core hm hcore k i hfind
    (hm.payloadSize -
      (((hm.slots.getD (hm.calculateSlotIndex (sumKey k)) []).getD i
        default).key.length : Int) -
      (((hm.slots.getD (hm.calculateSlotIndex (sumKey k)) []).getD i
        default).value.length : Int))
  obtain ⟨hcore2, hperm2, _⟩ := maybeShrink_core _ hcore1
  have hnotover1 : ¬ overLoaded { hm with
      payloadSize := hm.payloadSize -
        (((hm.slots.getD (hm.calculateSlotIndex (sumKey k)) []).getD i
          default).key.length : Int) -
        (((hm.slots.getD (hm.calculateSlotIndex (sumKey k)) []).getD i
          default).value.length : Int),
      slots := hm.slots.set (hm.calculateSlotIndex (sumKey k))
        ((hm.slots.getD (hm.calculateSlotIndex (sumKey k)) []).eraseIdx i),
      itemCount := hm.itemCount - 1 } := by
    intro hov
    refine hload.1 ?_
    rw [overLoaded] at hov ⊢
    rw [show ({ hm with
        payloadSize := hm.payloadSize -
          (((hm.slots.getD (hm.calculateSlotIndex (sumKey k)) []).getD i
            default).key.length : Int) -
          (((hm.slots.getD (hm.calculateSlotIndex (sumKey k)) []).getD i
            default).value.length : Int),
        slots := hm.slots.set (hm.calculateSlotIndex (sumKey k))
          ((hm.slots.getD (hm.calculateSlotIndex (sumKey k)) []).eraseIdx i),
        itemCount := hm.itemCount - 1 } : HashMap).slotCount = hm.slotCount from by
      show (hm.slots.set _ _).length = hm.slots.length
      simp] at hov
    rw [show ({ hm with
        payloadSize := hm.payloadSize -
          (((hm.slots.getD (hm.calculateSlotIndex (sumKey k)) []).getD i
            default).key.length : Int) -
          (((hm.slots.getD (hm.calculateSlotIndex (sumKey k)) []).getD i
            default).value.length : Int),
        slots := hm.slots.set (hm.calculateSlotIndex (sumKey k))
          ((hm.slots.getD (hm.calculateSlotIndex (sumKey k)) []).eraseIdx i),
        itemCount := hm.itemCount - 1 } : HashMap).itemCount = hm.itemCount - 1
      from rfl] at hov
    have hle : (hm.itemCount - 1) * maxLoadDen ≤ hm.itemCount * maxLoadDen :=
      Nat.mul_le_mul_right _ (Nat.sub_le _ _)
    omega
  have hnotover2 := maybeShrink_not_over _ hnotover1
  have hpost := maybeShrink_post { hm with
      payloadSize := hm.payloadSize -
        (((hm.slots.getD (hm.calculateSlotIndex (sumKey k)) []).getD i
          default).key.length : Int) -
        (((hm.slots.getD (hm.calculateSlotIndex (sumKey k)) []).getD i
          default).value.length : Int),
      slots := hm.slots.set (hm.calculateSlotIndex (sumKey k))
        ((hm.slots.getD (hm.calculateSlotIndex (sumKey k)) []).eraseIdx i),
      itemCount := hm.itemCount - 1 }
  refine ⟨⟨hcore2, hnotover2, ?_⟩, ?_⟩
  · intro h2 hun
    refine hpost ⟨?_, hun⟩
    rw [slotCount]
    exact h2
  · refine hasItem_none_of_not_mem _ hcore2 k ?_ true
    intro it hit
    exact hgone it (hperm2.mem_iff.mp hit)

theorem locateItem_eq (hm : HashMap) (key : Bytes) (keySum : Nat) :
    hm.locateItem key keySum =
      (hm.calculateSlotIndex keySum, hm.slots.getD (hm.calculateSlotIndex keySum) [],
        (hm.slots.getD (hm.calculateSlotIndex keySum) []).findIdx?
          fun it => matchItem it key keySum) := rfl

theorem addItem_wf (hm : HashMap) (h : WF hm) (k v : Bytes) (flag : Bool) :
    WF (hm.addItem k v flag).1 := by
  rw [addItem, locateItem_eq]
  cases hfi : (hm.slots.getD (hm.calculateSlotIndex (sumKey k)) []).findIdx?
      (fun it => matchItem it k (sumKey k)) with
  | none =>
    simp only
    exact (appendItem_result hm h.1 h.2 k v hfi).1
  | some i =>
    simp only
    exact h

theorem updateItem_wf (hm : HashMap) (h : WF hm) (k v : Bytes) (flag : Bool) :
    WF (hm.updateItem k v flag).1 := by
  rw [updateItem, locateItem_eq]
  cases hfi : (hm.slots.getD (hm.calculateSlotIndex (sumKey k)) []).findIdx?
      (fun it => matchItem it k (sumKey k)) with
  | none =>
    simp only
    exact h
  | some i =>
    simp only
    exact (replaceValue_result hm h.1 h.2 k v flag i hfi).1

theorem addOrUpdateItem_wf (hm : HashMap) (h : WF hm) (k v : Bytes) (flag : Bool) :
    WF (hm.addOrUpdateItem k v flag).1 := by
  rw [addOrUpdateItem, locateItem_eq]
  cases hfi : (hm.slots.getD (hm.calculateSlotIndex (sumKey k)) []).findIdx?
      (fun it => matchItem it k (sumKey k)) with
  | none =>
    simp only
    exact (appendItem_result hm h.1 h.2 k v hfi).1
  | some i =>
    simp only
    exact (replaceValue_result hm h.1 h.2 k v flag i hfi).1

theorem deleteItem_wf (hm : HashMap) (h : WF hm) (k : Bytes) (flag : Bool) :
    WF (hm.deleteItem k flag).1 := by
  rw [deleteItem, locateItem_eq]
  cases hfi : (hm.slots.getD (hm.calculateSlotIndex (sumKey k)) []).findIdx?
      (fun it => matchItem it k (sumKey k)) with
  | none =>
    simp only
    exact h
  | some i =>
    simp only
    exact (removeItem_result hm h.1 h.2 k flag i hfi).1

theorem create_wf : WF create := by
  refine ⟨⟨?_, ?_, ?_, ?_, ?_, ?_⟩, ?_, ?_⟩
  · show 2 ^ 0 ≤ 1
    omega
  · show 1 < 2 ^ (0 + 1)
    omega
  · intro j it hit
    rcases j with _ | j
    · simp [create] at hit
    · rw [show create.slots.getD (j + 1) [] = [] from by simp [create]] at hit
      simp at hit
  · intro j it hit
    rcases j with _ | j
    · simp [create] at hit
    · rw [show create.slots.getD (j + 1) [] = [] from by simp [create]] at hit
      simp at hit
  · show (create.slots.flatten.map HashItem.key).Nodup
    simp [create]
  · rfl
  · intro hov
    rw [overLoaded] at hov
    have h0 : create.itemCount * maxLoadDen = 0 := by
      show 0 * maxLoadDen = 0
      simp
    rw [h0] at hov
    omega
  · intro h2
    rw [show create.slots.length = 1 from rfl] at h2
    omega

/-- Every state reachable through the public operations satisfies the
full invariant. -/
theorem reachable_wf (hm : HashMap) (h : Reachable hm) : WF hm := by
  induction h with
  | create => exact create_wf
  | add hm0 k v flag _ ih => exact addItem_wf hm0 ih k v flag
  | update hm0 k v flag _ ih => exact updateItem_wf hm0 ih k v flag
  | addOrUpdate hm0 k v flag _ ih => exact addOrUpdateItem_wf hm0 ih k v flag
  | delete hm0 k flag _ ih => exact deleteItem_wf hm0 ih k flag

/-- `AddOrUpdateItem` followed by `HasItem` on the same key returns the
stored value. -/
theorem addOrUpdateItem_hasItem (hm : HashMap) (h : WF hm) (k v : Bytes)
    (flag : Bool) :
    (hm.addOrUpdateItem k v flag).1.hasItem k true = (some v, true) := by
  rw [addOrUpdateItem, locateItem_eq]
  cases hfi : (hm.slots.getD (hm.calculateSlotIndex (sumKey k)) []).findIdx?
      (fun it => matchItem it k (sumKey k)) with
  | none =>
    simp only
    exact (appendItem_result hm h.1 h.2 k v hfi).2
  | some i =>
    simp only
    exact (replaceValue_result hm h.1 h.2 k v flag i hfi).2

theorem sumKey_lt (key : Bytes) : sumKey key < u64Mod := by
  rw [sumKey]
  have hgen : ∀ (l : Bytes) (x : Nat), x < u64Mod →
      l.foldl (fun h b => ((h ^^^ b) * fnvPrime) % u64Mod) x < u64Mod := by
    intro l
    induction l with
    | nil => intro x hx; exact hx
    | cons b bs ih =>
      intro x hx
      rw [List.foldl_cons]
      exact ih _ (Nat.mod_lt _ (by decide))
  exact hgen key _ (by decide)

theorem specSlotIndex_eq (hm : HashMap)
    (hle : 2 ^ hm.minSlotCountShift ≤ hm.slots.length) (key : Bytes) :
    hm.specSlotIndex key =
      slotIndexSpec hm.minSlotCountShift hm.slots.length (sumKey key) := by
  have hmask : sumKey key &&& ((1 <<< (hm.minSlotCountShift + 1)) - 1) =
      sumKey key % 2 ^ (hm.minSlotCountShift + 1) := by
    rw [Nat.shiftLeft_eq, one_mul]
    exact Nat.and_pow_two_sub_one_eq_mod _ _
  rw [specSlotIndex, slotIndexSpec, hmask, slotCount]
  by_cases hc : sumKey key % 2 ^ (hm.minSlotCountShift + 1) < hm.slots.length
  · rw [if_neg (by omega), if_pos hc]
  · rw [if_pos (by omega), if_neg hc]
    have hige : 2 ^ hm.minSlotCountShift ≤
        sumKey key % 2 ^ (hm.minSlotCountShift + 1) := by omega
    have hilt : sumKey key % 2 ^ (hm.minSlotCountShift + 1) <
        2 ^ (hm.minSlotCountShift + 1) :=
      Nat.mod_lt _ (Nat.pos_pow_of_pos _ (by omega))
    have hlt64 : sumKey key % 2 ^ (hm.minSlotCountShift + 1) < 2 ^ 64 :=
      Nat.lt_of_le_of_lt (Nat.mod_le _ _) (sumKey_lt key)
    generalize hi : sumKey key % 2 ^ (hm.minSlotCountShift + 1) = i at hige hilt hlt64 ⊢
    have hs64 : hm.minSlotCountShift < 64 := by
      by_contra hge
      have h4 : (2 : Nat) ^ 64 ≤ 2 ^ hm.minSlotCountShift :=
        Nat.pow_le_pow_right (by omega) (by omega)
      omega
    have hmod : i - 2 ^ hm.minSlotCountShift = i % 2 ^ hm.minSlotCountShift := by
      rw [Nat.mod_eq_sub_mod hige]
      refine (Nat.mod_eq_of_lt ?_).symm
      have hp : 2 ^ (hm.minSlotCountShift + 1) = 2 * 2 ^ hm.minSlotCountShift := by
        rw [Nat.pow_succ]; ring
      omega
    rw [hmod]
    refine Nat.eq_of_testBit_eq ?_
    intro j
    rw [Nat.testBit_and, Nat.testBit_mod_two_pow]
    rw [show (1 <<< hm.minSlotCountShift) = 2 ^ hm.minSlotCountShift by
      rw [Nat.shiftLeft_eq, one_mul]]
    rw [show u64Mod - 1 = 2 ^ 64 - 1 from rfl]
    rw [Nat.testBit_xor, Nat.testBit_two_pow_sub_one, Nat.testBit_two_pow]
    rcases Nat.lt_trichotomy j hm.minSlotCountShift with hj | hj | hj
    · rw [decide_eq_true (show j < 64 by omega),
        decide_eq_false (show ¬ hm.minSlotCountShift = j by omega),
        decide_eq_true hj]
      simp
    · rw [decide_eq_true (show j < 64 by omega),
        decide_eq_true hj.symm, decide_eq_false (show ¬ j < hm.minSlotCountShift by omega)]
      simp
    · have hbit : i.testBit j = false :=
        Nat.testBit_lt_two_pow
          (Nat.lt_of_lt_of_le hilt (Nat.pow_le_pow_right (by omega) (by omega)))
      rw [hbit, decide_eq_false (show ¬ j < hm.minSlotCountShift by omega)]
      simp

end HashMap

theorem uvarint_putUvarintLoop (fuel : Nat) : ∀ (x : Nat), x < fuel →
    ∀ rest : Bytes,
      uvarint (putUvarintLoop fuel x ++ rest) =
        some (x, (putUvarintLoop fuel x).length) := by
  induction fuel with
  | zero => intro x hx; omega
  | succ fuel ih =>
    intro x hx rest
    rw [putUvarintLoop]
    by_cases h128 : x < 128
    · rw [if_pos h128]
      rw [List.cons_append, List.nil_append, uvarint, if_pos h128]
      rfl
    · rw [if_neg h128]
      have hdiv : x / 128 < fuel := by
        have h1 : x / 128 < x := Nat.div_lt_self (by omega) (by omega)
        omega
      rw [List.cons_append, uvarint, if_neg (by omega)]
      rw [ih (x / 128) hdiv rest]
      have hval : x % 128 + 128 - 128 + x / 128 * 128 = x := by
        have := Nat.mod_add_div x 128
        omega
      simp [hval]
      have := Nat.mod_add_div x 128
      omega

theorem uvarint_putUvarint (x : Nat) (rest : Bytes) :
    uvarint (putUvarint x ++ rest) = some (x, (putUvarint x).length) :=
  uvarint_putUvarintLoop (x + 1) x (by omega) rest

theorem readBe64_be64 (x : Nat) (h : x < 2 ^ 64) : readBe64 (be64 x) = x := by
  rw [be64, readBe64]
  simp only [List.getD_cons_zero, List.getD_cons_succ]
  omega

theorem be64_length (x : Nat) : (be64 x).length = 8 := rfl

theorem getOverflow_allocateOverflow (fs : FileStorage) (overflow : Bytes) :
    getOverflow (allocateOverflow fs overflow).2
      (allocateOverflow fs overflow).1 = some overflow := by
  rw [allocateOverflow, FileStorage.allocateSpace, getOverflow]
  have hacc : FileStorage.accessSpace
      ⟨fs.regions ++ [putUvarint overflow.length ++ overflow]⟩
      fs.regions.length = putUvarint overflow.length ++ overflow := by
    rw [FileStorage.accessSpace]
    rw [HashMap.getD_eq_getElem _ _ _ (by simp)]
    rw [List.getElem_append_right (Nat.le_refl _)]
    simp
  rw [hacc, uvarint_putUvarint]
  simp [List.drop_left]

/-- Claim C2: in every state reachable through the public hash-map
operations, whenever the map has at least two slots the load factor
`itemCount / slotCount` lies within `[minLoadFactor, maxLoadFactor]`
(with `minLoadFactor = maxLoadFactor / 2`). -/
theorem claim_C2 (hm : HashMap) (h : HashMap.Reachable hm)
    (h2 : 2 ≤ hm.slotCount) :
    HashMap.minLoadFactor ≤ hm.loadFactor ∧
      hm.loadFactor ≤ HashMap.maxLoadFactor ∧
      HashMap.minLoadFactor = HashMap.maxLoadFactor / 2 := by
  obtain ⟨hcore, hnotover, hnotunder⟩ := HashMap.reachable_wf hm h
  have hpos : 0 < hm.slotCount := by omega
  refine ⟨?_, ?_, rfl⟩
  · have hnu := hnotunder (by rw [HashMap.slotCount] at h2; exact h2)
    rw [HashMap.underLoaded_iff hm hpos] at hnu
    exact le_of_not_lt hnu
  · have hno := hnotover
    rw [HashMap.overLoaded_iff hm hpos] at hno
    exact le_of_not_lt hno

theorem claim_C2_witness :
    2 ≤ ((HashMap.create.addItem [0] [] false).1.addItem [1] [] false).1.slotCount ∧
      (HashMap.minLoadFactor ≤
          ((HashMap.create.addItem [0] [] false).1.addItem [1] [] false).1.loadFactor ∧
        ((HashMap.create.addItem [0] [] false).1.addItem [1] []
            false).1.loadFactor ≤ HashMap.maxLoadFactor ∧
        HashMap.minLoadFactor = HashMap.maxLoadFactor / 2) :=
  ⟨by decide,
    claim_C2 _
      (HashMap.Reachable.add _ [1] [] false
        (HashMap.Reachable.add _ [0] [] false HashMap.Reachable.create))
      (by decide)⟩

/-- Claim C4: in every reachable state, the probe performed by a
point operation — all five of which read their slot through
`locateItem` — consults exactly the slot at the index the
specification describes: `i = FNV1a64(k) & ((1 << (s+1)) - 1)`,
remapped to `i & ^(1 << s)` when `i` is not below the slot count
(`specSlotIndex`). -/
theorem claim_C4 (hm : HashMap) (h : HashMap.Reachable hm) (k : Bytes) :
    (hm.locateItem k (sumKey k)).1 = hm.specSlotIndex k ∧
      (hm.locateItem k (sumKey k)).2.1 =
        hm.slots.getD (hm.specSlotIndex k) [] := by
  have hwf := HashMap.reachable_wf hm h
  have he : hm.calculateSlotIndex (sumKey k) = hm.specSlotIndex k := by
    rw [HashMap.calculateSlotIndex_eq hm hwf.1.slot_lb,
      HashMap.specSlotIndex_eq hm hwf.1.slot_lb]
  constructor
  · show hm.calculateSlotIndex (sumKey k) = _
    exact he
  · show hm.slots.getD (hm.calculateSlotIndex (sumKey k)) [] = _
    rw [he]

theorem claim_C4_witness :
    (HashMap.create.locateItem [7] (sumKey [7])).1 =
        HashMap.create.specSlotIndex [7] ∧
      (HashMap.create.locateItem [7] (sumKey [7])).2.1 =
        HashMap.create.slots.getD (HashMap.create.specSlotIndex [7]) [] :=
  claim_C4 HashMap.create HashMap.Reachable.create [7]

/-- Claim C5: the merge of two item lists places, for each paired
index `i` below both lengths, `A[i]` at output position
`2i + parity` and `B[i]` at `2i + (1 - parity)`, where `parity` is the
low bit of the running 64-bit accumulator multiplied at each step by
`|A[j].key| + |B[j].key|` (`mergeParity`); past the paired indices the
output carries the tail of the longer list; and splitting any item
list by a hash bit and merging the two halves yields a permutation of
the original items. -/
theorem claim_C5 (A B : List HashItem) (i : Nat) (d : HashItem)
    (hA : i < A.length) (hB : i < B.length)
    (items : List HashItem) (bit : Nat) :
    ((mergeItems A B).getD (2 * i + mergeParity A B i) d = A.getD i d ∧
      (mergeItems A B).getD (2 * i + (1 - mergeParity A B i)) d = B.getD i d) ∧
      (mergeItems A B).drop (2 * min A.length B.length) =
        A.drop (min A.length B.length) ++ B.drop (min A.length B.length) ∧
      (mergeItems (splitItems items bit).1 (splitItems items bit).2).Perm items := by
  refine ⟨?_, ?_, ?_⟩
  · exact mergePairs_getD d i 1 A B hA hB
  · exact mergePairs_drop 1 A B
  · exact (mergePairs_perm 1 _ _).trans (List.filter_append_perm _ items)

theorem claim_C5_witness :
    0 < ([⟨0, [1], []⟩] : List HashItem).length ∧
      0 < ([⟨0, [2], []⟩] : List HashItem).length ∧
      (((mergeItems [⟨0, [1], []⟩] [⟨0, [2], []⟩]).getD
            (2 * 0 + mergeParity [⟨0, [1], []⟩] [⟨0, [2], []⟩] 0) default =
          ([⟨0, [1], []⟩] : List HashItem).getD 0 default ∧
        (mergeItems [⟨0, [1], []⟩] [⟨0, [2], []⟩]).getD
            (2 * 0 + (1 - mergeParity [⟨0, [1], []⟩] [⟨0, [2], []⟩] 0)) default =
          ([⟨0, [2], []⟩] : List HashItem).getD 0 default) ∧
        (mergeItems [⟨0, [1], []⟩] [⟨0, [2], []⟩]).drop
            (2 * min ([⟨0, [1], []⟩] : List HashItem).length
              ([⟨0, [2], []⟩] : List HashItem).length) =
          ([⟨0, [1], []⟩] : List HashItem).drop
              (min ([⟨0, [1], []⟩] : List HashItem).length
                ([⟨0, [2], []⟩] : List HashItem).length) ++
            ([⟨0, [2], []⟩] : List HashItem).drop
              (min ([⟨0, [1], []⟩] : List HashItem).length
                ([⟨0, [2], []⟩] : List HashItem).length) ∧
        (mergeItems (splitItems [⟨0, [1], []⟩, ⟨0, [2], []⟩] 1).1
            (splitItems [⟨0, [1], []⟩, ⟨0, [2], []⟩] 1).2).Perm
          [⟨0, [1], []⟩, ⟨0, [2], []⟩]) :=
  ⟨by decide, by decide,
    claim_C5 [⟨0, [1], []⟩] [⟨0, [2], []⟩] 0 default (by decide) (by decide)
      [⟨0, [1], []⟩, ⟨0, [2], []⟩] 1⟩

/-- Claim C9: in the packed slot record the last item always carries a
serialized value size of 0 (the decoder recovers the true size as the
remainder of the blob), decoding inverts encoding on every nonempty
item list, and in every reachable state an item with a key of at most
24 bytes carries a stored key sum of 0 (recomputed on demand). -/
theorem claim_C9 (items : List HashItem) (h : items ≠ []) :
    ((packSlot items).itemInfos.getLast?.map HashItemInfo.valueSize = some 0 ∧
      unpackSlot (packSlot items) = items) ∧
      ∀ (hm : HashMap), HashMap.Reachable hm → ∀ (j : Nat) (it : HashItem),
        it ∈ hm.slots.getD j [] → it.key.length ≤ maxShortKeySize →
          it.keySum = 0 := by
  refine ⟨⟨?_, unpackSlot_packSlot items h⟩, ?_⟩
  · rw [packSlot, if_neg (by simpa using h)]
    exact zeroLastValueSize_getLast _ (by simpa using h)
  · intro hm hreach j it hit hshort
    have hsum := (HashMap.reachable_wf hm hreach).1.sums j it hit
    rw [hsum, storedSum, if_pos hshort]

theorem claim_C9_witness :
    (([⟨5, [1, 2], [3]⟩] : List HashItem) ≠ []) ∧
      (((packSlot [⟨5, [1, 2], [3]⟩]).itemInfos.getLast?.map
            HashItemInfo.valueSize = some 0 ∧
        unpackSlot (packSlot [⟨5, [1, 2], [3]⟩]) = [⟨5, [1, 2], [3]⟩]) ∧
        ∀ (hm : HashMap), HashMap.Reachable hm → ∀ (j : Nat) (it : HashItem),
          it ∈ hm.slots.getD j [] → it.key.length ≤ maxShortKeySize →
            it.keySum = 0) :=
  ⟨by decide, claim_C9 [⟨5, [1, 2], [3]⟩] (by decide)⟩

/-- Claim C3 (amended): on a B+ tree holding at least two records,
`SearchForward(MaxKey, MinKey)` yields an iterator that is immediately
at end.  (On exactly one record the source special-cases `d = 0` and
the iterator yields that record: see the counterexample.) -/
theorem claim_C3 (bpt : BPTree) (h2 : 2 ≤ bpt.recordCount) :
    (bpt.searchForward .maxSent .minSent).isAtEnd = true := by
  have h0 : ¬ bpt.recordCount = 0 := by omega
  have h1 : ¬ bpt.recordCount = 1 := by omega
  have hsearch : bpt.search .maxSent .minSent = (0, 0, 0, 0, false) := by
    rw [BPTree.search]
    rw [if_neg h0]
    simp [isMinKey, isMaxKey, h1]
  show (!(bpt.search .maxSent .minSent).2.2.2.2) = true
  rw [hsearch]
  rfl

theorem claim_C3_witness :
    ((((BPTree.createTree.addRecord [1] [2] false).2.addRecord [3] [4]
      false).2.searchForward .maxSent .minSent).isAtEnd) = true :=
  claim_C3 ((BPTree.createTree.addRecord [1] [2] false).2.addRecord [3] [4]
    false).2 (by decide)

/-- Claim C3 counterexample: the tree holding exactly the one record
`([1], [2])` is non-empty, yet `SearchForward(MaxKey, MinKey)` is not
at end — it yields that record, because `search` sets `d = 0` when
`recordCount == 1` even though the interval `[MaxKey, MinKey]` is
reversed. -/
theorem claim_C3_counterexample :
    (BPTree.createTree.addRecord [1] [2] false).2.recordCount ≠ 0 ∧
      ((BPTree.createTree.addRecord [1] [2]
        false).2.searchForward .maxSent .minSent).isAtEnd = false := by
  constructor
  · decide
  · decide

/-- Claim C8: raw keys shorter than 257 bytes are stored inline; from
257 bytes on, the stored key is exactly 257 bytes — the first 249 raw
bytes and the big-endian address of a fresh overflow region holding a
varint length followed by the remaining bytes — and values follow the
same scheme with threshold 129 and prefix 121; reading a stored key or
value back recovers the raw bytes. -/
theorem claim_C8 (fs : FileStorage) (rawKey rawValue : Bytes)
    (hfs : fs.regions.length < 2 ^ 64) :
    (rawKey.length < maxKeySize → createKey fs rawKey = (rawKey, fs)) ∧
      (maxKeySize ≤ rawKey.length →
        (createKey fs rawKey).1.length = maxKeySize ∧
        (createKey fs rawKey).1 =
          rawKey.take keyPrefixSize ++ be64 fs.regions.length ∧
        (createKey fs rawKey).2.accessSpace fs.regions.length =
          putUvarint (rawKey.drop keyPrefixSize).length ++
            rawKey.drop keyPrefixSize) ∧
      readKeyAll (createKey fs rawKey).2 (createKey fs rawKey).1 =
        some rawKey ∧
      (rawValue.length < maxValueSize → createValue fs rawValue = (rawValue, fs)) ∧
      (maxValueSize ≤ rawValue.length →
        (createValue fs rawValue).1.length = maxValueSize ∧
        (createValue fs rawValue).1 =
          rawValue.take (maxValueSize - 8) ++ be64 fs.regions.length) ∧
      readValue (createValue fs rawValue).2 (createValue fs rawValue).1 =
        some rawValue := by
  have haccK : ((allocateOverflow fs (rawKey.drop keyPrefixSize)).2).accessSpace
      fs.regions.length =
      putUvarint (rawKey.drop keyPrefixSize).length ++ rawKey.drop keyPrefixSize := by
    rw [allocateOverflow, FileStorage.allocateSpace, FileStorage.accessSpace]
    rw [HashMap.getD_eq_getElem _ _ _ (by simp)]
    rw [List.getElem_append_right (Nat.le_refl _)]
    simp
  refine ⟨?_, ?_, ?_, ?_, ?_, ?_⟩
  · intro h
    rw [createKey, if_pos h]
  · intro h
    rw [createKey, if_neg (by omega)]
    have hlen : (rawKey.take keyPrefixSize).length = keyPrefixSize := by
      rw [List.length_take]
      rw [keyPrefixSize, maxKeySize]
      rw [maxKeySize] at h
      omega
    refine ⟨?_, ?_, ?_⟩
    · simp only [List.length_append, hlen, be64_length]
      rfl
    · rfl
    · exact haccK
  · by_cases h : rawKey.length < maxKeySize
    · rw [createKey, if_pos h]
      rw [readKeyAll, if_pos h]
    · rw [createKey, if_neg h]
      have hlen : (rawKey.take keyPrefixSize).length = keyPrefixSize := by
        rw [List.length_take]
        rw [keyPrefixSize, maxKeySize]
        rw [maxKeySize] at h
        omega
      rw [readKeyAll, if_neg (by
        simp only [List.length_append, hlen, be64_length]
        rw [keyPrefixSize, maxKeySize]
        omega)]
      have hdrop : (rawKey.take keyPrefixSize ++
          be64 (allocateOverflow fs (rawKey.drop keyPrefixSize)).1).drop
          keyPrefixSize = be64 (allocateOverflow fs (rawKey.drop keyPrefixSize)).1 := by
        rw [List.drop_append_of_le_length (by omega)]
        rw [List.drop_of_length_le (by omega)]
        simp
      rw [hdrop]
      rw [show (allocateOverflow fs (rawKey.drop keyPrefixSize)).1 =
        fs.regions.length from rfl]
      rw [readBe64_be64 _ hfs]
      rw [show getOverflow (allocateOverflow fs (rawKey.drop keyPrefixSize)).2
          fs.regions.length = some (rawKey.drop keyPrefixSize) from
        getOverflow_allocateOverflow fs (rawKey.drop keyPrefixSize)]
      have htake : (rawKey.take keyPrefixSize ++
          be64 fs.regions.length).take
          keyPrefixSize = rawKey.take keyPrefixSize := by
        rw [List.take_append_of_le_length (by omega)]
        exact List.take_of_length_le (by omega)
      simp [htake, List.take_append_drop]
  · intro h
    rw [createValue, if_pos h]
  · intro h
    rw [createValue, if_neg (by omega)]
    have hlen : (rawValue.take (maxValueSize - 8)).length = maxValueSize - 8 := by
      rw [List.length_take]
      rw [maxValueSize]
      rw [maxValueSize] at h
      omega
    refine ⟨?_, rfl⟩
    simp only [List.length_append, hlen, be64_length]
    rfl
  · by_cases h : rawValue.length < maxValueSize
    · rw [createValue, if_pos h]
      rw [readValue, if_pos h]
    · rw [createValue, if_neg h]
      have hlen : (rawValue.take (maxValueSize - 8)).length = maxValueSize - 8 := by
        rw [List.length_take]
        rw [maxValueSize]
        rw [maxValueSize] at h
        omega
      rw [readValue, if_neg (by
        simp only [List.length_append, hlen, be64_length]
        rw [maxValueSize]
        omega)]
      have haccV : ((allocateOverflow fs (rawValue.drop (maxValueSize - 8))).2).accessSpace
          fs.regions.length =
          putUvarint (rawValue.drop (maxValueSize - 8)).length ++
            rawValue.drop (maxValueSize - 8) := by
        rw [allocateOverflow, FileStorage.allocateSpace, FileStorage.accessSpace]
        rw [HashMap.getD_eq_getElem _ _ _ (by simp)]
        rw [List.getElem_append_right (Nat.le_refl _)]
        simp
      have hdrop : (rawValue.take (maxValueSize - 8) ++
          be64 (allocateOverflow fs (rawValue.drop (maxValueSize - 8))).1).drop
          (maxValueSize - 8) =
          be64 (allocateOverflow fs (rawValue.drop (maxValueSize - 8))).1 := by
        rw [List.drop_append_of_le_length (by omega)]
        rw [List.drop_of_length_le (by omega)]
        simp
      rw [hdrop]
      rw [show (allocateOverflow fs (rawValue.drop (maxValueSize - 8))).1 =
        fs.regions.length from rfl]
      rw [readBe64_be64 _ hfs]
      rw [show getOverflow (allocateOverflow fs (rawValue.drop (maxValueSize - 8))).2
          fs.regions.length = some (rawValue.drop (maxValueSize - 8)) from
        getOverflow_allocateOverflow fs (rawValue.drop (maxValueSize - 8))]
      have htake : (rawValue.take (maxValueSize - 8) ++
          be64 fs.regions.length).take
          (maxValueSize - 8) = rawValue.take (maxValueSize - 8) := by
        rw [List.take_append_of_le_length (by omega)]
        exact List.take_of_length_le (by omega)
      simp [htake, List.take_append_drop]

theorem claim_C8_witness :
    (⟨[]⟩ : FileStorage).regions.length < 2 ^ 64 ∧
      ((((List.replicate 300 1 : Bytes).length < maxKeySize →
        createKey ⟨[]⟩ (List.replicate 300 1) = (List.replicate 300 1, ⟨[]⟩)) ∧
        (maxKeySize ≤ (List.replicate 300 1 : Bytes).length →
          (createKey ⟨[]⟩ (List.replicate 300 1)).1.length = maxKeySize ∧
          (createKey ⟨[]⟩ (List.replicate 300 1)).1 =
            (List.replicate 300 1 : Bytes).take keyPrefixSize ++
              be64 (⟨[]⟩ : FileStorage).regions.length ∧
          (createKey ⟨[]⟩ (List.replicate 300 1)).2.accessSpace
              (⟨[]⟩ : FileStorage).regions.length =
            putUvarint ((List.replicate 300 1 : Bytes).drop keyPrefixSize).length ++
              (List.replicate 300 1 : Bytes).drop keyPrefixSize) ∧
        readKeyAll (createKey ⟨[]⟩ (List.replicate 300 1)).2
            (createKey ⟨[]⟩ (List.replicate 300 1)).1 =
          some (List.replicate 300 1) ∧
        (([2, 3] : Bytes).length < maxValueSize →
          createValue ⟨[]⟩ [2, 3] = ([2, 3], ⟨[]⟩)) ∧
        (maxValueSize ≤ ([2, 3] : Bytes).length →
          (createValue ⟨[]⟩ [2, 3]).1.length = maxValueSize ∧
          (createValue ⟨[]⟩ [2, 3]).1 =
            ([2, 3] : Bytes).take (maxValueSize - 8) ++
              be64 (⟨[]⟩ : FileStorage).regions.length) ∧
        readValue (createValue ⟨[]⟩ [2, 3]).2 (createValue ⟨[]⟩ [2, 3]).1 =
          some [2, 3])) :=
  ⟨by decide, claim_C8 ⟨[]⟩ (List.replicate 300 1) [2, 3] (by decide)⟩

theorem nonLeafRebalance_over_id (fuel : Nat) (bpt : BPTree)
    (path : BPTree.RecordPath) (i : Nat) (h1 : 1 ≤ fuel)
    (h : (bpt.getNonLeaf (path.getD i (0, 0)).1).loadSize ≤
      nonLeafOverloadThreshold) :
    BPTree.nonLeafRebalance fuel true bpt path i = (bpt, path) := by
  obtain ⟨f, rfl⟩ : ∃ f, fuel = f + 1 := ⟨fuel - 1, by omega⟩
  rw [BPTree.nonLeafRebalance]
  rw [if_pos h]

theorem nonLeafRebalance_under_id (fuel : Nat) (bpt : BPTree)
    (path : BPTree.RecordPath) (i : Nat) (h1 : 1 ≤ fuel)
    (h : if i = 0 then
      (bpt.getNonLeaf (path.getD 0 (0, 0)).1).numberOfChildren ≠ 1
    else
      nonLeafUnderloadThreshold ≤
        (bpt.getNonLeaf (path.getD i (0, 0)).1).loadSize) :
    BPTree.nonLeafRebalance fuel false bpt path i = (bpt, path) := by
  obtain ⟨f, rfl⟩ : ∃ f, fuel = f + 1 := ⟨fuel - 1, by omega⟩
  rw [BPTree.nonLeafRebalance]
  by_cases hi : i = 0
  · subst hi
    rw [if_pos rfl]
    rw [if_pos rfl] at h
    rw [if_neg h]
  · rw [if_neg hi] at h
    rw [if_neg hi, if_pos h]

theorem syncKeyLoop_skip (lfAddr : Int) (c : Nat) (bpt : BPTree)
    (path : BPTree.RecordPath)
    (hall : ∀ k, k < c → (path.getD k (0, 0)).2 = 0) :
    BPTree.syncKeyLoop lfAddr c bpt path = (bpt, path) := by
  induction c with
  | zero => rfl
  | succ c ih =>
    rw [BPTree.syncKeyLoop]
    rw [if_neg (by have := hall c (by omega); omega)]
    exact ih (fun k hk => hall k (by omega))

theorem syncKeyLoop_hit (lfAddr : Int) (c : Nat) (bpt : BPTree)
    (path : BPTree.RecordPath) (j : Nat) (hjc : j < c)
    (hJ : 1 ≤ (path.getD j (0, 0)).2)
    (hskip : ∀ k, j < k → k < c → (path.getD k (0, 0)).2 = 0)
    (hunder : if j = 0 then
      ((BPTree.syncKeySetKey bpt lfAddr path j).getNonLeaf
        (path.getD 0 (0, 0)).1).numberOfChildren ≠ 1
    else
      nonLeafUnderloadThreshold ≤
        ((BPTree.syncKeySetKey bpt lfAddr path j).getNonLeaf
          (path.getD j (0, 0)).1).loadSize)
    (hover : ((BPTree.syncKeySetKey bpt lfAddr path j).getNonLeaf
      (path.getD j (0, 0)).1).loadSize ≤ nonLeafOverloadThreshold) :
    BPTree.syncKeyLoop lfAddr c bpt path =
      (BPTree.syncKeySetKey bpt lfAddr path j, path) := by
  induction c with
  | zero => omega
  | succ c ih =>
    rw [BPTree.syncKeyLoop]
    by_cases hcj : c = j
    · subst hcj
      rw [if_pos hJ]
      have hu := nonLeafRebalance_under_id
        ((BPTree.syncKeySetKey bpt lfAddr path c).height + 4)
        (BPTree.syncKeySetKey bpt lfAddr path c) path c (by omega) hunder
      show BPTree.nonLeafRebalance
          ((BPTree.syncKeySetKey bpt lfAddr path c).height + 4) true
          (BPTree.nonLeafRebalance
            ((BPTree.syncKeySetKey bpt lfAddr path c).height + 4) false
            (BPTree.syncKeySetKey bpt lfAddr path c) path c).1
          (BPTree.nonLeafRebalance
            ((BPTree.syncKeySetKey bpt lfAddr path c).height + 4) false
            (BPTree.syncKeySetKey bpt lfAddr path c) path c).2 c =
        (BPTree.syncKeySetKey bpt lfAddr path c, path)
      rw [hu]
      exact nonLeafRebalance_over_id _ _ _ _ (by omega) hover
    · rw [if_neg (by have := hskip c (by omega) (by omega); omega)]
      exact ih (by omega) (fun k h1 h2 => hskip k h1 (by omega))

/-- Claim C7: after an insert or delete at a leaf, `syncKey` is the
identity when the touched record index is at least 1 (or the path is
the bare root); when the touched index is 0 it walks the recorded path
upward passing over every ancestor whose child index is 0, and at the
first ancestor whose child index is at least 1 it overwrites that
ancestor's separator key at that child position with the leaf's new
first key and stops — stated here with the ancestor's node within its
load bounds after the write (and, for the root, keeping more than one
child), so that the write triggers no rebalancing. -/
theorem claim_C7 (bpt : BPTree) (path : BPTree.RecordPath) :
    ((1 ≤ (path.getD (path.length - 1) (0, 0)).2 ∨ path.length < 2) →
      bpt.syncKey path = (bpt, path)) ∧
    (2 ≤ path.length →
      (∀ k, k ≤ path.length - 2 → (path.getD k (0, 0)).2 = 0) →
      bpt.syncKey path = (bpt, path)) ∧
    (∀ j, 2 ≤ path.length → j ≤ path.length - 2 →
      (path.getD (path.length - 1) (0, 0)).2 = 0 →
      1 ≤ (path.getD j (0, 0)).2 →
      (∀ k, j < k → k ≤ path.length - 2 → (path.getD k (0, 0)).2 = 0) →
      (if j = 0 then
        ((BPTree.syncKeySetKey bpt (path.getD (path.length - 1) (0, 0)).1
          path j).getNonLeaf (path.getD 0 (0, 0)).1).numberOfChildren ≠ 1
      else
        nonLeafUnderloadThreshold ≤
          ((BPTree.syncKeySetKey bpt (path.getD (path.length - 1) (0, 0)).1
            path j).getNonLeaf (path.getD j (0, 0)).1).loadSize) →
      ((BPTree.syncKeySetKey bpt (path.getD (path.length - 1) (0, 0)).1
        path j).getNonLeaf (path.getD j (0, 0)).1).loadSize ≤
        nonLeafOverloadThreshold →
      bpt.syncKey path =
        (BPTree.syncKeySetKey bpt (path.getD (path.length - 1) (0, 0)).1 path j,
          path)) := by
  refine ⟨?_, ?_, ?_⟩
  · intro h
    rw [BPTree.syncKey]
    by_cases hlen : path.length < 2
    · rw [if_pos hlen]
    · rw [if_neg hlen]
      rw [if_pos (by omega)]
  · intro hlen hall
    rw [BPTree.syncKey]
    rw [if_neg (by omega)]
    by_cases hlast : 1 ≤ (path.getD (path.length - 1) (0, 0)).2
    · rw [if_pos hlast]
    · rw [if_neg hlast]
      exact syncKeyLoop_skip _ _ _ _ (fun k hk => hall k (by omega))
  · intro j hlen hj hlast hJ hskip hunder hover
    rw [BPTree.syncKey]
    rw [if_neg (by omega), if_neg (by omega)]
    exact syncKeyLoop_hit _ _ _ _ j (by omega) hJ
      (fun k h1 h2 => hskip k h1 (by omega)) hunder hover

theorem claim_C7_witness :
    ({
      fileStorage := ⟨[]⟩,
      leafs := [(1, ⟨2, 2, [([5], [50])]⟩), (2, ⟨1, 1, [([7], [70])]⟩)],
      nonLeafs := [(0, ⟨[([], 1), ([7], 2)]⟩)],
      nextNodeAddr := 3,
      rootAddr := 0,
      height := 2,
      leafHeadAddr := 1,
      leafTailAddr := 2,
      leafCount := 2,
      nonLeafCount := 1,
      recordCount := 2,
      payloadSize := 4 } :
        BPTree).syncKey [((0 : Int), (1 : Nat)), ((2 : Int), (0 : Nat))] =
      (BPTree.syncKeySetKey
        ({
          fileStorage := ⟨[]⟩,
          leafs := [(1, ⟨2, 2, [([5], [50])]⟩), (2, ⟨1, 1, [([7], [70])]⟩)],
          nonLeafs := [(0, ⟨[([], 1), ([7], 2)]⟩)],
          nextNodeAddr := 3,
          rootAddr := 0,
          height := 2,
          leafHeadAddr := 1,
          leafTailAddr := 2,
          leafCount := 2,
          nonLeafCount := 1,
          recordCount := 2,
          payloadSize := 4 } : BPTree)
        (([((0 : Int), (1 : Nat)), ((2 : Int), (0 : Nat))].getD
          ([((0 : Int), (1 : Nat)), ((2 : Int), (0 : Nat))].length - 1)
          (0, 0)).1)
        [((0 : Int), (1 : Nat)), ((2 : Int), (0 : Nat))] 0,
        [((0 : Int), (1 : Nat)), ((2 : Int), (0 : Nat))]) :=
  (claim_C7
    ({
      fileStorage := ⟨[]⟩,
      leafs := [(1, ⟨2, 2, [([5], [50])]⟩), (2, ⟨1, 1, [([7], [70])]⟩)],
      nonLeafs := [(0, ⟨[([], 1), ([7], 2)]⟩)],
      nextNodeAddr := 3,
      rootAddr := 0,
      height := 2,
      leafHeadAddr := 1,
      leafTailAddr := 2,
      leafCount := 2,
      nonLeafCount := 1,
      recordCount := 2,
      payloadSize := 4 } : BPTree)
    [((0 : Int), (1 : Nat)), ((2 : Int), (0 : Nat))]).2.2 0 (by decide)
    (by decide) (by decide) (by decide)
    (by
      intro k h1 h2
      simp only [List.length_cons, List.length_nil] at h2
      omega)
    (by decide) (by decide)

theorem leafListRemove_rc (b : BPTree) (a : Int) :
    (b.leafListRemove a).recordCount = b.recordCount := by
  rw [BPTree.leafListRemove]
  repeat' split
  all_goals rfl

theorem leafListRemove_fs (b : BPTree) (a : Int) :
    (b.leafListRemove a).fileStorage = b.fileStorage := by
  rw [BPTree.leafListRemove]
  repeat' split
  all_goals rfl

theorem leafListInsertAfter_rc (b : BPTree) (a c : Int) :
    (b.leafListInsertAfter a c).recordCount = b.recordCount := by
  rw [BPTree.leafListInsertAfter]
  repeat' split
  all_goals rfl

theorem leafListInsertAfter_fs (b : BPTree) (a c : Int) :
    (b.leafListInsertAfter a c).fileStorage = b.fileStorage := by
  rw [BPTree.leafListInsertAfter]
  repeat' split
  all_goals rfl

theorem mergeLeafFromRight_rc (b : BPTree) (w p : Int) (i : Nat) (r : Int) :
    (b.mergeLeafFromRight w p i r).recordCount = b.recordCount := rfl

theorem mergeLeafFromRight_fs (b : BPTree) (w p : Int) (i : Nat) (r : Int) :
    (b.mergeLeafFromRight w p i r).fileStorage = b.fileStorage := rfl

theorem destroyLeaf_rc (b : BPTree) (a : Int) :
    (b.destroyLeaf a).recordCount = b.recordCount := rfl

theorem destroyLeaf_fs (b : BPTree) (a : Int) :
    (b.destroyLeaf a).fileStorage = b.fileStorage := rfl

/-- Rebalancing moves records between pages but never changes the
record count or touches the file storage (only `insertRecord` /
`removeRecord` adjust the count, after rebalancing). -/
theorem nonLeafRebalance_preserves (fuel : Nat) :
    ∀ (mode : Bool) (bpt : BPTree) (path : BPTree.RecordPath) (i : Nat),
      (BPTree.nonLeafRebalance fuel mode bpt path i).1.recordCount =
        bpt.recordCount ∧
      (BPTree.nonLeafRebalance fuel mode bpt path i).1.fileStorage =
        bpt.fileStorage := by
  induction fuel with
  | zero => intro mode bpt path i; cases mode <;> exact ⟨rfl, rfl⟩
  | succ fuel ih =>
    have ih1 : ∀ (mode : Bool) (bpt : BPTree) (path : BPTree.RecordPath)
        (i : Nat),
        (BPTree.nonLeafRebalance fuel mode bpt path i).1.recordCount =
          bpt.recordCount := fun m b p i => (ih m b p i).1
    have ih2 : ∀ (mode : Bool) (bpt : BPTree) (path : BPTree.RecordPath)
        (i : Nat),
        (BPTree.nonLeafRebalance fuel mode bpt path i).1.fileStorage =
          bpt.fileStorage := fun m b p i => (ih m b p i).2
    intro mode bpt path i
    cases mode
    · rw [BPTree.nonLeafRebalance]
      repeat' split
      all_goals constructor
      all_goals repeat' (first | rfl | split | simp only [ih1, ih2])
    · rw [BPTree.nonLeafRebalance]
      repeat' split
      all_goals constructor
      all_goals repeat' (first | rfl | split | simp only [ih1, ih2])

theorem ensureNotUnderloadLeaf_preserves (fuel : Nat) (bpt : BPTree)
    (path : BPTree.RecordPath) :
    (BPTree.ensureNotUnderloadLeaf fuel bpt path).1.recordCount =
      bpt.recordCount ∧
    (BPTree.ensureNotUnderloadLeaf fuel bpt path).1.fileStorage =
      bpt.fileStorage := by
  have p1 : ∀ (mode : Bool) (bpt : BPTree) (path : BPTree.RecordPath)
      (i : Nat),
      (BPTree.nonLeafRebalance fuel mode bpt path i).1.recordCount =
        bpt.recordCount := fun m b p i => (nonLeafRebalance_preserves fuel m b p i).1
  have p2 : ∀ (mode : Bool) (bpt : BPTree) (path : BPTree.RecordPath)
      (i : Nat),
      (BPTree.nonLeafRebalance fuel mode bpt path i).1.fileStorage =
        bpt.fileStorage := fun m b p i => (nonLeafRebalance_preserves fuel m b p i).2
  rw [BPTree.ensureNotUnderloadLeaf]
  repeat' split
  all_goals constructor
  all_goals repeat' (first | rfl | split | simp only [p1, p2, leafListRemove_rc, leafListRemove_fs, leafListInsertAfter_rc, leafListInsertAfter_fs, mergeLeafFromRight_rc, mergeLeafFromRight_fs, destroyLeaf_rc, destroyLeaf_fs])

theorem ensureNotOverloadLeaf_preserves (fuel : Nat) (bpt : BPTree)
    (path : BPTree.RecordPath) :
    (BPTree.ensureNotOverloadLeaf fuel bpt path).1.recordCount =
      bpt.recordCount ∧
    (BPTree.ensureNotOverloadLeaf fuel bpt path).1.fileStorage =
      bpt.fileStorage := by
  have p1 : ∀ (mode : Bool) (bpt : BPTree) (path : BPTree.RecordPath)
      (i : Nat),
      (BPTree.nonLeafRebalance fuel mode bpt path i).1.recordCount =
        bpt.recordCount := fun m b p i => (nonLeafRebalance_preserves fuel m b p i).1
  have p2 : ∀ (mode : Bool) (bpt : BPTree) (path : BPTree.RecordPath)
      (i : Nat),
      (BPTree.nonLeafRebalance fuel mode bpt path i).1.fileStorage =
        bpt.fileStorage := fun m b p i => (nonLeafRebalance_preserves fuel m b p i).2
  rw [BPTree.ensureNotOverloadLeaf]
  repeat' split
  all_goals constructor
  all_goals repeat' (first | rfl | split | simp only [p1, p2, leafListRemove_rc, leafListRemove_fs, leafListInsertAfter_rc, leafListInsertAfter_fs, mergeLeafFromRight_rc, mergeLeafFromRight_fs, destroyLeaf_rc, destroyLeaf_fs])

theorem syncKeyLoop_preserves (lfAddr : Int) (c : Nat) :
    ∀ (bpt : BPTree) (path : BPTree.RecordPath),
      (BPTree.syncKeyLoop lfAddr c bpt path).1.recordCount =
        bpt.recordCount ∧
      (BPTree.syncKeyLoop lfAddr c bpt path).1.fileStorage =
        bpt.fileStorage := by
  induction c with
  | zero => intro bpt path; exact ⟨rfl, rfl⟩
  | succ c ih =>
    intro bpt path
    rw [BPTree.syncKeyLoop]
    split
    · constructor
      · rw [(nonLeafRebalance_preserves _ _ _ _ _).1,
          (nonLeafRebalance_preserves _ _ _ _ _).1]
        rfl
      · rw [(nonLeafRebalance_preserves _ _ _ _ _).2,
          (nonLeafRebalance_preserves _ _ _ _ _).2]
        rfl
    · exact ih bpt path

theorem syncKey_preserves (bpt : BPTree) (path : BPTree.RecordPath) :
    (bpt.syncKey path).1.recordCount = bpt.recordCount ∧
    (bpt.syncKey path).1.fileStorage = bpt.fileStorage := by
  rw [BPTree.syncKey]
  repeat' split
  all_goals first
    | exact ⟨rfl, rfl⟩
    | exact syncKeyLoop_preserves _ _ _ _

theorem NodeRep.height_pos {bpt : BPTree} {h : Nat} {addr : Int}
    {entries : List (Bytes × Bytes)} (hrep : NodeRep bpt h addr entries) :
    1 ≤ h := by
  cases hrep <;> omega

theorem flatten_getD_zero {α : Type} (recss : List (List α)) (d : α)
    (h0 : recss ≠ []) (hne : ∀ rs ∈ recss, rs ≠ []) :
    recss.flatten.getD 0 d = (recss.getD 0 []).getD 0 d := by
  cases recss with
  | nil => exact absurd rfl h0
  | cons r rest =>
    have hr : r ≠ [] := hne r (List.mem_cons_self _ _)
    cases r with
    | nil => exact absurd rfl hr
    | cons a t => simp

theorem flatten_getD_last {α : Type} (recss : List (List α)) (d : α)
    (h0 : recss ≠ []) (hne : ∀ rs ∈ recss, rs ≠ []) :
    recss.flatten.getD (recss.flatten.length - 1) d =
      (recss.getD (recss.length - 1) []).getD
        ((recss.getD (recss.length - 1) []).length - 1) d := by
  rcases List.eq_nil_or_concat recss with hnil | ⟨L, b, rfl⟩
  · exact absurd hnil h0
  · rw [List.concat_eq_append] at hne ⊢
    have hb : b ≠ [] := hne b (by simp)
    have hflat : (L ++ [b]).flatten = L.flatten ++ b := by
      rw [List.flatten_append]
      simp
    have hlast : (L ++ [b]).getD ((L ++ [b]).length - 1) [] = b := by
      rw [List.getD_eq_getElem?_getD]
      rw [show (L ++ [b]).length - 1 = L.length by simp]
      rw [List.getElem?_append_right (Nat.le_refl _)]
      simp
    rw [hflat, hlast]
    rw [List.getD_eq_getElem?_getD]
    have hlen : (L.flatten ++ b).length - 1 = L.flatten.length + (b.length - 1) := by
      have : 1 ≤ b.length := by
        cases b with
        | nil => exact absurd rfl hb
        | cons x xs => simp
      simp only [List.length_append]
      omega
    rw [hlen]
    rw [List.getElem?_append_right (by omega)]
    rw [show L.flatten.length + (b.length - 1) - L.flatten.length = b.length - 1
      by omega]
    rw [List.getD_eq_getElem?_getD]

theorem findRecordLoop_min (bpt : BPTree) :
    ∀ (h : Nat) (addr : Int) (entries : List (Bytes × Bytes)),
      NodeRep bpt h addr entries → entries ≠ [] →
      ∀ (fuel : Nat) (path : BPTree.RecordPath),
        h ≤ fuel → path.length + h = bpt.height →
        ∃ (leafAddr : Int) (lf : LeafNode) (mid : BPTree.RecordPath),
          bpt.leafs.lookup leafAddr = some lf ∧
          lf.records ≠ [] ∧
          lf.records.getD 0 default = entries.getD 0 default ∧
          BPTree.findRecordLoop bpt .minSent fuel addr path =
            (path ++ mid ++ [(leafAddr, 0)], true) := by
  intro h addr entries hrep
  induction hrep with
  | leaf addr lf hlookup =>
    intro hne fuel path hfuel hlen
    obtain ⟨f, rfl⟩ : ∃ f, fuel = f + 1 := ⟨fuel - 1, by omega⟩
    refine ⟨addr, lf, [], hlookup, hne, rfl, ?_⟩
    rw [BPTree.findRecordLoop]
    rw [if_pos hlen]
    have hget : bpt.getLeaf addr = lf := by
      rw [BPTree.getLeaf, assocGet, hlookup]
    rw [hget]
    rw [show LeafNode.locateRecord bpt.fileStorage lf .minSent = (0, true)
      from rfl]
    simp
  | node h addr nl recss hlookup hchn hlen2 hkids hne2 ih =>
    intro hne fuel path hfuel hlen
    have hpos : 0 < nl.children.length := by
      cases hc : nl.children with
      | nil => exact absurd hc hchn
      | cons a l => simp [hc]
    have hh1 : 1 ≤ h := (hkids 0 hpos).height_pos
    obtain ⟨f, rfl⟩ : ∃ f, fuel = f + 1 := ⟨fuel - 1, by omega⟩
    have hrecne : recss ≠ [] := by
      intro hx
      rw [hx] at hlen2
      simp at hlen2
      omega
    have hchild0 : recss.getD 0 [] ≠ [] := by
      refine hne2 _ ?_
      rw [HashMap.getD_eq_getElem _ _ _ (by omega)]
      exact List.getElem_mem _
    obtain ⟨leafAddr, lf, mid, hlk, hlfne, hhead, hloop⟩ :=
      ih 0 hpos hchild0 f (path ++ [(addr, 0)]) (by omega)
        (by simp; omega)
    refine ⟨leafAddr, lf, (addr, 0) :: mid, hlk, hlfne, ?_, ?_⟩
    · rw [hhead]
      exact (flatten_getD_zero recss default hrecne hne2).symm
    · rw [BPTree.findRecordLoop]
      rw [if_neg (by omega)]
      have hgetn : bpt.getNonLeaf addr = nl := by
        rw [BPTree.getNonLeaf, assocGet, hlookup]
      rw [hgetn]
      have hloc : NonLeafNode.locateChild bpt.fileStorage nl .minSent =
          (0, true) := rfl
      rw [hloc]
      show BPTree.findRecordLoop bpt .minSent f
        (nl.getChildAddr 0) (path ++ [(addr, 0)]) = _
      rw [show nl.getChildAddr 0 = (nl.children.getD 0 default).2 from rfl]
      rw [hloop]
      simp

theorem findRecordLoop_max (bpt : BPTree) :
    ∀ (h : Nat) (addr : Int) (entries : List (Bytes × Bytes)),
      NodeRep bpt h addr entries → entries ≠ [] →
      ∀ (fuel : Nat) (path : BPTree.RecordPath),
        h ≤ fuel → path.length + h = bpt.height →
        ∃ (leafAddr : Int) (lf : LeafNode) (mid : BPTree.RecordPath),
          bpt.leafs.lookup leafAddr = some lf ∧
          lf.records ≠ [] ∧
          lf.records.getD (lf.records.length - 1) default =
            entries.getD (entries.length - 1) default ∧
          BPTree.findRecordLoop bpt .maxSent fuel addr path =
            (path ++ mid ++ [(leafAddr, lf.records.length - 1)], true) := by
  intro h addr entries hrep
  induction hrep with
  | leaf addr lf hlookup =>
    intro hne fuel path hfuel hlen
    obtain ⟨f, rfl⟩ : ∃ f, fuel = f + 1 := ⟨fuel - 1, by omega⟩
    refine ⟨addr, lf, [], hlookup, hne, rfl, ?_⟩
    rw [BPTree.findRecordLoop]
    rw [if_pos hlen]
    have hget : bpt.getLeaf addr = lf := by
      rw [BPTree.getLeaf, assocGet, hlookup]
    rw [hget]
    rw [show LeafNode.locateRecord bpt.fileStorage lf .maxSent =
      (lf.records.length - 1, true) from rfl]
    simp
  | node h addr nl recss hlookup hchn hlen2 hkids hne2 ih =>
    intro hne fuel path hfuel hlen
    have hpos : 0 < nl.children.length := by
      cases hc : nl.children with
      | nil => exact absurd hc hchn
      | cons a l => simp [hc]
    have hh1 : 1 ≤ h := (hkids 0 hpos).height_pos
    obtain ⟨f, rfl⟩ : ∃ f, fuel = f + 1 := ⟨fuel - 1, by omega⟩
    have hrecne : recss ≠ [] := by
      intro hx
      rw [hx] at hlen2
      simp at hlen2
      omega
    have hlastlt : nl.children.length - 1 < nl.children.length := by omega
    have hchildl : recss.getD (recss.length - 1) [] ≠ [] := by
      refine hne2 _ ?_
      rw [HashMap.getD_eq_getElem _ _ _ (by
        have : 0 < recss.length := by omega
        omega)]
      exact List.getElem_mem _
    have hkidl := hkids (nl.children.length - 1) hlastlt
    rw [← hlen2] at hkidl
    obtain ⟨leafAddr, lf, mid, hlk, hlfne, hlast, hloop⟩ :=
      ih (nl.children.length - 1) hlastlt (by rw [hlen2] at hchildl; exact hchildl)
        f (path ++ [(addr, nl.children.length - 1)]) (by omega)
        (by simp; omega)
    refine ⟨leafAddr, lf, (addr, nl.children.length - 1) :: mid, hlk, hlfne, ?_, ?_⟩
    · rw [hlast]
      rw [show recss.getD (nl.children.length - 1) [] =
        recss.getD (recss.length - 1) [] by rw [hlen2]]
      exact (flatten_getD_last recss default hrecne hne2).symm
    · rw [BPTree.findRecordLoop]
      rw [if_neg (by omega)]
      have hgetn : bpt.getNonLeaf addr = nl := by
        rw [BPTree.getNonLeaf, assocGet, hlookup]
      rw [hgetn]
      have hloc : NonLeafNode.locateChild bpt.fileStorage nl .maxSent =
          (nl.numberOfChildren - 1, true) := rfl
      rw [hloc]
      show BPTree.findRecordLoop bpt .maxSent f
        (nl.getChildAddr (nl.numberOfChildren - 1))
        (path ++ [(addr, nl.numberOfChildren - 1)]) = _
      rw [show nl.getChildAddr (nl.numberOfChildren - 1) =
        (nl.children.getD (nl.children.length - 1) default).2 from rfl]
      rw [show nl.numberOfChildren = nl.children.length from rfl]
      rw [hloop]
      simp

theorem removeRecord_result (bpt : BPTree) (path : BPTree.RecordPath) :
    (bpt.removeRecord path).1 =
      (((bpt.getLeaf (bpt.locateRecordPath path).1).records.drop
        (bpt.locateRecordPath path).2).take 1).getD 0 default ∧
    (bpt.removeRecord path).2.recordCount = bpt.recordCount - 1 ∧
    (bpt.removeRecord path).2.fileStorage = bpt.fileStorage := by
  have e1 : ∀ (f : Nat) (b : BPTree) (p : BPTree.RecordPath),
      (BPTree.ensureNotUnderloadLeaf f b p).1.recordCount = b.recordCount :=
    fun f b p => (ensureNotUnderloadLeaf_preserves f b p).1
  have e2 : ∀ (f : Nat) (b : BPTree) (p : BPTree.RecordPath),
      (BPTree.ensureNotUnderloadLeaf f b p).1.fileStorage = b.fileStorage :=
    fun f b p => (ensureNotUnderloadLeaf_preserves f b p).2
  have s1 : ∀ (b : BPTree) (p : BPTree.RecordPath),
      (b.syncKey p).1.recordCount = b.recordCount :=
    fun b p => (syncKey_preserves b p).1
  have s2 : ∀ (b : BPTree) (p : BPTree.RecordPath),
      (b.syncKey p).1.fileStorage = b.fileStorage :=
    fun b p => (syncKey_preserves b p).2
  refine ⟨rfl, ?_, ?_⟩
  · rw [BPTree.removeRecord]
    simp only [e1, s1]
    rfl
  · rw [BPTree.removeRecord]
    simp only [e2, s2]
    rfl

theorem destroyRecord_fst (b : BPTree) (rec : Bytes × Bytes) :
    (b.destroyRecord rec true).1 =
      some ((readValue b.fileStorage rec.2).getD []) := rfl

theorem destroyRecord_rc (b : BPTree) (rec : Bytes × Bytes) (rv : Bool) :
    (b.destroyRecord rec rv).2.recordCount = b.recordCount := rfl

/-- Claim C10: on a non-empty, well-formed B+ tree (a tree whose store
represents a sorted record list), the point operations accept the
sentinel objects: `HasRecord MinKey` returns true with the value of
the record holding the smallest key (the first record in leaf order),
`HasRecord MaxKey` the value of the record holding the largest key,
and `DeleteRecord` likewise removes exactly that record, because node
search short-circuits on sentinel identity to child/record index 0 or
`n-1`. -/
theorem claim_C10 (bpt : BPTree) (entries : List (Bytes × Bytes))
    (hrep : NodeRep bpt bpt.height bpt.rootAddr entries)
    (hne : entries ≠ []) (hcnt : bpt.recordCount ≠ 0)
    (hsorted : entries.Pairwise (fun a b => bytesCompare a.1 b.1 < 0)) :
    bpt.hasRecord .minSent true =
      (some ((readValue bpt.fileStorage (entries.getD 0 default).2).getD []),
        true) ∧
    bpt.hasRecord .maxSent true =
      (some ((readValue bpt.fileStorage
        (entries.getD (entries.length - 1) default).2).getD []), true) ∧
    ((bpt.deleteRecord .minSent true).1 =
      (some ((readValue bpt.fileStorage (entries.getD 0 default).2).getD []),
        true) ∧
      (bpt.deleteRecord .minSent true).2.recordCount = bpt.recordCount - 1) ∧
    ((bpt.deleteRecord .maxSent true).1 =
      (some ((readValue bpt.fileStorage
        (entries.getD (entries.length - 1) default).2).getD []), true) ∧
      (bpt.deleteRecord .maxSent true).2.recordCount = bpt.recordCount - 1) := by
  obtain ⟨la1, lf1, mid1, hlk1, hne1, hhead1, hloop1⟩ :=
    findRecordLoop_min bpt bpt.height bpt.rootAddr entries hrep hne bpt.height
      [] (Nat.le_refl _) (by simp)
  obtain ⟨la2, lf2, mid2, hlk2, hne2, hlast2, hloop2⟩ :=
    findRecordLoop_max bpt bpt.height bpt.rootAddr entries hrep hne bpt.height
      [] (Nat.le_refl _) (by simp)
  have hfr1 : bpt.findRecord .minSent = ([] ++ mid1 ++ [(la1, 0)], true) := by
    rw [BPTree.findRecord, if_neg hcnt]
    exact hloop1
  have hfr2 : bpt.findRecord .maxSent =
      ([] ++ mid2 ++ [(la2, lf2.records.length - 1)], true) := by
    rw [BPTree.findRecord, if_neg hcnt]
    exact hloop2
  have hpath1 : bpt.locateRecordPath ([] ++ mid1 ++ [(la1, 0)]) = (la1, 0) := by
    rw [BPTree.locateRecordPath]
    simp
  have hpath2 : bpt.locateRecordPath
      ([] ++ mid2 ++ [(la2, lf2.records.length - 1)]) =
      (la2, lf2.records.length - 1) := by
    rw [BPTree.locateRecordPath]
    simp
  have hgl1 : bpt.getLeaf la1 = lf1 := by
    rw [BPTree.getLeaf, assocGet, hlk1]
  have hgl2 : bpt.getLeaf la2 = lf2 := by
    rw [BPTree.getLeaf, assocGet, hlk2]
  have hval1 : lf1.records.getD 0 default = entries.getD 0 default := hhead1
  have hlastlt2 : lf2.records.length - 1 < lf2.records.length := by
    cases hx : lf2.records with
    | nil => exact absurd hx hne2
    | cons a l => simp
  refine ⟨?_, ?_, ⟨?_, ?_⟩, ⟨?_, ?_⟩⟩
  · rw [BPTree.hasRecord]
    simp only [hfr1]
    rw [BPTree.getValueAtPath]
    simp only [hpath1, hgl1, LeafNode.getValue, hval1]
    rfl
  · rw [BPTree.hasRecord]
    simp only [hfr2]
    rw [BPTree.getValueAtPath]
    simp only [hpath2, hgl2, LeafNode.getValue, hlast2]
    rfl
  · rw [BPTree.deleteRecord]
    simp only [hfr1]
    obtain ⟨hr1, hr2, hr3⟩ := removeRecord_result bpt ([] ++ mid1 ++ [(la1, 0)])
    rw [hpath1, hgl1] at hr1
    rw [show (((la1, (0 : Nat))) : Int × Nat).2 = 0 from rfl] at hr1
    have hrec : (bpt.removeRecord ([] ++ mid1 ++ [(la1, 0)])).1 =
        entries.getD 0 default := by
      rw [hr1, ← hval1]
      cases hx : lf1.records with
      | nil => exact absurd hx hne1
      | cons a l => simp
    show ((((bpt.removeRecord ([] ++ mid1 ++ [(la1, 0)])).2.destroyRecord
      (bpt.removeRecord ([] ++ mid1 ++ [(la1, 0)])).1 true).1, true)) = _
    rw [destroyRecord_fst, hr3, hrec]
  · rw [BPTree.deleteRecord]
    simp only [hfr1]
    obtain ⟨hr1, hr2, hr3⟩ := removeRecord_result bpt ([] ++ mid1 ++ [(la1, 0)])
    show (((bpt.removeRecord ([] ++ mid1 ++ [(la1, 0)])).2.destroyRecord
      (bpt.removeRecord ([] ++ mid1 ++ [(la1, 0)])).1 true).2).recordCount = _
    rw [destroyRecord_rc, hr2]
  · rw [BPTree.deleteRecord]
    simp only [hfr2]
    obtain ⟨hr1, hr2, hr3⟩ := removeRecord_result bpt
      ([] ++ mid2 ++ [(la2, lf2.records.length - 1)])
    rw [hpath2, hgl2] at hr1
    rw [show (((la2, lf2.records.length - 1)) : Int × Nat).2 =
      lf2.records.length - 1 from rfl] at hr1
    have hdt : ((lf2.records.drop (lf2.records.length - 1)).take 1).getD 0
        default = lf2.records.getD (lf2.records.length - 1) default := by
      rw [List.getD_eq_getElem?_getD, List.getD_eq_getElem?_getD]
      rw [List.getElem?_take]
      rw [if_pos (by omega)]
      rw [List.getElem?_drop]
      rw [Nat.add_zero]
    have hrec : (bpt.removeRecord
        ([] ++ mid2 ++ [(la2, lf2.records.length - 1)])).1 =
        entries.getD (entries.length - 1) default := by
      rw [hr1, hdt, hlast2]
    show ((((bpt.removeRecord
      ([] ++ mid2 ++ [(la2, lf2.records.length - 1)])).2.destroyRecord
      (bpt.removeRecord
        ([] ++ mid2 ++ [(la2, lf2.records.length - 1)])).1 true).1, true)) = _
    rw [destroyRecord_fst, hr3, hrec]
  · rw [BPTree.deleteRecord]
    simp only [hfr2]
    obtain ⟨hr1, hr2, hr3⟩ := removeRecord_result bpt
      ([] ++ mid2 ++ [(la2, lf2.records.length - 1)])
    show (((bpt.removeRecord
      ([] ++ mid2 ++ [(la2, lf2.records.length - 1)])).2.destroyRecord
      (bpt.removeRecord
        ([] ++ mid2 ++ [(la2, lf2.records.length - 1)])).1 true).2).recordCount = _
    rw [destroyRecord_rc, hr2]

theorem claim_C10_witness :
    (({
        fileStorage := ⟨[]⟩,
        leafs := [(0, ⟨0, 0, [([5], [50]), ([7], [70])]⟩)],
        nonLeafs := [],
        nextNodeAddr := 1,
        rootAddr := 0,
        height := 1,
        leafHeadAddr := 0,
        leafTailAddr := 0,
        leafCount := 1,
        nonLeafCount := 0,
        recordCount := 2,
        payloadSize := 4 } : BPTree).hasRecord .minSent true = (some [50], true)) ∧
    (({
        fileStorage := ⟨[]⟩,
        leafs := [(0, ⟨0, 0, [([5], [50]), ([7], [70])]⟩)],
        nonLeafs := [],
        nextNodeAddr := 1,
        rootAddr := 0,
        height := 1,
        leafHeadAddr := 0,
        leafTailAddr := 0,
        leafCount := 1,
        nonLeafCount := 0,
        recordCount := 2,
        payloadSize := 4 } : BPTree).hasRecord .maxSent true = (some [70], true)) ∧
    ((({
        fileStorage := ⟨[]⟩,
        leafs := [(0, ⟨0, 0, [([5], [50]), ([7], [70])]⟩)],
        nonLeafs := [],
        nextNodeAddr := 1,
        rootAddr := 0,
        height := 1,
        leafHeadAddr := 0,
        leafTailAddr := 0,
        leafCount := 1,
        nonLeafCount := 0,
        recordCount := 2,
        payloadSize := 4 } : BPTree).deleteRecord .minSent true).1 = (some [50], true) ∧
      (({
        fileStorage := ⟨[]⟩,
        leafs := [(0, ⟨0, 0, [([5], [50]), ([7], [70])]⟩)],
        nonLeafs := [],
        nextNodeAddr := 1,
        rootAddr := 0,
        height := 1,
        leafHeadAddr := 0,
        leafTailAddr := 0,
        leafCount := 1,
        nonLeafCount := 0,
        recordCount := 2,
        payloadSize := 4 } : BPTree).deleteRecord .minSent true).2.recordCount = 1) ∧
    ((({
        fileStorage := ⟨[]⟩,
        leafs := [(0, ⟨0, 0, [([5], [50]), ([7], [70])]⟩)],
        nonLeafs := [],
        nextNodeAddr := 1,
        rootAddr := 0,
        height := 1,
        leafHeadAddr := 0,
        leafTailAddr := 0,
        leafCount := 1,
        nonLeafCount := 0,
        recordCount := 2,
        payloadSize := 4 } : BPTree).deleteRecord .maxSent true).1 = (some [70], true) ∧
      (({
        fileStorage := ⟨[]⟩,
        leafs := [(0, ⟨0, 0, [([5], [50]), ([7], [70])]⟩)],
        nonLeafs := [],
        nextNodeAddr := 1,
        rootAddr := 0,
        height := 1,
        leafHeadAddr := 0,
        leafTailAddr := 0,
        leafCount := 1,
        nonLeafCount := 0,
        recordCount := 2,
        payloadSize := 4 } : BPTree).deleteRecord .maxSent true).2.recordCount = 1) :=
  claim_C10 ({
        fileStorage := ⟨[]⟩,
        leafs := [(0, ⟨0, 0, [([5], [50]), ([7], [70])]⟩)],
        nonLeafs := [],
        nextNodeAddr := 1,
        rootAddr := 0,
        height := 1,
        leafHeadAddr := 0,
        leafTailAddr := 0,
        leafCount := 1,
        nonLeafCount := 0,
        recordCount := 2,
        payloadSize := 4 } : BPTree) [([5], [50]), ([7], [70])]
    (NodeRep.leaf 0 ⟨0, 0, [([5], [50]), ([7], [70])]⟩ rfl)
    (by decide) (by decide) (by decide)

end PlainKV
